import Mathlib

/-!
# fs_edge: standings ingestion and competition score aggregation

A shallow embedding of

* `supabase/functions/scrape-results/index.ts` (the `serve` handler: tag stripping,
  anchor search, line filter, entry tokenising, identity resolution, points lookup,
  insertion of `Result` rows), and
* `src/CompetitionPage.jsx` (`fetchCompetitionResults`: per-team totals, starts,
  ordering and points per start).

JavaScript strings are lists of characters and the store's tables are lists of rows whose
reads succeed; an insert may be refused by the store. Numbers: `Number(<digits>)`, the
points of a `Result` row, their running total and the quotient `totalPoints / starts` are
IEEE-754 doubles and every operation on them rounds as such; ids, group sizes and the
number of starts (a count of records, far below `2 ^ 53`) are integers.
-/

namespace FsEdge

/-! ## Strings -/

/-- A JavaScript string, as the list of its characters. A character outside the basic
plane is one element here and two code units in JavaScript; the handler only uses indices
that `indexOf` returned, and its patterns only name ASCII characters and white space, so
the operations below act alike on both. -/
abbrev Str := List Char

/-- The characters matched by `\s` and removed by `String.prototype.trim`
(ECMAScript WhiteSpace and LineTerminator). -/
def isWhiteSpace (c : Char) : Bool :=
  let n := c.toNat
  n == 9 || n == 10 || n == 11 || n == 12 || n == 13 || n == 32 || n == 0xA0 || n == 0x1680 ||
  (0x2000 ≤ n && n ≤ 0x200A) || n == 0x2028 || n == 0x2029 || n == 0x202F || n == 0x205F ||
  n == 0x3000 || n == 0xFEFF

/-- The characters matched by `\d` (no `u` flag): `0`..`9`. -/
def isDigit (c : Char) : Bool := 48 ≤ c.toNat && c.toNat ≤ 57

/-- The method `String.prototype.trim`. -/
def trim (s : Str) : Str :=
  ((s.dropWhile isWhiteSpace).reverse.dropWhile isWhiteSpace).reverse

/-- The search of `s.indexOf(pat)`, from offset `i` of the original string. -/
def indexOfFrom (pat : Str) : Str → Nat → Int
  | [], i => if pat = [] then (i : Int) else -1
  | c :: cs, i => if pat.isPrefixOf (c :: cs) then (i : Int) else indexOfFrom pat cs (i + 1)

/-- The call `s.indexOf(pat)`: the index of the first occurrence, or `-1`. -/
def indexOf (s pat : Str) : Int := indexOfFrom pat s 0

/-- Clamping of a relative index as `String.prototype.slice` does it. -/
def clampIndex (len : Nat) (i : Int) : Nat :=
  if i < 0 then (max ((len : Int) + i) 0).toNat else min i.toNat len

/-- The call `s.slice(start, end)`; `none` is an `undefined` end. -/
def slice (s : Str) (start : Int) (stop : Option Int) : Str :=
  let len := s.length
  let lo := clampIndex len start
  let hi := match stop with
    | none => len
    | some e => clampIndex len e
  (s.drop lo).take (hi - lo)

/-- The call `s.split(sep)` for a one-character separator. -/
def split (sep : Char) : Str → List Str
  | [] => [[]]
  | c :: cs =>
    if c = sep then [] :: split sep cs
    else match split sep cs with
      | [] => [[c]]
      | l :: ls => (c :: l) :: ls

/-- Scanner of `html.replace(/<[^>]*>/g, "\n")`: the flag says whether the scan is inside a
matched tag. A `<` opens a match only if a `>` follows somewhere. -/
def stripTagsGo : Bool → Str → Str
  | _, [] => []
  | false, c :: cs =>
    if c = '<' ∧ '>' ∈ cs then '\n' :: stripTagsGo true cs else c :: stripTagsGo false cs
  | true, c :: cs =>
    if c = '>' then stripTagsGo false cs else stripTagsGo true cs

/-- The call `html.replace(/<[^>]*>/g, "\n")`. -/
def stripTags (html : Str) : Str := stripTagsGo false html

/-! ## Numbers -/

/-- The values `Number(...)` can produce from a run of decimal digits, and the integers read
from the store. -/
inductive JsNumber where
  | int (i : Int)
  | infinity
  | nan
  deriving DecidableEq, Repr

/-- The mathematical value of a run of decimal digits. -/
def digitsValue (ds : Str) : Nat :=
  ds.foldl (fun acc c => 10 * acc + (c.toNat - 48)) 0

/-- Floor of the binary logarithm, by halving at most `fuel` times. -/
def log2Fuel : Nat → Nat → Nat
  | 0, _ => 0
  | fuel + 1, n => if n < 2 then 0 else log2Fuel fuel (n / 2) + 1

/-- Floor of the binary logarithm of `n` (`0` for `n = 0`). -/
def log2 (n : Nat) : Nat := log2Fuel n n

/-- Round a natural number to the nearest IEEE-754 binary64 value, ties to even; a value
that rounds to `2 ^ 1024` or more is `Infinity`. -/
def roundToDouble (n : Nat) : JsNumber :=
  if n < 2 ^ 53 then .int n
  else
    let e := log2 n - 52
    let q := n / 2 ^ e
    let r := n % 2 ^ e
    let half := 2 ^ (e - 1)
    let m := if r < half then q else if half < r then q + 1 else if q % 2 = 0 then q else q + 1
    if log2 (m * 2 ^ e) < 1024 then .int ((m * 2 ^ e : Nat) : Int) else .infinity

/-- The call `Number(ds)` for a non-empty run of decimal digits `ds`. -/
def Number (ds : Str) : JsNumber := roundToDouble (digitsValue ds)

/-! ## The regular expressions of the handler -/

/-- The test `/^\d+\./.test(l)`. -/
def testRanked (l : Str) : Bool :=
  let ds := l.takeWhile isDigit
  !ds.isEmpty && (l.drop ds.length).head? == some '.'

/-- The match `line.match(/^(\d+)/)?.[1]`: the leading run of digits, if not empty. -/
def matchDigits (l : Str) : Option Str :=
  let ds := l.takeWhile isDigit
  if ds.isEmpty then none else some ds

/-- The call `line.replace(/^\d+\.\s*/, "")`. -/
def stripRank (l : Str) : Str :=
  if testRanked l then
    ((l.dropWhile isDigit).drop 1).dropWhile isWhiteSpace
  else l

/-! ## StandingsParser -/

/-- A parsed standings entry `{placement, name, university}`. -/
structure Entry where
  placement : JsNumber
  name : Str
  university : Option Str
  deriving DecidableEq, Repr

def startAnchor : Str := "Final Standings".toList

def endAnchor : Str := "Panel of Officials".toList

/-- The callback of `.map(line => ...)` at lines 52-62. `split` never returns an empty
array, so `name` is always a string. -/
def parseLine (line : Str) : Entry :=
  let placement := match matchDigits line with
    | some ds => Number ds
    | none => JsNumber.nan
  let afterNumber := stripRank line
  let parts := split ',' afterNumber
  { placement := placement
    name := trim (parts.headD [])
    university := (parts.get? 1).map trim }

/-- The parse block of the handler (lines 37-62) on the flattened text: `none` is the
`start === -1` exit. -/
def standingsParser (text : Str) : Option (List Entry) :=
  let start := indexOf text startAnchor
  let stop := indexOf text endAnchor
  if start = -1 then none
  else
    let block := slice text start (if stop = -1 then none else some stop)
    let lines := ((split '\n' block).map trim).filter (fun l => !l.isEmpty)
    some ((lines.filter testRanked).map parseLine)

/-! ## The store and the request -/

/-- A JSON value of an insert payload. -/
inductive Val where
  | undefined
  | null
  | num (x : JsNumber)
  | str (s : Str)
  deriving DecidableEq, Repr

/-- An object literal: its properties in source order. -/
abbrev Payload := List (String × Val)

/-- The value of property `key` of an object, `undefined` when it has none. -/
def Payload.prop (p : Payload) (key : String) : Val :=
  match p.find? (fun kv => kv.1 = key) with
  | some kv => kv.2
  | none => Val.undefined

/-- What `JSON.stringify` sends of a value: a number that is not finite becomes `null`. -/
def Val.toJson : Val → Val
  | Val.num JsNumber.infinity => Val.null
  | Val.num JsNumber.nan => Val.null
  | v => v

/-- What `JSON.stringify` sends of an object: properties whose value is `undefined` are
left out. -/
def Payload.toRow (p : Payload) : Payload :=
  (p.filter (fun kv => kv.2 ≠ Val.undefined)).map (fun kv => (kv.1, kv.2.toJson))

/-- A row of table `Event`, as selected with `id, name`. -/
structure EventRow where
  id : Nat
  name : Str
  deriving DecidableEq, Repr

/-- A row of table `Team`, as selected with `id, name`; `none` is a `null` name. -/
structure TeamRow where
  id : Nat
  name : Option Str
  deriving DecidableEq, Repr

/-- A row of table `Skater`, as selected with `id, name`. -/
structure SkaterRow where
  id : Nat
  name : Str
  deriving DecidableEq, Repr

/-- A row of table `Point`. -/
structure PointRow where
  placement : Nat
  group_size : Nat
  points : Int
  deriving DecidableEq, Repr

/-- The collaborators of the handler: the page fetch, the tables it reads, and whether the
store refuses an insert. -/
structure World where
  fetch : Str → Except Str Str
  events : List EventRow
  teams : List TeamRow
  skaters : List SkaterRow
  points : List PointRow
  insertFails : Payload → Bool

/-- The request: its method and the `url` and `event_name` of its JSON body. -/
structure Request where
  method : Str
  url : Option Str
  event_name : Str

/-- The body of a response. -/
inductive Body where
  | empty
  | error (message : Str)
  | success (groupSize : Nat) (entries : List Entry)
  deriving DecidableEq, Repr

structure Response where
  status : Nat
  body : Body
  deriving DecidableEq, Repr

/-! ## `Map` -/

/-- The call `map.set(k, v)` on an insertion-ordered `Map`: an existing key keeps its
position. -/
def mapSet {κ ν : Type} [DecidableEq κ] : List (κ × ν) → κ → ν → List (κ × ν)
  | [], k, v => [(k, v)]
  | (k', v') :: rest, k, v =>
    if k' = k then (k, v) :: rest else (k', v') :: mapSet rest k v

/-- The call `map.get(k)`. -/
def mapGet {κ ν : Type} [DecidableEq κ] (m : List (κ × ν)) (k : κ) : Option ν :=
  (m.find? (fun kv => kv.1 = k)).map (fun kv => kv.2)

/-- The call `map.values()`. -/
def mapValues {κ ν : Type} (m : List (κ × ν)) : List ν := m.map (fun kv => kv.2)

/-! ## The handler -/

/-- A value of `teamMap`. -/
structure TeamRef where
  teamId : Nat
  name : Option Str
  deriving DecidableEq, Repr

/-- A value of `skaterMap`. -/
structure SkaterRef where
  skaterId : Nat
  name : Str
  deriving DecidableEq, Repr

/-- Lines 79-85: `teamMap`, keyed by team name; the name of a row without a name is the
key `null`. -/
def buildTeamMap (teams : List TeamRow) : List (Option Str × TeamRef) :=
  teams.foldl (fun m t => mapSet m t.name { teamId := t.id, name := t.name }) []

/-- Lines 90-96: `skaterMap`, keyed by skater name. -/
def buildSkaterMap (skaters : List SkaterRow) : List (Str × SkaterRef) :=
  skaters.foldl (fun m s => mapSet m s.name { skaterId := s.id, name := s.name }) []

/-- The modifier `.single()`: the row when exactly one row matches, `null` otherwise. -/
def single {α : Type} : List α → Option α
  | [a] => some a
  | _ => none

/-- Lines 103-108: the `Point` row for a placement and a group size. -/
def pointLookup (points : List PointRow) (placement : JsNumber) (groupSize : Nat) :
    Option PointRow :=
  single (points.filter (fun r =>
    placement = JsNumber.int (r.placement : Int) ∧ r.group_size = groupSize))

/-- The lookup `teamMap.get(entry.university)`; a `null` university finds the entry of a
team whose name is `null`, if there is one. -/
def teamOf (teamMap : List (Option Str × TeamRef)) (entry : Entry) : Option TeamRef :=
  mapGet teamMap entry.university

/-- One turn of the loop at lines 99-118: `none` when the entry is skipped by a `continue`,
else the object passed to `insert`. -/
def processEntry (w : World) (groupSize : Nat) (event : Option EventRow)
    (teamMap : List (Option Str × TeamRef)) (skaterMap : List (Str × SkaterRef))
    (entry : Entry) : Option Payload :=
  if entry.name.isEmpty then none
  else if (teamOf teamMap entry).isNone then none
  else
    let pointRec := pointLookup w.points entry.placement groupSize
    some [
      ("event_id", match event with
        | some ev => Val.str ev.name
        | none => Val.undefined),
      ("skater_id", match mapGet skaterMap entry.name with
        | some s => Val.num (JsNumber.int (s.skaterId : Int))
        | none => Val.undefined),
      ("placement", Val.num entry.placement),
      ("group_size", Val.num (JsNumber.int (groupSize : Int))),
      ("points", match pointRec with
        | some r => Val.num (JsNumber.int r.points)
        | none => Val.undefined)]

/-- What a request leaves behind: the response, the objects passed to `insert` in order,
and table `Result` afterwards. -/
structure Outcome where
  response : Response
  inserts : List Payload
  store : List Payload

/-- The call `supabase.from("Result").insert(p)`: a refused insert leaves the table as it was and
its error is not looked at. -/
def insertResult (w : World) (store : List Payload) (p : Payload) : List Payload :=
  if w.insertFails p then store else store ++ [p.toRow]

/-- The insert loop at lines 99-118. -/
def insertLoop (w : World) (groupSize : Nat) (event : Option EventRow)
    (teamMap : List (Option Str × TeamRef)) (skaterMap : List (Str × SkaterRef)) :
    List Entry → List Payload × List Payload → List Payload × List Payload
  | [], acc => acc
  | entry :: rest, (inserts, store) =>
    match processEntry w groupSize event teamMap skaterMap entry with
    | none => insertLoop w groupSize event teamMap skaterMap rest (inserts, store)
    | some p =>
      insertLoop w groupSize event teamMap skaterMap rest
        (inserts ++ [p], insertResult w store p)

/-- The handler passed to `serve`, on a store whose `Result` table is `store`. -/
def serve (w : World) (req : Request) (store : List Payload) : Outcome :=
  if req.method = "OPTIONS".toList then
    { response := { status := 200, body := Body.empty }, inserts := [], store := store }
  else
    match req.url with
    | none =>
      { response := { status := 400, body := Body.error "Missing url".toList },
        inserts := [], store := store }
    | some url =>
      if url.isEmpty then
        { response := { status := 400, body := Body.error "Missing url".toList },
          inserts := [], store := store }
      else
        match w.fetch url with
        | Except.error message =>
          { response := { status := 500, body := Body.error message },
            inserts := [], store := store }
        | Except.ok html =>
          let text := stripTags html
          match standingsParser text with
          | none =>
            { response := { status := 400, body := Body.error "Standings not found".toList },
              inserts := [], store := store }
          | some entries =>
            let groupSize := entries.length
            let event := (w.events.filter (fun ev => ev.name = req.event_name)).head?
            let teamMap := buildTeamMap w.teams
            let skaterMap := buildSkaterMap w.skaters
            let done := insertLoop w groupSize event teamMap skaterMap entries ([], store)
            { response := { status := 200, body := Body.success groupSize entries },
              inserts := done.1, store := done.2 }

/-! ## Doubles -/

/-- A number of the score aggregator, an IEEE-754 double: a finite double by its value,
`Infinity`, `-Infinity` or `NaN`. The two zeros are one value here: no operation of the
aggregator tells them apart. -/
inductive Double where
  | fin (x : ℚ)
  | posInf
  | negInf
  | nan
  deriving DecidableEq, Repr

/-- The floor of the binary logarithm of `a / b`, for positive `a` and `b`. -/
def quotientExponent (a b : Nat) : Int :=
  let d : Int := (log2 a : Int) - (log2 b : Int)
  if b * 2 ^ log2 a ≤ a * 2 ^ log2 b then d else d - 1

/-- The integer nearest to `num / den`, ties to even. -/
def roundHalfEven (num den : Nat) : Nat :=
  let q := num / den
  let r := num % den
  if 2 * r < den then q else if den < 2 * r then q + 1 else if q % 2 = 0 then q else q + 1

/-- The quotient `a / b` of two non-negative integers (`b` positive) rounded as a double:
to 53 significant bits, ties to even, on the grid `2 ^ -1074` at the least. -/
def divDouble (a b : Nat) : ℚ :=
  if a = 0 then 0
  else
    let k : Int := min (52 - quotientExponent a b) 1074
    if 0 ≤ k then (roundHalfEven (a * 2 ^ k.toNat) b : ℚ) / 2 ^ k.toNat
    else (roundHalfEven a (b * 2 ^ (-k).toNat) : ℚ) * 2 ^ (-k).toNat

/-- The double nearest to the rational `x`, ties to even: what `JSON.parse` makes of the
number `x` and what an arithmetic operation makes of its exact result `x`. A magnitude
that rounds to `2 ^ 1024` or more is an infinity. -/
def toDouble (x : ℚ) : Double :=
  let y := divDouble x.num.natAbs x.den
  if 2 ^ 1024 ≤ y then (if x < 0 then Double.negInf else Double.posInf)
  else Double.fin (if x < 0 then -y else y)

/-- The negation `-a`. -/
def Double.neg : Double → Double
  | Double.fin x => Double.fin (-x)
  | Double.posInf => Double.negInf
  | Double.negInf => Double.posInf
  | Double.nan => Double.nan

/-- The sum `a + b`. -/
def Double.add : Double → Double → Double
  | Double.fin x, Double.fin y => toDouble (x + y)
  | Double.nan, _ => Double.nan
  | _, Double.nan => Double.nan
  | Double.posInf, Double.negInf => Double.nan
  | Double.negInf, Double.posInf => Double.nan
  | Double.posInf, _ => Double.posInf
  | _, Double.posInf => Double.posInf
  | Double.negInf, _ => Double.negInf
  | _, Double.negInf => Double.negInf

/-- The difference `a - b`. -/
def Double.sub (a b : Double) : Double := a.add b.neg

/-- The quotient `a / n` of a double and a positive integer `n`. -/
def Double.divNat : Double → Nat → Double
  | Double.fin x, n => toDouble (x / n)
  | d, _ => d

/-- The test `v > 0`, false for a `NaN`. -/
def Double.isPositive : Double → Bool
  | Double.fin x => decide (0 < x)
  | Double.posInf => true
  | _ => false

/-- The test `a <= b`, false when one of them is a `NaN`. -/
def Double.le : Double → Double → Bool
  | Double.fin x, Double.fin y => decide (x ≤ y)
  | Double.nan, _ => false
  | _, Double.nan => false
  | Double.negInf, _ => true
  | _, Double.posInf => true
  | _, _ => false

/-- The value of `+x.toFixed(3)` for a non-negative `x`: `toFixed` takes the integer `n`
for which `n / 1000 - x` is closest to zero, the larger one of two, and `+` reads the
decimal back. A double of `10 ^ 21` or more is an integer and is printed and read back as
it is. -/
def toFixed3 (x : ℚ) : ℚ := (⌊x * 1000 + 1 / 2⌋ : ℚ) / 1000

/-! ## ScoreAggregator: `fetchCompetitionResults` -/

/-- A row of table `Result` as selected at lines 36-52 (scalar columns). `points` is the
number in the JSON of the row, `none` for a `null`; the aggregator sees the double that
`JSON.parse` makes of it. -/
structure ResultRow where
  id : Nat
  competition_id : Option Nat
  team_id : Option Nat
  event_id : Option Nat
  skater_id : Option Nat
  placement : Option Int
  group_size : Option Int
  points : Option ℚ
  deriving DecidableEq, Repr

/-- A value of the `teamMap` of `fetchCompetitionResults` (lines 60-66). -/
structure TeamAcc where
  teamId : Nat
  name : Option Str
  totalPoints : Double
  starts : Nat
  results : List ResultRow
  deriving DecidableEq, Repr

/-- An element of `teamsArr` once `pointsPerStart` is set (lines 84-87). -/
structure TeamSummary where
  teamId : Nat
  name : Option Str
  totalPoints : Double
  starts : Nat
  results : List ResultRow
  pointsPerStart : Double
  deriving DecidableEq, Repr

/-- Lines 59-67: one entry per team, keyed by team id. -/
def initTeamMap (teams : List TeamRow) : List (Nat × TeamAcc) :=
  teams.foldl (fun m t =>
    mapSet m t.id
      { teamId := t.id, name := t.name, totalPoints := Double.fin 0, starts := 0,
        results := [] })
    []

/-- The value `Number(r.points ?? 0)`: the double of the row's points, 0 for a `null`. -/
def pointsNumber (r : ResultRow) : Double :=
  match r.points with
  | none => Double.fin 0
  | some q => toDouble q

/-- Lines 73-75: the updates of `entry` for the row `r`; the sum is a double addition. -/
def addResult (entry : TeamAcc) (r : ResultRow) : TeamAcc :=
  { entry with
    totalPoints := entry.totalPoints.add (pointsNumber r)
    starts := entry.starts + 1
    results := entry.results ++ [r] }

/-- The callback at lines 70-77; `teamMap.get(null)` finds nothing, and the entry found is
updated in place. -/
def applyResult (m : List (Nat × TeamAcc)) (r : ResultRow) : List (Nat × TeamAcc) :=
  match r.team_id with
  | none => m
  | some k =>
    match mapGet m k with
    | none => m
    | some entry => mapSet m k (addResult entry r)

/-- The method `Array.prototype.sort(cmp)`: the sort is stable (ECMA-262, since ES2019), so
for a consistent comparator its result is the stable sort that puts `a` behind `b` only
when `cmp(a, b) > 0`; a comparator value `NaN` is read as 0. For a comparator that is not
consistent the order is left to the implementation, and this is one such order. -/
def sort {α : Type} (cmp : α → α → Double) (l : List α) : List α :=
  l.insertionSort (fun a b => (cmp a b).isPositive = false)

/-- The comparator `(a, b) => b.totalPoints - a.totalPoints`. -/
def byTotalDesc (a b : TeamAcc) : Double := b.totalPoints.sub a.totalPoints

/-- Lines 57-82: `teamsArr` after the sort. -/
def teamsArr (teams : List TeamRow) (results : List ResultRow) : List TeamAcc :=
  sort byTotalDesc (mapValues (results.foldl applyResult (initTeamMap teams)))

/-- Lines 85-86: `t.starts > 0 ? +(t.totalPoints / t.starts).toFixed(3) : 0`. The sign of
a negative quotient is carried outside the rounding to thousandths, as `toFixed` does, and
a quotient that is not finite prints and reads back as itself. The finite result stands
for the number whose decimal is the one `toFixed(3)` printed. -/
def pointsPerStart (totalPoints : Double) (starts : Nat) : Double :=
  if 0 < starts then
    match totalPoints.divNat starts with
    | Double.fin y => Double.fin (if y < 0 then -toFixed3 (-y) else toFixed3 y)
    | d => d
  else Double.fin 0

/-- The competition's rows of table `Result`: `.eq("competition_id", competition.id)`. -/
def resultsOf (table : List ResultRow) (competitionId : Nat) : List ResultRow :=
  table.filter (fun r => r.competition_id = some competitionId)

/-- The value passed to `setTopTeams` by `fetchCompetitionResults`, from the rows of `Team`
and the competition's rows of `Result`. -/
def fetchCompetitionResults (teams : List TeamRow) (results : List ResultRow) :
    List TeamSummary :=
  (teamsArr teams results).map (fun t =>
    { teamId := t.teamId, name := t.name, totalPoints := t.totalPoints, starts := t.starts,
      results := t.results, pointsPerStart := pointsPerStart t.totalPoints t.starts })

/-! ## Notions of the specification -/

/-- The first occurrence of `pat` in `s` is at index `i`. -/
def FirstAt (pat s : Str) (i : Nat) : Prop :=
  i ≤ s.length ∧ pat <+: s.drop i ∧ ∀ j < i, ¬ pat <+: s.drop j

/-- A ranked-entry line: one or more digits followed by a period. -/
def IsRankedLine (l : Str) : Prop :=
  ∃ n < l.length, 0 < n ∧ (∀ c ∈ l.take n, isDigit c = true) ∧ l[n]? = some '.'

instance : DecidablePred IsRankedLine := fun l => by
  unfold IsRankedLine
  infer_instance

/-- The kept lines of a standings block: its lines, trimmed, those that are not empty and
are ranked-entry lines. -/
def rankedLines (block : Str) : List Str :=
  ((split '\n' block).map trim).filter (fun l => decide (l ≠ [] ∧ IsRankedLine l))

/-- The leading integer of a line: the value of its leading run of digits. -/
def leadingInteger (l : Str) : Nat := digitsValue (l.takeWhile isDigit)

instance (pat s : Str) (i : Nat) : Decidable (FirstAt pat s i) := by
  unfold FirstAt
  infer_instance

/-- The request is no preflight, carries a non-empty `url`, and the fetch of that url
returned the page `html`. -/
def Fetched (w : World) (req : Request) (html : Str) : Prop :=
  req.method ≠ "OPTIONS".toList ∧
    ∃ url, req.url = some url ∧ url ≠ [] ∧ w.fetch url = Except.ok html

/-! ## Sample inputs -/

/-- A store that serves the page `html`, knows one event, the team `State University` and
the skater `Jane Doe`, has the given `Point` rows and accepts every insert. -/
def sampleWorld (html : Str) (points : List PointRow) : World :=
  { fetch := fun _ => Except.ok html
    events := [{ id := 4, name := "Senior Free Skate".toList }]
    teams := [{ id := 7, name := some "State University".toList }]
    skaters := [{ id := 3, name := "Jane Doe".toList }]
    points := points
    insertFails := fun _ => false }

def sampleRequest : Request :=
  { method := "POST".toList
    url := some "https://ijs.example.org/results.htm".toList
    event_name := "Senior Free Skate".toList }

def samplePage : Str :=
  "<h2>Final Standings</h2><p>1. Ann Lee, Lake College</p><p>3. Jane Doe, State University</p><h3>Panel of Officials</h3><p>1. Referee</p>".toList

/-- The entry's affiliation is the name of a row of table `Team`; a `null` affiliation is
the name of a row whose name is `null`. -/
def KnownTeam (w : World) (e : Entry) : Prop :=
  ∃ t ∈ w.teams, t.name = e.university

instance (w : World) (e : Entry) : Decidable (KnownTeam w e) := by
  unfold KnownTeam
  infer_instance

/-- Rows of `Point` for a field of two, none of them for placement 3. -/
def samplePoints : List PointRow :=
  [{ placement := 1, group_size := 2, points := 10 },
   { placement := 2, group_size := 2, points := 8 }]

/-! ## Notions of the specification: aggregation -/

/-- The records whose team reference is team `k`. -/
def recordsOf (k : Nat) (results : List ResultRow) : List ResultRow :=
  results.filter (fun r => r.team_id = some k)

/-- The points of a record; a record without points counts for 0. -/
def pointsOf (r : ResultRow) : ℚ := r.points.getD 0

/-- The sum of the points of the records of team `k`. -/
def totalOf (k : Nat) (results : List ResultRow) : ℚ :=
  ((recordsOf k results).map pointsOf).sum

/-- The sum of a list of doubles as a loop of `+=` takes it: from 0, in order, every
addition rounded. -/
def doubleSum (l : List Double) : Double := l.foldl Double.add (Double.fin 0)

/-- The total of team `k` as the results loop takes it: the double sum of the points of
the team's records, in the order of the records. -/
def doubleTotalOf (k : Nat) (results : List ResultRow) : Double :=
  doubleSum ((recordsOf k results).map pointsNumber)

/-- The rational `x` is the value of a finite double: below `2 ^ 1024` in absolute value,
and `m * 2 ^ k` in absolute value for some `m < 2 ^ 53` and `k ≥ -1074`. -/
def IsDouble (x : ℚ) : Prop :=
  |x| < 2 ^ 1024 ∧ ∃ (m : ℕ) (k : ℤ), m < 2 ^ 53 ∧ -1074 ≤ k ∧ |x| = m * 2 ^ k

/-- The finite value of the model's double, if it has one, is the value of a double. -/
def Double.Valid : Double → Prop
  | Double.fin x => IsDouble x
  | _ => True

/-- The points of the records are integers, and their absolute values add up to `2 ^ 53`
at most: every partial sum is a double. -/
def SafeIntegerPoints (records : List ResultRow) : Prop :=
  (∀ r ∈ records, ∃ z : ℤ, pointsOf r = z) ∧
    ((records.map (fun r => |pointsOf r|)).sum ≤ 2 ^ 53)

/-- The points of the records are finite as doubles. -/
def FinitePoints (records : List ResultRow) : Prop :=
  ∀ r ∈ records, ∃ x : ℚ, pointsNumber r = Double.fin x

/-- The record's team reference is the id of one of the teams. -/
def RefersToTeam (teams : List TeamRow) (r : ResultRow) : Prop :=
  ∃ t ∈ teams, r.team_id = some t.id

instance (teams : List TeamRow) (r : ResultRow) : Decidable (RefersToTeam teams r) := by
  unfold RefersToTeam
  infer_instance

/-- A `Result` row of competition 1 with the given team reference and points. -/
def sampleResult (id : Nat) (team : Option Nat) (points : Option ℚ) : ResultRow :=
  { id := id, competition_id := some 1, team_id := team, event_id := some 4,
    skater_id := none, placement := some 1, group_size := some 6, points := points }

def sampleTeams : List TeamRow :=
  [{ id := 7, name := some "State University".toList },
   { id := 8, name := some "Lake College".toList },
   { id := 9, name := some "Hill Academy".toList }]

/-- Three results of team 8 with 5, 3 and 2 points, one of team 9 without points, and one
without a team. -/
def sampleResults : List ResultRow :=
  [sampleResult 1 (some 8) (some 5), sampleResult 2 (some 9) none,
   sampleResult 3 (some 8) (some 3), sampleResult 4 none (some 4),
   sampleResult 5 (some 8) (some 2)]

/-- The summary of team 8 for the sample results: 5, 3 and 2 points in three starts. -/
def sampleSummary : TeamSummary :=
  { teamId := 8, name := some "Lake College".toList, totalPoints := Double.fin 10,
    starts := 3,
    results := [sampleResult 1 (some 8) (some 5), sampleResult 3 (some 8) (some 3),
      sampleResult 5 (some 8) (some 2)],
    pointsPerStart := Double.fin (3333 / 1000) }

/-- Two results of team 7 with `2 ^ 53` and 1 points, and three of team 8 with `2 ^ 53`, 1
and 1 points. -/
def unsafeResults : List ResultRow :=
  [sampleResult 1 (some 7) (some 9007199254740992), sampleResult 2 (some 7) (some 1),
   sampleResult 3 (some 8) (some 9007199254740992), sampleResult 4 (some 8) (some 1),
   sampleResult 5 (some 8) (some 1)]

/-- Three results of team 7 with 26388279066623, 1 and 1 points. -/
def largeResults : List ResultRow :=
  [sampleResult 1 (some 7) (some 26388279066623), sampleResult 2 (some 7) (some 1),
   sampleResult 3 (some 7) (some 1)]

/-! ## ReportExporter: the sheet names of `generateExcel` -/

/-- The sheet name of line 170 of `CompetitionPage.jsx`, the first 31 characters of the
team name, or `Team` and the team id when that is empty or the name is missing. `name` is
`none` for a `null` name, and `teamIdText` is the text the template prints for the team
id, `none` for a `null` id. A name in the basic plane has as many elements here as code
units in JavaScript. -/
def sheetName (name : Option Str) (teamIdText : Option Str) : Str :=
  match name.map (fun n => slice n 0 (some 31)) with
  | some s => if s.isEmpty then "Team ".toList ++ teamIdText.getD "?".toList else s
  | none => "Team ".toList ++ teamIdText.getD "?".toList

/-- The names that `generateExcel` passes to `book_append_sheet`, one per team of
`topTeams` in order. The type of the id column is not in the source: `idText` gives the
text of a team id. -/
def sheetNames (idText : Nat → Str) (topTeams : List TeamSummary) : List Str :=
  topTeams.map (fun t => sheetName t.name (some (idText t.teamId)))

/-! ## Sample inputs for the later claims -/

/-- A page whose only ranked line has an empty name and a known affiliation. -/
def namelessPage : Str :=
  "<h2>Final Standings</h2><p>3. , State University</p>".toList

/-- A page whose only ranked line names a competitor who is no known skater. -/
def strangerPage : Str :=
  "<h2>Final Standings</h2><p>2. Ann Lee, State University</p>".toList

/-- A page whose only ranked line has no affiliation. -/
def unaffiliatedPage : Str :=
  "<h2>Final Standings</h2><p>1. Ann Lee</p>".toList

/-- The sample store with a second row of table `Team`, whose name is `null`. -/
def unnamedTeamWorld (html : Str) (points : List PointRow) : World :=
  { fetch := fun _ => Except.ok html
    events := [{ id := 4, name := "Senior Free Skate".toList }]
    teams := [{ id := 7, name := some "State University".toList }, { id := 9, name := none }]
    skaters := [{ id := 3, name := "Jane Doe".toList }]
    points := points
    insertFails := fun _ => false }

/-- A page on which the officials come before the standings. -/
def officialsFirstPage : Str :=
  "<h3>Panel of Officials</h3><p>1. Referee</p><h2>Final Standings</h2><p>1. Ann Lee, Lake College</p>".toList

/-- A store whose team ids are UUIDs: the text of every id has 36 characters. -/
def uuidText (n : Nat) : Str :=
  "3f2504e0-4f89-41d3-9a0c-0305e82c".toList ++ (Nat.toDigits 10 (1000 + n % 9000))

/-- The sample results without the record of team 9 that has no points. -/
def sampleResultsWithout : List ResultRow :=
  [sampleResult 1 (some 8) (some 5), sampleResult 3 (some 8) (some 3),
   sampleResult 4 none (some 4), sampleResult 5 (some 8) (some 2)]

theorem indexOfFrom_spec (pat : Str) : ∀ (s : Str) (i : Nat),
    (∃ j, FirstAt pat s j ∧ indexOfFrom pat s i = ((i + j : Nat) : Int)) ∨
    ((∀ j ≤ s.length, ¬ pat <+: s.drop j) ∧ indexOfFrom pat s i = -1)
  | [], i => by
    by_cases hp : pat = []
    · left
      refine ⟨0, ⟨le_refl _, by simp [hp], by simp⟩, by simp [indexOfFrom, hp]⟩
    · right
      refine ⟨?_, by simp [indexOfFrom, hp]⟩
      intro j _
      simpa using hp
  | c :: cs, i => by
    by_cases hp : pat.isPrefixOf (c :: cs) = true
    · left
      refine ⟨0, ⟨by simp, by simpa [List.isPrefixOf_iff_prefix] using hp, by simp⟩, by simp [indexOfFrom, hp]⟩
    · have hnp : ¬ pat <+: c :: cs := by simpa [List.isPrefixOf_iff_prefix] using hp
      rcases indexOfFrom_spec pat cs (i + 1) with ⟨j, ⟨hj1, hj2, hj3⟩, hj⟩ | ⟨hnone, hj⟩
      · left
        refine ⟨j + 1, ⟨by simpa using hj1, by simpa using hj2, ?_⟩, ?_⟩
        · intro k hk
          cases k with
          | zero => simpa using hnp
          | succ k => simpa using hj3 k (by omega)
        · simp only [indexOfFrom, hp]
          rw [hj]
          push_cast
          ring
      · right
        refine ⟨?_, ?_⟩
        · intro k hk
          cases k with
          | zero => simpa using hnp
          | succ k => simpa using hnone k (by simpa using hk)
        · simp only [indexOfFrom, hp]
          simpa using hj

theorem firstAt_unique {pat s : Str} {i j : Nat} (hi : FirstAt pat s i) (hj : FirstAt pat s j) :
    i = j := by
  rcases lt_trichotomy i j with h | h | h
  · exact absurd hi.2.1 (hj.2.2 i h)
  · exact h
  · exact absurd hj.2.1 (hi.2.2 j h)

theorem infix_iff_prefix_drop (pat s : Str) :
    pat <:+: s ↔ ∃ j ≤ s.length, pat <+: s.drop j := by
  constructor
  · rintro ⟨pre, post, h⟩
    refine ⟨pre.length, ?_, ?_⟩
    · rw [← h]; simp
    · rw [← h]
      simp [List.append_assoc]
  · rintro ⟨j, _, h⟩
    exact h.isInfix.trans (List.drop_suffix j s).isInfix

theorem indexOf_of_firstAt {pat s : Str} {i : Nat} (h : FirstAt pat s i) :
    indexOf s pat = (i : Int) := by
  rcases indexOfFrom_spec pat s 0 with ⟨j, hj, hidx⟩ | ⟨hnone, _⟩
  · rw [firstAt_unique h hj]
    simpa [indexOf] using hidx
  · exact absurd h.2.1 (hnone i h.1)

theorem indexOf_of_not_infix {pat s : Str} (h : ¬ pat <:+: s) : indexOf s pat = -1 := by
  rcases indexOfFrom_spec pat s 0 with ⟨j, hj, _⟩ | ⟨_, hidx⟩
  · exact absurd ((infix_iff_prefix_drop pat s).2 ⟨j, hj.1, hj.2.1⟩) h
  · exact hidx

theorem exists_firstAt_of_infix {pat s : Str} (h : pat <:+: s) : ∃ i, FirstAt pat s i := by
  rcases indexOfFrom_spec pat s 0 with ⟨j, hj, _⟩ | ⟨hnone, _⟩
  · exact ⟨j, hj⟩
  · obtain ⟨j, hj, hp⟩ := (infix_iff_prefix_drop pat s).1 h
    exact absurd hp (hnone j hj)

theorem clampIndex_nat (len i : Nat) (hi : i ≤ len) : clampIndex len (i : Int) = i := by
  have h : ¬ ((i : Int) < 0) := by omega
  simp [clampIndex, h, hi]

theorem slice_nat_none (s : Str) (i : Nat) (hi : i ≤ s.length) :
    slice s (i : Int) none = s.drop i := by
  simp only [slice, clampIndex_nat _ _ hi]
  apply List.take_of_length_le
  simp

theorem slice_nat_some (s : Str) (i j : Nat) (hi : i ≤ s.length) (hj : j ≤ s.length) :
    slice s (i : Int) (some (j : Int)) = (s.drop i).take (j - i) := by
  simp only [slice, clampIndex_nat _ _ hi, clampIndex_nat _ _ hj]

theorem isDigit_period : isDigit '.' = false := by decide

theorem isRankedLine_iff (l : Str) :
    IsRankedLine l ↔ ∃ ds r, ds ≠ [] ∧ (∀ c ∈ ds, isDigit c = true) ∧ l = ds ++ '.' :: r := by
  constructor
  · rintro ⟨n, hn, hpos, hdig, hdot⟩
    refine ⟨l.take n, l.drop (n + 1), ?_, hdig, ?_⟩
    · intro h
      have h0 : (l.take n).length = 0 := by rw [h]; rfl
      rw [List.length_take] at h0
      omega
    · obtain ⟨h, hget⟩ := List.getElem?_eq_some.1 hdot
      rw [← hget, ← List.drop_eq_getElem_cons h, List.take_append_drop]
  · rintro ⟨ds, r, hne, hdig, rfl⟩
    refine ⟨ds.length, by simp, List.length_pos.2 hne, by simpa using hdig, ?_⟩
    rw [List.getElem?_append_right (le_refl _)]
    simp

theorem takeWhile_ranked (ds r : Str) (hdig : ∀ c ∈ ds, isDigit c = true) :
    (ds ++ '.' :: r).takeWhile isDigit = ds := by
  rw [List.takeWhile_append_of_pos hdig, List.takeWhile_cons_of_neg (by simp [isDigit_period])]
  simp

theorem dropWhile_ranked (ds r : Str) (hdig : ∀ c ∈ ds, isDigit c = true) :
    (ds ++ '.' :: r).dropWhile isDigit = '.' :: r := by
  rw [List.dropWhile_append_of_pos hdig, List.dropWhile_cons_of_neg (by simp [isDigit_period])]

theorem testRanked_ranked (ds r : Str) (hne : ds ≠ []) (hdig : ∀ c ∈ ds, isDigit c = true) :
    testRanked (ds ++ '.' :: r) = true := by
  simp only [testRanked, takeWhile_ranked ds r hdig]
  cases ds with
  | nil => exact absurd rfl hne
  | cons d ds => simp

theorem testRanked_iff (l : Str) : testRanked l = true ↔ IsRankedLine l := by
  rw [isRankedLine_iff]
  constructor
  · intro h
    simp only [testRanked, Bool.and_eq_true, Bool.not_eq_true', beq_iff_eq] at h
    obtain ⟨hne, hdot⟩ := h
    refine ⟨l.takeWhile isDigit, (l.drop (l.takeWhile isDigit).length).tail, ?_, ?_, ?_⟩
    · intro h0
      simp [h0] at hne
    · intro c hc
      exact List.mem_takeWhile_imp hc
    · have h1 : l.drop (l.takeWhile isDigit).length = l.dropWhile isDigit :=
        (congrArg (List.drop _) (List.takeWhile_append_dropWhile isDigit l).symm).trans
          (List.drop_left _ _)
      rw [h1] at hdot ⊢
      cases hd : l.dropWhile isDigit with
      | nil => simp [hd] at hdot
      | cons x xs =>
        simp only [hd, List.head?_cons, Option.some.injEq] at hdot
        subst hdot
        rw [List.tail_cons, ← hd, List.takeWhile_append_dropWhile]
  · rintro ⟨ds, r, hne, hdig, rfl⟩
    exact testRanked_ranked ds r hne hdig

theorem rankedLines_eq (block : Str) :
    (((split '\n' block).map trim).filter (fun l => !l.isEmpty)).filter testRanked =
      rankedLines block := by
  unfold rankedLines
  rw [List.filter_filter]
  apply List.filter_congr
  intro l _
  by_cases h1 : l = []
  · simp [h1, testRanked]
  · by_cases h2 : IsRankedLine l
    · simp [h1, h2, (testRanked_iff l).2 h2]
    · have : testRanked l = false := by
        rw [← Bool.not_eq_true, testRanked_iff]; exact h2
      simp [h1, h2, this]

theorem parseLine_placement (l : Str) (h : IsRankedLine l) :
    (parseLine l).placement = roundToDouble (leadingInteger l) := by
  obtain ⟨ds, r, hne, hdig, rfl⟩ := (isRankedLine_iff l).1 h
  have : (matchDigits (ds ++ '.' :: r)) = some ds := by
    simp only [matchDigits, takeWhile_ranked ds r hdig]
    cases ds with
    | nil => exact absurd rfl hne
    | cons d ds => simp
  simp [parseLine, this, Number, leadingInteger, takeWhile_ranked ds r hdig]

theorem roundToDouble_of_lt (n : Nat) (h : n < 2 ^ 53) : roundToDouble n = JsNumber.int n := by
  unfold roundToDouble
  rw [if_pos h]

theorem mem_rankedLines {block l : Str} (h : l ∈ rankedLines block) : IsRankedLine l := by
  simp only [rankedLines, List.mem_filter, decide_eq_true_eq] at h
  exact h.2.2

theorem standingsParser_of_block (text block : Str) (i : Nat)
    (hstart : FirstAt startAnchor text i)
    (hblock : (∃ j, FirstAt endAnchor text j ∧ block = (text.drop i).take (j - i)) ∨
      (¬ endAnchor <:+: text ∧ block = text.drop i)) :
    standingsParser text = some ((rankedLines block).map parseLine) := by
  have hs : indexOf text startAnchor = (i : Int) := indexOf_of_firstAt hstart
  have hne : ¬ ((i : Int) = -1) := by omega
  rcases hblock with ⟨j, hj, rfl⟩ | ⟨hno, rfl⟩
  · have he : indexOf text endAnchor = (j : Int) := indexOf_of_firstAt hj
    have hne' : ¬ ((j : Int) = -1) := by omega
    simp only [standingsParser, hs, he, hne, hne', if_false,
      slice_nat_some text i j hstart.1 hj.1, rankedLines_eq]
  · have he : indexOf text endAnchor = -1 := indexOf_of_not_infix hno
    simp only [standingsParser, hs, he, hne, if_false, if_true,
      slice_nat_none text i hstart.1, rankedLines_eq]

/-! ## The handler: reduction lemmas -/

theorem insertLoop_inserts (w : World) (g : Nat) (ev : Option EventRow)
    (tm : List (Option Str × TeamRef)) (sm : List (Str × SkaterRef)) :
    ∀ (entries : List Entry) (acc : List Payload × List Payload),
      (insertLoop w g ev tm sm entries acc).1 =
        acc.1 ++ entries.filterMap (processEntry w g ev tm sm)
  | [], acc => by simp [insertLoop]
  | e :: rest, (ins, st) => by
    cases h : processEntry w g ev tm sm e with
    | none =>
      simp only [insertLoop, h, List.filterMap_cons]
      exact insertLoop_inserts w g ev tm sm rest (ins, st)
    | some p =>
      simp only [insertLoop, h, List.filterMap_cons]
      rw [insertLoop_inserts w g ev tm sm rest (ins ++ [p], insertResult w st p)]
      simp

theorem insertLoop_store (w : World) (g : Nat) (ev : Option EventRow)
    (tm : List (Option Str × TeamRef)) (sm : List (Str × SkaterRef)) :
    ∀ (entries : List Entry) (acc : List Payload × List Payload),
      (insertLoop w g ev tm sm entries acc).2 =
        acc.2 ++ ((entries.filterMap (processEntry w g ev tm sm)).filter
          (fun p => !w.insertFails p)).map Payload.toRow
  | [], acc => by simp [insertLoop]
  | e :: rest, (ins, st) => by
    cases h : processEntry w g ev tm sm e with
    | none =>
      simp only [insertLoop, h, List.filterMap_cons]
      exact insertLoop_store w g ev tm sm rest (ins, st)
    | some p =>
      simp only [insertLoop, h, List.filterMap_cons]
      rw [insertLoop_store w g ev tm sm rest (ins ++ [p], insertResult w st p)]
      by_cases hf : w.insertFails p = true
      · simp [insertResult, hf]
      · simp [insertResult, hf]

/-- The payloads of a request that reached the insert loop with `entries`. -/
theorem serve_of_parsed (w : World) (req : Request) (store : List Payload) (html : Str)
    (entries : List Entry) (hf : Fetched w req html)
    (hp : standingsParser (stripTags html) = some entries) :
    (serve w req store).response =
        { status := 200, body := Body.success entries.length entries } ∧
      (serve w req store).inserts =
        entries.filterMap (processEntry w entries.length
          ((w.events.filter (fun ev => ev.name = req.event_name)).head?)
          (buildTeamMap w.teams) (buildSkaterMap w.skaters)) ∧
      (serve w req store).store =
        store ++ (((serve w req store).inserts).filter
          (fun p => !w.insertFails p)).map Payload.toRow := by
  obtain ⟨hm, url, hu, hne, hfetch⟩ := hf
  have hne' : url.isEmpty = false := by
    cases url with
    | nil => exact absurd rfl hne
    | cons c cs => rfl
  have hs : serve w req store =
      { response := { status := 200, body := Body.success entries.length entries }
        inserts := (insertLoop w entries.length
          ((w.events.filter (fun ev => ev.name = req.event_name)).head?)
          (buildTeamMap w.teams) (buildSkaterMap w.skaters) entries ([], store)).1
        store := (insertLoop w entries.length
          ((w.events.filter (fun ev => ev.name = req.event_name)).head?)
          (buildTeamMap w.teams) (buildSkaterMap w.skaters) entries ([], store)).2 } := by
    simp only [serve, hm, hu, hne', hfetch, hp, if_false, Bool.false_eq_true]
  rw [hs]
  simp only [insertLoop_inserts, insertLoop_store, List.nil_append]
  exact ⟨trivial, trivial, trivial⟩

theorem serve_of_not_found (w : World) (req : Request) (store : List Payload) (html : Str)
    (hf : Fetched w req html) (hp : standingsParser (stripTags html) = none) :
    serve w req store =
      { response := { status := 400, body := Body.error "Standings not found".toList }
        inserts := []
        store := store } := by
  obtain ⟨hm, url, hu, hne, hfetch⟩ := hf
  have hne' : url.isEmpty = false := by
    cases url with
    | nil => exact absurd rfl hne
    | cons c cs => rfl
  simp only [serve, hm, hu, hne', hfetch, hp, if_false, Bool.false_eq_true]

theorem processEntry_group_size (w : World) (g : Nat) (ev : Option EventRow)
    (tm : List (Option Str × TeamRef)) (sm : List (Str × SkaterRef)) (e : Entry) (p : Payload)
    (h : processEntry w g ev tm sm e = some p) :
    p.prop "group_size" = Val.num (JsNumber.int (g : Int)) := by
  unfold processEntry at h
  split at h
  · exact absurd h (by simp)
  · split at h
    · exact absurd h (by simp)
    · simp only [Option.some.injEq] at h
      subst h
      rfl

theorem sample_fetched (html : Str) (points : List PointRow) :
    Fetched (sampleWorld html points) sampleRequest html :=
  ⟨by decide, _, rfl, by decide, rfl⟩

/-! ## Tag stripping keeps no text that was not in the page -/

theorem prefix_of_prefix_stripTagsGo :
    ∀ (s pat : Str), '\n' ∉ pat → pat <+: stripTagsGo false s → pat <+: s
  | [], pat, _, h => by simpa [stripTagsGo] using h
  | c :: cs, [], _, _ => List.nil_prefix
  | c :: cs, p :: ps, hpat, h => by
    have hp : p ≠ '\n' := fun hp => hpat (by simp [hp])
    have hps : '\n' ∉ ps := fun hin => hpat (List.mem_cons_of_mem _ hin)
    by_cases htag : c = '<' ∧ '>' ∈ cs
    · rw [stripTagsGo, if_pos htag, List.cons_prefix_cons] at h
      exact absurd h.1 hp
    · rw [stripTagsGo, if_neg htag, List.cons_prefix_cons] at h
      rw [List.cons_prefix_cons]
      exact ⟨h.1, prefix_of_prefix_stripTagsGo cs ps hps h.2⟩

theorem infix_of_infix_stripTagsGo (pat : Str) (hpat : '\n' ∉ pat) :
    ∀ (s : Str) (b : Bool), pat <:+: stripTagsGo b s → pat <:+: s
  | [], b, h => by
    cases b <;> simpa [stripTagsGo] using h
  | c :: cs, true, h => by
    have hsuf : cs <:+: c :: cs := (List.suffix_cons c cs).isInfix
    by_cases hc : c = '>'
    · rw [stripTagsGo, if_pos hc] at h
      exact (infix_of_infix_stripTagsGo pat hpat cs false h).trans hsuf
    · rw [stripTagsGo, if_neg hc] at h
      exact (infix_of_infix_stripTagsGo pat hpat cs true h).trans hsuf
  | c :: cs, false, h => by
    have hsuf : cs <:+: c :: cs := (List.suffix_cons c cs).isInfix
    by_cases htag : c = '<' ∧ '>' ∈ cs
    · have h' := h
      rw [stripTagsGo, if_pos htag, List.infix_cons_iff] at h'
      rcases h' with hpre | hin
      · cases pat with
        | nil => exact List.nil_infix
        | cons p ps =>
          rw [List.cons_prefix_cons] at hpre
          exact absurd (by simp [hpre.1]) hpat
      · exact (infix_of_infix_stripTagsGo pat hpat cs true hin).trans hsuf
    · have h' := h
      rw [stripTagsGo, if_neg htag, List.infix_cons_iff] at h'
      rcases h' with hpre | hin
      · have hpre' : pat <+: stripTagsGo false (c :: cs) := by
          rw [stripTagsGo, if_neg htag]
          exact hpre
        exact (prefix_of_prefix_stripTagsGo (c :: cs) pat hpat hpre').isInfix
      · exact (infix_of_infix_stripTagsGo pat hpat cs false hin).trans hsuf

theorem infix_of_infix_stripTags (pat : Str) (hpat : '\n' ∉ pat) (html : Str)
    (h : pat <:+: stripTags html) : pat <:+: html :=
  infix_of_infix_stripTagsGo pat hpat html false h

/-! ## `Map` lemmas -/

theorem mapGet_mapSet {κ ν : Type} [DecidableEq κ] (k : κ) (v : ν) (k' : κ) :
    ∀ m : List (κ × ν), mapGet (mapSet m k v) k' = if k' = k then some v else mapGet m k'
  | [] => by
    by_cases h : k' = k
    · simp [mapSet, mapGet, h]
    · simp [mapSet, mapGet, h, Ne.symm h]
  | (a, b) :: rest => by
    have ih := mapGet_mapSet k v k' rest
    by_cases hak : a = k
    · by_cases h : k' = k
      · simp [mapSet, mapGet, hak, h]
      · simp [mapSet, mapGet, hak, h, Ne.symm h]
    · by_cases ha : a = k'
      · have hk : ¬ k' = k := fun h => hak (ha.trans h)
        simp [mapSet, mapGet, hak, ha, hk]
      · simp only [mapSet, hak, if_false]
        simp only [mapGet] at ih ⊢
        simp only [List.find?_cons, ha, decide_False]
        exact ih

theorem mapGet_buildTeamMap_isSome (u : Option Str) :
    ∀ (teams : List TeamRow) (m : List (Option Str × TeamRef)),
      (mapGet (teams.foldl
          (fun m t => mapSet m t.name { teamId := t.id, name := t.name }) m) u).isSome =
        ((mapGet m u).isSome || decide (∃ t ∈ teams, t.name = u))
  | [], m => by simp
  | t :: ts, m => by
    rw [List.foldl_cons, mapGet_buildTeamMap_isSome u ts, mapGet_mapSet]
    by_cases h : u = t.name
    · simp [h]
    · simp [h, Ne.symm h]

/-- The lookup of the handler finds a team exactly for the entries whose affiliation is
the name of a `Team` row. -/
theorem teamOf_isSome_iff (w : World) (e : Entry) :
    (teamOf (buildTeamMap w.teams) e).isSome = true ↔ KnownTeam w e := by
  unfold teamOf buildTeamMap KnownTeam
  rw [mapGet_buildTeamMap_isSome e.university w.teams []]
  simp [mapGet]

theorem teamOf_eq_none_of_unknown (w : World) (e : Entry) (h : ¬ KnownTeam w e) :
    (teamOf (buildTeamMap w.teams) e).isNone = true := by
  have hiff := teamOf_isSome_iff w e
  cases hg : teamOf (buildTeamMap w.teams) e with
  | none => rfl
  | some v =>
    rw [hg] at hiff
    exact absurd (hiff.1 rfl) h

theorem processEntry_unknown (w : World) (g : Nat) (ev : Option EventRow)
    (sm : List (Str × SkaterRef)) (e : Entry) (h : ¬ KnownTeam w e) :
    processEntry w g ev (buildTeamMap w.teams) sm e = none := by
  unfold processEntry
  split
  · rfl
  · rw [if_pos (teamOf_eq_none_of_unknown w e h)]

theorem filterMap_filter_of_none {α β : Type} (f : α → Option β) (p : α → Bool)
    (h : ∀ a, p a = false → f a = none) :
    ∀ l : List α, l.filterMap f = (l.filter p).filterMap f
  | [] => rfl
  | a :: l => by
    have ih := filterMap_filter_of_none f p h l
    by_cases hp : p a = true
    · simp only [List.filter_cons, hp, if_true, List.filterMap_cons, ih]
    · have hp' : p a = false := by simpa using hp
      simp only [List.filter_cons, hp', List.filterMap_cons, h a hp', ih]
      simp

/-! ## The team map of `fetchCompetitionResults` -/

theorem map_fst_mapSet {κ ν : Type} [DecidableEq κ] (k : κ) (v : ν) :
    ∀ m : List (κ × ν), (mapSet m k v).map Prod.fst =
      if k ∈ m.map Prod.fst then m.map Prod.fst else m.map Prod.fst ++ [k]
  | [] => by simp [mapSet]
  | (a, b) :: rest => by
    have ih := map_fst_mapSet k v rest
    by_cases hak : a = k
    · simp [mapSet, hak]
    · have hka : ¬ k = a := fun h => hak h.symm
      by_cases hmem : k ∈ rest.map Prod.fst
      · rw [if_pos hmem] at ih
        simp only [mapSet, hak, if_false, List.map_cons, ih, List.mem_cons, hmem, or_true,
          if_true]
      · rw [if_neg hmem] at ih
        simp only [mapSet, hak, if_false, List.map_cons, ih, List.mem_cons, hmem, hka,
          or_self, List.cons_append]

theorem mapSet_of_not_mem {κ ν : Type} [DecidableEq κ] (k : κ) (v : ν) :
    ∀ m : List (κ × ν), k ∉ m.map Prod.fst → mapSet m k v = m ++ [(k, v)]
  | [], _ => rfl
  | (a, b) :: rest, h => by
    have hak : ¬ a = k := fun hak => h (by simp [hak])
    have hrest : k ∉ rest.map Prod.fst := fun hr => h (by simp at hr ⊢; exact Or.inr hr)
    simp only [mapSet, hak, if_false, mapSet_of_not_mem k v rest hrest, List.cons_append]

theorem mem_mapSet {κ ν : Type} [DecidableEq κ] (k : κ) (v : ν) (kv : κ × ν) :
    ∀ m : List (κ × ν), kv ∈ mapSet m k v → kv = (k, v) ∨ kv ∈ m
  | [], h => by
    simp only [mapSet, List.mem_singleton] at h
    exact Or.inl h
  | (a, b) :: rest, h => by
    by_cases hak : a = k
    · simp only [mapSet, hak, if_true, List.mem_cons] at h
      rcases h with h | h
      · exact Or.inl h
      · exact Or.inr (List.mem_cons_of_mem _ h)
    · simp only [mapSet, hak, if_false, List.mem_cons] at h
      rcases h with h | h
      · exact Or.inr (by simp [h])
      · rcases mem_mapSet k v kv rest h with h' | h'
        · exact Or.inl h'
        · exact Or.inr (List.mem_cons_of_mem _ h')

theorem nodup_mapSet {κ ν : Type} [DecidableEq κ] (k : κ) (v : ν) (m : List (κ × ν))
    (h : (m.map Prod.fst).Nodup) : ((mapSet m k v).map Prod.fst).Nodup := by
  rw [map_fst_mapSet]
  split
  · exact h
  · rename_i hk
    exact List.Nodup.append h (List.nodup_singleton k) (by simpa using hk)

/-- On a map without duplicate keys, setting an existing key rewrites that one pair. -/
theorem mapSet_eq_map {κ ν : Type} [DecidableEq κ] (k : κ) (v : ν) :
    ∀ m : List (κ × ν), (m.map Prod.fst).Nodup → k ∈ m.map Prod.fst →
      mapSet m k v = m.map (fun kv => if kv.1 = k then (k, v) else kv)
  | [], _, hk => by simp at hk
  | (a, b) :: rest, hnd, hk => by
    rw [List.map_cons, List.nodup_cons] at hnd
    by_cases hak : a = k
    · subst hak
      have hrest : rest.map (fun kv => if kv.1 = a then (a, v) else kv) = rest := by
        conv_rhs => rw [← List.map_id rest]
        apply List.map_congr_left
        intro kv hkv
        have : ¬ kv.1 = a := fun h => hnd.1 (by
          rw [← h]; exact List.mem_map.2 ⟨kv, hkv, rfl⟩)
        simp [this]
      simp [mapSet, hrest]
    · have hk' : k ∈ rest.map Prod.fst := by
        simp only [List.map_cons, List.mem_cons] at hk
        rcases hk with hk | hk
        · exact absurd hk.symm hak
        · exact hk
      simp only [mapSet, hak, if_false, List.map_cons, mapSet_eq_map k v rest hnd.2 hk']

theorem mapGet_eq_some_of_mem {κ ν : Type} [DecidableEq κ] :
    ∀ (m : List (κ × ν)), (m.map Prod.fst).Nodup → ∀ kv ∈ m, mapGet m kv.1 = some kv.2
  | [], _, kv, h => by simp at h
  | (a, b) :: rest, hnd, kv, h => by
    rw [List.map_cons, List.nodup_cons] at hnd
    rcases List.mem_cons.1 h with rfl | h'
    · simp [mapGet]
    · have hne : ¬ a = kv.1 := fun hak => hnd.1 (by
        rw [hak]; exact List.mem_map.2 ⟨kv, h', rfl⟩)
      have ih := mapGet_eq_some_of_mem rest hnd.2 kv h'
      simp only [mapGet] at ih ⊢
      simp only [List.find?_cons, hne, decide_False]
      exact ih

theorem mapGet_eq_none_of_not_mem {κ ν : Type} [DecidableEq κ] (k : κ) :
    ∀ (m : List (κ × ν)), k ∉ m.map Prod.fst → mapGet m k = none
  | [], _ => rfl
  | (a, b) :: rest, h => by
    have hak : ¬ a = k := fun hak => h (by simp [hak])
    have hrest : k ∉ rest.map Prod.fst := fun hr => h (by simp at hr ⊢; exact Or.inr hr)
    have ih := mapGet_eq_none_of_not_mem k rest hrest
    simp only [mapGet] at ih ⊢
    simp only [List.find?_cons, hak, decide_False]
    exact ih

theorem mem_keys_of_mapGet {κ ν : Type} [DecidableEq κ] (k : κ) (v : ν) (m : List (κ × ν))
    (h : mapGet m k = some v) : k ∈ m.map Prod.fst := by
  by_contra hk
  rw [mapGet_eq_none_of_not_mem k m hk] at h
  exact absurd h (by simp)

/-- On a map without duplicate keys, the callback of the results loop rewrites the entry of
the row's team and leaves the other entries alone. -/
theorem applyResult_eq_map (m : List (Nat × TeamAcc)) (r : ResultRow)
    (hnd : (m.map Prod.fst).Nodup) :
    applyResult m r =
      m.map (fun kv => if r.team_id = some kv.1 then (kv.1, addResult kv.2 r) else kv) := by
  cases hr : r.team_id with
  | none => simp [applyResult, hr]
  | some k =>
    cases hg : mapGet m k with
    | none =>
      have hk : k ∉ m.map Prod.fst := by
        intro hk
        obtain ⟨kv, hkv, rfl⟩ := List.mem_map.1 hk
        rw [mapGet_eq_some_of_mem m hnd kv hkv] at hg
        exact absurd hg (by simp)
      simp only [applyResult, hr, hg]
      conv_lhs => rw [← List.map_id m]
      apply List.map_congr_left
      intro kv hkv
      have : ¬ k = kv.1 := fun h => hk (by
        rw [h]; exact List.mem_map.2 ⟨kv, hkv, rfl⟩)
      simp [this]
    | some entry =>
      simp only [applyResult, hr, hg]
      rw [mapSet_eq_map k _ m hnd (mem_keys_of_mapGet k entry m hg)]
      apply List.map_congr_left
      intro kv hkv
      by_cases hk : kv.1 = k
      · have : mapGet m kv.1 = some kv.2 := mapGet_eq_some_of_mem m hnd kv hkv
        rw [hk, hg] at this
        simp only [Option.some.injEq] at this
        simp [hk, this]
      · have hk' : ¬ k = kv.1 := fun h => hk h.symm
        simp [hk, hk']

theorem foldl_applyResult_eq_map :
    ∀ (results : List ResultRow) (m : List (Nat × TeamAcc)), (m.map Prod.fst).Nodup →
      results.foldl applyResult m =
        m.map (fun kv => (kv.1,
          (recordsOf kv.1 results).foldl addResult kv.2))
  | [], m, _ => by simp [recordsOf]
  | r :: rs, m, hnd => by
    have hkeys : ((applyResult m r).map Prod.fst) = m.map Prod.fst := by
      rw [applyResult_eq_map m r hnd, List.map_map]
      apply List.map_congr_left
      intro kv _
      by_cases h : r.team_id = some kv.1 <;> simp [h]
    rw [List.foldl_cons, foldl_applyResult_eq_map rs (applyResult m r) (hkeys ▸ hnd),
      applyResult_eq_map m r hnd, List.map_map]
    apply List.map_congr_left
    intro kv _
    by_cases h : r.team_id = some kv.1
    · simp [h, recordsOf, List.filter_cons]
    · simp [h, recordsOf, List.filter_cons]

theorem foldl_addResult (entry : TeamAcc) :
    ∀ (rs : List ResultRow) (acc : TeamAcc),
      (rs.foldl addResult acc).teamId = acc.teamId ∧
      (rs.foldl addResult acc).name = acc.name ∧
      (rs.foldl addResult acc).totalPoints =
        (rs.map pointsNumber).foldl Double.add acc.totalPoints ∧
      (rs.foldl addResult acc).starts = acc.starts + rs.length ∧
      (rs.foldl addResult acc).results = acc.results ++ rs
  | [], acc => by simp
  | r :: rs, acc => by
    obtain ⟨h1, h2, h3, h4, h5⟩ := foldl_addResult entry rs (addResult acc r)
    rw [List.foldl_cons]
    refine ⟨h1, h2, ?_, ?_, ?_⟩
    · rw [h3]
      simp [addResult]
    · rw [h4]
      simp [addResult]
      ring
    · rw [h5]
      simp [addResult]

/-! ## The initial team map and the values of the final one -/

theorem initTeamMap_fold_inv (T : List TeamRow) :
    ∀ (ts : List TeamRow) (m : List (Nat × TeamAcc)), (∀ t ∈ ts, t ∈ T) →
      ((m.map Prod.fst).Nodup ∧ ∀ kv ∈ m, ∃ t ∈ T,
        kv = (t.id, { teamId := t.id, name := t.name, totalPoints := Double.fin 0, starts := 0,
                      results := [] })) →
      (((ts.foldl (fun m t => mapSet m t.id
          { teamId := t.id, name := t.name, totalPoints := Double.fin 0, starts := 0,
            results := [] })
          m).map Prod.fst).Nodup ∧
        ∀ kv ∈ ts.foldl (fun m t => mapSet m t.id
          { teamId := t.id, name := t.name, totalPoints := Double.fin 0, starts := 0,
            results := [] }) m,
          ∃ t ∈ T, kv = (t.id, { teamId := t.id, name := t.name, totalPoints := Double.fin 0,
                                   starts := 0, results := [] }))
  | [], m, _, h => h
  | t :: ts, m, hT, h => by
    rw [List.foldl_cons]
    apply initTeamMap_fold_inv T ts _ (fun t' ht' => hT t' (List.mem_cons_of_mem _ ht'))
    refine ⟨nodup_mapSet _ _ m h.1, ?_⟩
    intro kv hkv
    rcases mem_mapSet _ _ kv m hkv with rfl | hin
    · exact ⟨t, hT t (List.mem_cons_self _ _), rfl⟩
    · exact h.2 kv hin

theorem initTeamMap_fold_keys (k : Nat) :
    ∀ (ts : List TeamRow) (m : List (Nat × TeamAcc)),
      k ∈ (ts.foldl (fun m t => mapSet m t.id
          { teamId := t.id, name := t.name, totalPoints := Double.fin 0, starts := 0,
            results := [] })
          m).map Prod.fst ↔ k ∈ m.map Prod.fst ∨ k ∈ ts.map (fun t => t.id)
  | [], m => by simp
  | t :: ts, m => by
    rw [List.foldl_cons, initTeamMap_fold_keys k ts, map_fst_mapSet]
    by_cases h : t.id ∈ m.map Prod.fst
    · rw [if_pos h]
      constructor
      · rintro (h1 | h1)
        · exact Or.inl h1
        · exact Or.inr (by simp at h1 ⊢; exact Or.inr h1)
      · rintro (h1 | h1)
        · exact Or.inl h1
        · simp only [List.map_cons, List.mem_cons] at h1
          rcases h1 with rfl | h1
          · exact Or.inl h
          · exact Or.inr h1
    · rw [if_neg h]
      simp only [List.mem_append, List.mem_singleton, List.map_cons, List.mem_cons]
      tauto

theorem initTeamMap_fold_nodup :
    ∀ (ts : List TeamRow) (m : List (Nat × TeamAcc)), (ts.map (fun t => t.id)).Nodup →
      (∀ t ∈ ts, t.id ∉ m.map Prod.fst) →
      ts.foldl (fun m t => mapSet m t.id
          { teamId := t.id, name := t.name, totalPoints := Double.fin 0, starts := 0,
            results := [] }) m =
        m ++ ts.map (fun t => (t.id, { teamId := t.id, name := t.name, totalPoints := Double.fin 0,
                                         starts := 0, results := [] }))
  | [], m, _, _ => by simp
  | t :: ts, m, hnd, hm => by
    rw [List.map_cons, List.nodup_cons] at hnd
    rw [List.foldl_cons, mapSet_of_not_mem _ _ m (hm t (List.mem_cons_self _ _)),
      initTeamMap_fold_nodup ts _ hnd.2]
    · simp
    · intro t' ht' hin
      simp only [List.map_append, List.map_cons, List.map_nil, List.mem_append,
        List.mem_singleton] at hin
      rcases hin with hin | hin
      · exact hm t' (List.mem_cons_of_mem _ ht') hin
      · exact hnd.1 (by rw [← hin]; exact List.mem_map.2 ⟨t', ht', rfl⟩)

theorem initTeamMap_nodup (teams : List TeamRow) :
    ((initTeamMap teams).map Prod.fst).Nodup :=
  (initTeamMap_fold_inv teams teams [] (fun _ h => h) ⟨by simp, by simp⟩).1

theorem initTeamMap_mem (teams : List TeamRow) :
    ∀ kv ∈ initTeamMap teams, ∃ t ∈ teams,
      kv = (t.id, { teamId := t.id, name := t.name, totalPoints := Double.fin 0, starts := 0,
                    results := [] }) :=
  (initTeamMap_fold_inv teams teams [] (fun _ h => h) ⟨by simp, by simp⟩).2

theorem initTeamMap_keys (teams : List TeamRow) (k : Nat) :
    k ∈ (initTeamMap teams).map Prod.fst ↔ k ∈ teams.map (fun t => t.id) := by
  unfold initTeamMap
  rw [initTeamMap_fold_keys]
  simp

theorem initTeamMap_of_nodup (teams : List TeamRow) (h : (teams.map (fun t => t.id)).Nodup) :
    initTeamMap teams =
      teams.map (fun t => (t.id, { teamId := t.id, name := t.name, totalPoints := Double.fin 0,
                                     starts := 0, results := [] })) := by
  unfold initTeamMap
  rw [initTeamMap_fold_nodup teams [] h (by simp)]
  simp

/-- The values of the team map after the results loop, in insertion order: the entry of
key `k` has the totals of the records of team `k`. -/
theorem finalMap_values (teams : List TeamRow) (results : List ResultRow) :
    mapValues (results.foldl applyResult (initTeamMap teams)) =
      (initTeamMap teams).map (fun kv =>
        { teamId := kv.1, name := kv.2.name, totalPoints := doubleTotalOf kv.1 results,
          starts := (recordsOf kv.1 results).length, results := recordsOf kv.1 results }) := by
  rw [foldl_applyResult_eq_map results _ (initTeamMap_nodup teams)]
  unfold mapValues
  rw [List.map_map]
  apply List.map_congr_left
  intro kv hkv
  obtain ⟨t, _, rfl⟩ := initTeamMap_mem teams kv hkv
  obtain ⟨h1, h2, h3, h4, h5⟩ := foldl_addResult
    { teamId := t.id, name := t.name, totalPoints := Double.fin 0, starts := 0, results := [] }
    (recordsOf t.id results)
    { teamId := t.id, name := t.name, totalPoints := Double.fin 0, starts := 0, results := [] }
  simp only [Function.comp]
  cases hv : (recordsOf t.id results).foldl addResult
    { teamId := t.id, name := t.name, totalPoints := Double.fin 0, starts := 0, results := [] } with
  | mk a b c d e =>
    rw [hv] at h1 h2 h3 h4 h5
    simp only at h1 h2 h3 h4 h5
    simp [h1, h2, h3, h4, h5, doubleTotalOf, doubleSum]

theorem finalMap_values_ids (teams : List TeamRow) (results : List ResultRow) :
    (mapValues (results.foldl applyResult (initTeamMap teams))).map (fun a => a.teamId) =
      (initTeamMap teams).map Prod.fst := by
  rw [finalMap_values, List.map_map]
  rfl

theorem sort_perm {α : Type} (cmp : α → α → Double) (l : List α) : (sort cmp l).Perm l :=
  List.perm_insertionSort _ l

theorem teamsArr_perm (teams : List TeamRow) (results : List ResultRow) :
    (teamsArr teams results).Perm
      ((initTeamMap teams).map (fun kv =>
        { teamId := kv.1, name := kv.2.name, totalPoints := doubleTotalOf kv.1 results,
          starts := (recordsOf kv.1 results).length, results := recordsOf kv.1 results })) := by
  unfold teamsArr
  rw [← finalMap_values]
  exact sort_perm _ _

theorem mem_teamsArr (teams : List TeamRow) (results : List ResultRow) (a : TeamAcc)
    (h : a ∈ teamsArr teams results) :
    (∃ t ∈ teams, a.teamId = t.id ∧ a.name = t.name) ∧
      a.totalPoints = doubleTotalOf a.teamId results ∧
      a.starts = (recordsOf a.teamId results).length ∧
      a.results = recordsOf a.teamId results := by
  have h' := (teamsArr_perm teams results).mem_iff.1 h
  obtain ⟨kv, hkv, rfl⟩ := List.mem_map.1 h'
  obtain ⟨t, ht, rfl⟩ := initTeamMap_mem teams kv hkv
  exact ⟨⟨t, ht, rfl, rfl⟩, rfl, rfl, rfl⟩

/-! ## Sums over the teams -/

theorem sum_map_ite_eq_some {M : Type} [AddCommMonoid M] (x : Option Nat) (p : M) :
    ∀ K : List Nat, K.Nodup →
      (K.map (fun k => if x = some k then p else 0)).sum =
        if (∃ k ∈ K, x = some k) then p else 0
  | [], _ => by simp
  | a :: K, hnd => by
    rw [List.nodup_cons] at hnd
    rw [List.map_cons, List.sum_cons, sum_map_ite_eq_some x p K hnd.2]
    by_cases ha : x = some a
    · have hno : ¬ ∃ k ∈ K, x = some k := by
        rintro ⟨k, hk, hx⟩
        rw [ha] at hx
        exact hnd.1 (Option.some.inj hx ▸ hk)
      have hyes : ∃ k ∈ a :: K, x = some k := ⟨a, List.mem_cons_self _ _, ha⟩
      rw [if_pos ha, if_neg hno, if_pos hyes, add_zero]
    · by_cases hK : ∃ k ∈ K, x = some k
      · have hyes : ∃ k ∈ a :: K, x = some k := by
          obtain ⟨k, hk, hx⟩ := hK
          exact ⟨k, List.mem_cons_of_mem _ hk, hx⟩
        simp [ha, hK, hyes]
      · have hno : ¬ ∃ k ∈ a :: K, x = some k := by
          rintro ⟨k, hk, hx⟩
          rcases List.mem_cons.1 hk with rfl | hk
          · exact ha hx
          · exact hK ⟨k, hk, hx⟩
        simp [ha, hK, hno]

/-- Summing a quantity of the records team by team, over teams without repetition, is
summing it over the records that refer to one of the teams. -/
theorem sum_over_teams {M : Type} [AddCommMonoid M] (f : ResultRow → M) (K : List Nat)
    (hnd : K.Nodup) :
    ∀ results : List ResultRow,
      (K.map (fun k => ((recordsOf k results).map f).sum)).sum =
        ((results.filter (fun r => decide (∃ k ∈ K, r.team_id = some k))).map f).sum
  | [] => by simp [recordsOf]
  | r :: rs => by
    have ih := sum_over_teams f K hnd rs
    have hsplit : (K.map (fun k => ((recordsOf k (r :: rs)).map f).sum)) =
        K.map (fun k => (if r.team_id = some k then f r else 0) +
          ((recordsOf k rs).map f).sum) := by
      apply List.map_congr_left
      intro k _
      by_cases h : r.team_id = some k
      · simp [recordsOf, List.filter_cons, h]
      · simp [recordsOf, List.filter_cons, h]
    rw [hsplit, List.sum_map_add, ih, sum_map_ite_eq_some r.team_id (f r) K hnd]
    by_cases h : ∃ k ∈ K, r.team_id = some k
    · simp [List.filter_cons, h]
    · simp [List.filter_cons, h]

theorem refersToTeam_iff (teams : List TeamRow) (r : ResultRow) :
    (∃ k ∈ (initTeamMap teams).map Prod.fst, r.team_id = some k) ↔ RefersToTeam teams r := by
  constructor
  · rintro ⟨k, hk, hr⟩
    obtain ⟨t, ht, rfl⟩ := List.mem_map.1 ((initTeamMap_keys teams k).1 hk)
    exact ⟨t, ht, hr⟩
  · rintro ⟨t, ht, hr⟩
    exact ⟨t.id, (initTeamMap_keys teams t.id).2 (List.mem_map.2 ⟨t, ht, rfl⟩), hr⟩

theorem sum_teamsArr {M : Type} [AddCommMonoid M] (f : ResultRow → M) (g : TeamAcc → M)
    (teams : List TeamRow) (results : List ResultRow)
    (hg : ∀ a ∈ teamsArr teams results, g a = ((recordsOf a.teamId results).map f).sum) :
    ((teamsArr teams results).map g).sum =
      ((results.filter (fun r => decide (RefersToTeam teams r))).map f).sum := by
  have h1 : (teamsArr teams results).map g =
      (teamsArr teams results).map (fun a => ((recordsOf a.teamId results).map f).sum) :=
    List.map_congr_left hg
  rw [h1, ((teamsArr_perm teams results).map _).sum_eq, List.map_map]
  have h2 := sum_over_teams f ((initTeamMap teams).map Prod.fst) (initTeamMap_nodup teams)
    results
  rw [List.map_map] at h2
  have h3 : (results.filter (fun r => decide (RefersToTeam teams r))) =
      results.filter (fun r =>
        decide (∃ k ∈ (initTeamMap teams).map Prod.fst, r.team_id = some k)) := by
    apply List.filter_congr
    intro r _
    simp only [decide_eq_decide]
    exact (refersToTeam_iff teams r).symm
  rw [h3, ← h2]
  rfl

/-! ## Double division and `toFixed(3)` -/

theorem log2Fuel_spec : ∀ (fuel n : Nat), n ≤ fuel → 0 < n →
    2 ^ log2Fuel fuel n ≤ n ∧ n < 2 ^ (log2Fuel fuel n + 1)
  | 0, n, h, hpos => by omega
  | fuel + 1, n, h, hpos => by
    by_cases h2 : n < 2
    · have : n = 1 := by omega
      subst this
      simp [log2Fuel]
    · have ih := log2Fuel_spec fuel (n / 2) (by omega) (by omega)
      simp only [log2Fuel, h2, if_false]
      rw [pow_succ, pow_succ]
      rw [pow_succ] at ih
      constructor <;> omega

theorem log2_spec (n : Nat) (hpos : 0 < n) : 2 ^ log2 n ≤ n ∧ n < 2 ^ (log2 n + 1) :=
  log2Fuel_spec n n (le_refl n) hpos

theorem roundHalfEven_spec (num den : Nat) (hden : 0 < den) :
    |((roundHalfEven num den : Nat) : ℚ) - (num : ℚ) / den| ≤ 1 / 2 := by
  have hd : (0 : ℚ) < den := by exact_mod_cast hden
  have hdm := Nat.div_add_mod num den
  have hm := Nat.mod_lt num hden
  have hnum : (num : ℚ) = den * ((num / den : Nat) : ℚ) + ((num % den : Nat) : ℚ) := by
    exact_mod_cast hdm.symm
  have hq : (num : ℚ) / den = ((num / den : Nat) : ℚ) + ((num % den : Nat) : ℚ) / den := by
    rw [hnum]
    field_simp
    ring
  have hr0 : (0 : ℚ) ≤ ((num % den : Nat) : ℚ) / den := by positivity
  have hr1 : ((num % den : Nat) : ℚ) / den < 1 := by
    rw [div_lt_one hd]
    exact_mod_cast hm
  rw [hq, abs_le]
  unfold roundHalfEven
  simp only []
  split_ifs with h1 h2 h3
  · have h1' : ((num % den : Nat) : ℚ) / den < 1 / 2 := by
      rw [div_lt_iff₀ hd]
      have : 2 * ((num % den : Nat) : ℚ) < den := by exact_mod_cast h1
      linarith
    constructor <;> linarith
  · have h2' : 1 / 2 < ((num % den : Nat) : ℚ) / den := by
      rw [lt_div_iff₀ hd]
      have : (den : ℚ) < 2 * ((num % den : Nat) : ℚ) := by exact_mod_cast h2
      linarith
    push_cast
    constructor <;> linarith
  · have h12 : 2 * (num % den) = den := by omega
    have h12' : ((num % den : Nat) : ℚ) / den = 1 / 2 := by
      rw [div_eq_iff (ne_of_gt hd)]
      have : 2 * ((num % den : Nat) : ℚ) = den := by exact_mod_cast h12
      linarith
    constructor <;> linarith
  · have h12 : 2 * (num % den) = den := by omega
    have h12' : ((num % den : Nat) : ℚ) / den = 1 / 2 := by
      rw [div_eq_iff (ne_of_gt hd)]
      have : 2 * ((num % den : Nat) : ℚ) = den := by exact_mod_cast h12
      linarith
    push_cast
    constructor <;> linarith

theorem quotientExponent_spec (a b : Nat) (ha : 0 < a) (hb : 0 < b) :
    (2 : ℚ) ^ (quotientExponent a b) ≤ (a : ℚ) / b ∧
      (a : ℚ) / b < (2 : ℚ) ^ (quotientExponent a b + 1) := by
  obtain ⟨ha1, ha2⟩ := log2_spec a ha
  obtain ⟨hb1, hb2⟩ := log2_spec b hb
  have hbq : (0 : ℚ) < b := by exact_mod_cast hb
  have hpa : (0 : ℚ) < 2 ^ log2 a := by positivity
  have hpb : (0 : ℚ) < 2 ^ log2 b := by positivity
  have ha1' : (2 : ℚ) ^ log2 a ≤ a := by exact_mod_cast ha1
  have ha2' : (a : ℚ) < 2 ^ log2 a * 2 := by
    rw [← pow_succ]; exact_mod_cast ha2
  have hb1' : (2 : ℚ) ^ log2 b ≤ b := by exact_mod_cast hb1
  have hb2' : (b : ℚ) < 2 ^ log2 b * 2 := by
    rw [← pow_succ]; exact_mod_cast hb2
  have hd : (2 : ℚ) ^ ((log2 a : Int) - (log2 b : Int)) = 2 ^ log2 a / 2 ^ log2 b := by
    rw [zpow_sub₀ (by norm_num), zpow_natCast, zpow_natCast]
  unfold quotientExponent
  simp only []
  split_ifs with h
  · have h' : (b : ℚ) * 2 ^ log2 a ≤ a * 2 ^ log2 b := by exact_mod_cast h
    rw [zpow_add_one₀ (by norm_num), hd]
    constructor
    · rw [div_le_div_iff₀ hpb hbq]
      linarith
    · rw [div_mul_eq_mul_div, div_lt_div_iff₀ hbq hpb]
      nlinarith
  · have h' : (a : ℚ) * 2 ^ log2 b < b * 2 ^ log2 a := by
      have := not_le.1 h
      exact_mod_cast this
    rw [sub_add_cancel, zpow_sub_one₀ (by norm_num), hd]
    constructor
    · rw [div_mul_eq_mul_div, div_le_div_iff₀ (by positivity) hbq]
      nlinarith
    · rw [div_lt_div_iff₀ hbq hpb]
      linarith

theorem quotientExponent_le (a b : Nat) (ha : 0 < a) (hb : 0 < b) (hsmall : a < 2 ^ 53) :
    quotientExponent a b ≤ 52 := by
  obtain ⟨h1, _⟩ := quotientExponent_spec a b ha hb
  have hbq : (1 : ℚ) ≤ b := by exact_mod_cast hb
  have haq : (a : ℚ) < 2 ^ (53 : ℤ) := by
    have h53 : (2 : ℚ) ^ (53 : ℤ) = ((2 ^ 53 : Nat) : ℚ) := by norm_num
    rw [h53]
    exact Nat.cast_lt.2 hsmall
  have hq : (a : ℚ) / b ≤ a := div_le_self (by positivity) hbq
  have hlt : (2 : ℚ) ^ (quotientExponent a b) < 2 ^ (53 : ℤ) :=
    lt_of_le_of_lt (le_trans h1 hq) haq
  have := (zpow_lt_zpow_iff_right₀ (by norm_num : (1 : ℚ) < 2)).1 hlt
  omega

/-- The double quotient of two positive integers, the first below `2 ^ 53`, is the
quotient rounded on the grid `2 ^ -K`, where `K` is 52 minus the binary exponent of the
quotient, and 1074 at most. -/
theorem divDouble_grid (a b : Nat) (ha : 0 < a) (hb : 0 < b) (hsmall : a < 2 ^ 53) :
    ∃ K : Nat, (K : ℤ) = min (52 - quotientExponent a b) 1074 ∧
      divDouble a b = ((roundHalfEven (a * 2 ^ K) b : Nat) : ℚ) / 2 ^ K ∧
      |divDouble a b - (a : ℚ) / b| ≤ 1 / (2 * 2 ^ K) := by
  have hE := quotientExponent_le a b ha hb hsmall
  have hk : 0 ≤ min (52 - quotientExponent a b) 1074 := by
    rw [le_min_iff]; constructor <;> omega
  refine ⟨(min (52 - quotientExponent a b) 1074).toNat, Int.toNat_of_nonneg hk, ?_, ?_⟩
  · unfold divDouble
    simp only []
    rw [if_neg (Nat.pos_iff_ne_zero.1 ha), if_pos hk]
  · have hx : divDouble a b =
        ((roundHalfEven (a * 2 ^ (min (52 - quotientExponent a b) 1074).toNat) b : Nat) : ℚ) /
          2 ^ (min (52 - quotientExponent a b) 1074).toNat := by
      unfold divDouble
      simp only []
      rw [if_neg (Nat.pos_iff_ne_zero.1 ha), if_pos hk]
    rw [hx]
    generalize (min (52 - quotientExponent a b) 1074).toNat = K
    have hr := roundHalfEven_spec (a * 2 ^ K) b hb
    have hp : (0 : ℚ) < 2 ^ K := by positivity
    have hbq : (0 : ℚ) < b := by exact_mod_cast hb
    have heq : ((roundHalfEven (a * 2 ^ K) b : Nat) : ℚ) / 2 ^ K - (a : ℚ) / b =
        (((roundHalfEven (a * 2 ^ K) b : Nat) : ℚ) - ((a * 2 ^ K : Nat) : ℚ) / b) / 2 ^ K := by
      push_cast
      field_simp
      ring
    rw [heq, abs_div, abs_of_pos hp, div_le_div_iff₀ hp (by positivity)]
    calc |((roundHalfEven (a * 2 ^ K) b : Nat) : ℚ) - ((a * 2 ^ K : Nat) : ℚ) / b| * (2 * 2 ^ K)
        ≤ 1 / 2 * (2 * 2 ^ K) := by
          apply mul_le_mul_of_nonneg_right hr (by positivity)
      _ = 1 * 2 ^ K := by ring

/-- When rounding moves `x` by less than the distance of `a / b` to the next half of a
thousandth, `x` and `a / b` round to the same thousandth. -/
theorem floor_thousandths (x : ℚ) (a b : Nat) (hb : 0 < b)
    (hU : 2000 * (b : ℚ) * x < 2000 * a + 1) (hL : 2000 * (a : ℚ) - 1 < 2000 * b * x) :
    |((⌊x * 1000 + 1 / 2⌋ : ℤ) : ℚ) / 1000 - (a : ℚ) / b| ≤ 1 / 2000 := by
  have hbq : (0 : ℚ) < b := by exact_mod_cast hb
  have hn1 := Int.floor_le (x * 1000 + 1 / 2)
  have hn2 := Int.lt_floor_add_one (x * 1000 + 1 / 2)
  generalize ⌊x * 1000 + 1 / 2⌋ = n at hn1 hn2
  have hq1 : (2 * (n : ℚ) - 1) * (b : ℚ) < 2000 * (a : ℚ) + 1 := by
    have : (2 * (n : ℚ) - 1) * b ≤ 2000 * b * x := by nlinarith
    linarith
  have hq2 : 2000 * (a : ℚ) - 1 < (2 * (n : ℚ) + 1) * (b : ℚ) := by
    have : 2000 * b * x < (2 * (n : ℚ) + 1) * b := by nlinarith
    linarith
  have h1 : (2 * n - 1) * (b : ℤ) < 2000 * (a : ℤ) + 1 := by exact_mod_cast hq1
  have h2 : 2000 * (a : ℤ) - 1 < (2 * n + 1) * (b : ℤ) := by exact_mod_cast hq2
  have h1' : (2 * n - 1) * (b : ℤ) ≤ 2000 * (a : ℤ) := by omega
  have h2' : 2000 * (a : ℤ) ≤ (2 * n + 1) * (b : ℤ) := by omega
  have h1q : (2 * (n : ℚ) - 1) * (b : ℚ) ≤ 2000 * (a : ℚ) := by exact_mod_cast h1'
  have h2q : 2000 * (a : ℚ) ≤ (2 * (n : ℚ) + 1) * (b : ℚ) := by exact_mod_cast h2'
  have hqb : (a : ℚ) / b * b = a := div_mul_cancel₀ _ (ne_of_gt hbq)
  generalize (a : ℚ) / b = q at hqb
  have h3 : 2 * (n : ℚ) - 1 ≤ 2000 * q := by
    apply le_of_mul_le_mul_right _ hbq
    calc (2 * (n : ℚ) - 1) * b ≤ 2000 * a := h1q
      _ = 2000 * q * b := by rw [← hqb]; ring
  have h4 : 2000 * q ≤ 2 * (n : ℚ) + 1 := by
    apply le_of_mul_le_mul_right _ hbq
    calc 2000 * q * b = 2000 * a := by rw [← hqb]; ring
      _ ≤ (2 * (n : ℚ) + 1) * b := h2q
  rw [abs_le]
  constructor <;> linarith

/-- For a total below `2 ^ 53 / 2000`, the double quotient rounds to a thousandth nearest
to the exact quotient. -/
theorem toFixed3_divDouble (a b : Nat) (hb : 0 < b) (ha : 2000 * a < 2 ^ 53) :
    |toFixed3 (divDouble a b) - (a : ℚ) / b| ≤ 1 / 2000 := by
  have hbq : (0 : ℚ) < b := by exact_mod_cast hb
  unfold toFixed3
  rcases Nat.eq_zero_or_pos a with h0 | hpos
  · subst h0
    have hx : divDouble 0 b = 0 := by simp [divDouble]
    rw [hx]
    apply floor_thousandths 0 0 b hb <;> norm_num
  · have hsmall : a < 2 ^ 53 := by omega
    obtain ⟨K, hK, hx, herr⟩ := divDouble_grid a b hpos hb hsmall
    obtain ⟨hE1, hE2⟩ := quotientExponent_spec a b hpos hb
    have haq : 2000 * (a : ℚ) < 2 ^ 53 := by exact_mod_cast ha
    have hpK : (0 : ℚ) < 2 ^ K := by positivity
    rw [abs_le] at herr
    by_cases hcl : 52 - quotientExponent a b ≤ 1074
    · rw [min_eq_left hcl] at hK
      have hzK : (2 : ℚ) ^ K = 2 ^ (52 : ℤ) / 2 ^ (quotientExponent a b) := by
        rw [← zpow_natCast, hK, zpow_sub₀ (by norm_num)]
      have hpE : (0 : ℚ) < 2 ^ (quotientExponent a b) := by positivity
      have h52 : (2 : ℚ) ^ (52 : ℤ) = 2 ^ 52 := by norm_num
      have hEb : (2 : ℚ) ^ (quotientExponent a b) * b ≤ a := by
        rwa [le_div_iff₀ hbq] at hE1
      have hKa : (2 : ℚ) ^ 52 * b ≤ 2 ^ K * a := by
        rw [hzK, h52, div_mul_eq_mul_div, le_div_iff₀ hpE]
        nlinarith
      have hbig : 1000 * (b : ℚ) < 2 ^ K := by
        by_contra hnot
        push_neg at hnot
        have haq' : (0 : ℚ) < a := by exact_mod_cast hpos
        have h1 : (2 : ℚ) ^ K * a ≤ 1000 * b * a := mul_le_mul_of_nonneg_right hnot haq'.le
        have h2 : (2 : ℚ) ^ 52 * b ≤ 1000 * a * b := by linarith
        have h3 : (2 : ℚ) ^ 52 ≤ 1000 * a := le_of_mul_le_mul_right h2 hbq
        norm_num at h3 haq
        linarith
      have hgrid : 1000 * (b : ℚ) * (1 / (2 * 2 ^ K)) < 1 / 2 := by
        rw [mul_one_div, div_lt_iff₀ (by positivity)]
        linarith
      have hqb : (a : ℚ) / b * b = a := div_mul_cancel₀ _ (ne_of_gt hbq)
      apply floor_thousandths (divDouble a b) a b hb
      · nlinarith
      · nlinarith
    · push_neg at hcl
      have hK' : (K : ℤ) = 1074 := by rw [hK]; exact min_eq_right hcl.le
      have hK'' : K = 1074 := by exact_mod_cast hK'
      have hq_small : (a : ℚ) / b < 1 / 4096 := by
        have h1 : (2 : ℚ) ^ (quotientExponent a b + 1) ≤ 2 ^ (-12 : ℤ) :=
          zpow_le_zpow_right₀ (by norm_num) (by omega)
        have h2 : (2 : ℚ) ^ (-12 : ℤ) = 1 / 4096 := by norm_num
        exact lt_of_lt_of_le hE2 (h1.trans h2.le)
      have hgrid : (1 : ℚ) / (2 * 2 ^ K) ≤ 1 / 4096 := by
        have h1 : (2 : ℚ) ^ 11 ≤ 2 ^ K :=
          pow_le_pow_right₀ (by norm_num) (by omega)
        rw [div_le_div_iff₀ (by positivity) (by norm_num)]
        norm_num at h1 ⊢
        linarith
      have hx0 : 0 ≤ divDouble a b := by
        rw [hx]
        positivity
      have hq0 : (0 : ℚ) ≤ (a : ℚ) / b := by positivity
      have hfl : ⌊divDouble a b * 1000 + 1 / 2⌋ = 0 := by
        rw [Int.floor_eq_zero_iff]
        constructor
        · linarith
        · linarith
      rw [hfl, abs_le]
      constructor
      · norm_num
        linarith
      · norm_num
        linarith

/-! ## Rounding to a double -/

theorem two_pow_toNat (n : ℤ) (h : 0 ≤ n) : ((2 : ℚ) ^ n.toNat) = (2 : ℚ) ^ n := by
  rw [← zpow_natCast, Int.toNat_of_nonneg h]

theorem roundHalfEven_mul (n d : Nat) (hd : 0 < d) : roundHalfEven (n * d) d = n := by
  unfold roundHalfEven
  simp [Nat.mul_div_cancel n hd, hd]

/-- A quotient `a / b` that is `m * 2 ^ k` with `m < 2 ^ 53` and `k ≥ -1074` is not moved
by the rounding. -/
theorem divDouble_eq_self (a b : Nat) (ha : 0 < a) (hb : 0 < b) (m : Nat) (k : ℤ)
    (hm : m < 2 ^ 53) (hk : -1074 ≤ k) (hx : (a : ℚ) / b = m * (2 : ℚ) ^ k) :
    divDouble a b = (a : ℚ) / b := by
  obtain ⟨hE1, hE2⟩ := quotientExponent_spec a b ha hb
  have hbq : (0 : ℚ) < b := by exact_mod_cast hb
  have hmq : (m : ℚ) < 2 ^ (53 : ℤ) := by
    have h53 : ((2 ^ 53 : ℕ) : ℚ) = 2 ^ (53 : ℤ) := by norm_num
    rw [← h53]
    exact_mod_cast hm
  have hpk : (0 : ℚ) < 2 ^ k := by positivity
  have hlt : (2 : ℚ) ^ quotientExponent a b < 2 ^ (53 + k) := by
    rw [zpow_add₀ (by norm_num)]
    calc (2 : ℚ) ^ quotientExponent a b ≤ a / b := hE1
      _ = m * 2 ^ k := hx
      _ < 2 ^ (53 : ℤ) * 2 ^ k := mul_lt_mul_of_pos_right hmq hpk
  have he : quotientExponent a b < 53 + k :=
    (zpow_lt_zpow_iff_right₀ (by norm_num : (1 : ℚ) < 2)).1 hlt
  have haeq : (a : ℚ) = m * 2 ^ k * b := by
    rw [← hx]
    field_simp
  unfold divDouble
  rw [if_neg (Nat.pos_iff_ne_zero.1 ha)]
  simp only []
  have hKk : 0 ≤ min (52 - quotientExponent a b) 1074 + k := by
    have : -k ≤ min (52 - quotientExponent a b) 1074 := le_min (by omega) (by omega)
    omega
  generalize min (52 - quotientExponent a b) 1074 = K at hKk
  by_cases hK0 : 0 ≤ K
  · rw [if_pos hK0]
    have hN : a * 2 ^ K.toNat = (m * 2 ^ (K + k).toNat) * b := by
      have : ((a * 2 ^ K.toNat : ℕ) : ℚ) = (((m * 2 ^ (K + k).toNat) * b : ℕ) : ℚ) := by
        push_cast
        rw [two_pow_toNat K hK0, two_pow_toNat (K + k) hKk, haeq, zpow_add₀ (by norm_num)]
        ring
      exact_mod_cast this
    rw [hN, roundHalfEven_mul _ _ hb]
    push_cast
    rw [two_pow_toNat K hK0, two_pow_toNat (K + k) hKk, hx, zpow_add₀ (by norm_num)]
    field_simp
    ring
  · rw [if_neg hK0]
    have hK1 : 0 ≤ -K := by omega
    have hN : a = (m * 2 ^ (K + k).toNat) * (b * 2 ^ (-K).toNat) := by
      have : ((a : ℕ) : ℚ) = (((m * 2 ^ (K + k).toNat) * (b * 2 ^ (-K).toNat) : ℕ) : ℚ) := by
        push_cast
        rw [two_pow_toNat (-K) hK1, two_pow_toNat (K + k) hKk, haeq, zpow_add₀ (by norm_num),
          zpow_neg]
        field_simp
        ring
      exact_mod_cast this
    have hr := roundHalfEven_mul (m * 2 ^ (K + k).toNat) (b * 2 ^ (-K).toNat) (by positivity)
    rw [← hN] at hr
    rw [hr]
    push_cast
    rw [two_pow_toNat (-K) hK1, two_pow_toNat (K + k) hKk, hx, zpow_add₀ (by norm_num),
      zpow_neg]
    field_simp
    ring

theorem divDouble_nonneg (a b : Nat) : 0 ≤ divDouble a b := by
  unfold divDouble
  split
  · exact le_refl 0
  · simp only []
    split <;> positivity

/-- The rounded quotient is `m * 2 ^ k` for some `m < 2 ^ 53` and `k ≥ -1074`. -/
theorem divDouble_isDouble (a b : Nat) (hb : 0 < b) :
    ∃ (m : ℕ) (k : ℤ), m < 2 ^ 53 ∧ -1074 ≤ k ∧ divDouble a b = m * (2 : ℚ) ^ k := by
  rcases Nat.eq_zero_or_pos a with h0 | ha
  · exact ⟨0, 0, by norm_num, by norm_num, by simp [divDouble, h0]⟩
  obtain ⟨hE1, hE2⟩ := quotientExponent_spec a b ha hb
  have hbq : (0 : ℚ) < b := by exact_mod_cast hb
  unfold divDouble
  rw [if_neg (Nat.pos_iff_ne_zero.1 ha)]
  simp only []
  have hK1 : min (52 - quotientExponent a b) 1074 ≤ 52 - quotientExponent a b :=
    min_le_left _ _
  have hK2 : min (52 - quotientExponent a b) 1074 ≤ 1074 := min_le_right _ _
  generalize min (52 - quotientExponent a b) 1074 = K at hK1 hK2
  have hv : (a : ℚ) / b * 2 ^ K < 2 ^ (53 : ℤ) := by
    calc (a : ℚ) / b * 2 ^ K < 2 ^ (quotientExponent a b + 1) * 2 ^ K :=
          mul_lt_mul_of_pos_right hE2 (by positivity)
      _ = 2 ^ (quotientExponent a b + 1 + K) := (zpow_add₀ (by norm_num) _ _).symm
      _ ≤ 2 ^ (53 : ℤ) := zpow_le_zpow_right₀ (by norm_num) (by omega)
  have hR : ∀ R : ℕ, |(R : ℚ) - (a : ℚ) / b * 2 ^ K| ≤ 1 / 2 → R ≤ 2 ^ 53 := by
    intro R h
    rw [abs_le] at h
    have h1 : (R : ℚ) < ((2 ^ 53 + 1 : ℕ) : ℚ) := by
      have h53 : (2 : ℚ) ^ (53 : ℤ) = 2 ^ 53 := by norm_num
      rw [h53] at hv
      push_cast
      linarith [h.2]
    have h2 : R < 2 ^ 53 + 1 := by exact_mod_cast h1
    omega
  have hfin : ∀ R : ℕ, R ≤ 2 ^ 53 →
      ∃ (m : ℕ) (k : ℤ), m < 2 ^ 53 ∧ -1074 ≤ k ∧ (R : ℚ) * 2 ^ (-K) = m * (2 : ℚ) ^ k := by
    intro R hle
    rcases Nat.lt_or_ge R (2 ^ 53) with h | h
    · exact ⟨R, -K, h, by omega, rfl⟩
    · have hR53 : R = 2 ^ 53 := by omega
      refine ⟨2 ^ 52, 1 - K, by norm_num, by omega, ?_⟩
      rw [hR53, sub_eq_add_neg, zpow_add₀ (by norm_num)]
      push_cast
      ring
  by_cases hK0 : 0 ≤ K
  · rw [if_pos hK0]
    have hspec := roundHalfEven_spec (a * 2 ^ K.toNat) b hb
    have hcast : ((a * 2 ^ K.toNat : ℕ) : ℚ) / b = (a : ℚ) / b * 2 ^ K := by
      push_cast
      rw [two_pow_toNat K hK0]
      ring
    rw [hcast] at hspec
    obtain ⟨m, k, hm, hk, h⟩ := hfin _ (hR _ hspec)
    refine ⟨m, k, hm, hk, ?_⟩
    rw [← h, two_pow_toNat K hK0, zpow_neg]
    rfl
  · rw [if_neg hK0]
    have hK1' : 0 ≤ -K := by omega
    have hspec := roundHalfEven_spec a (b * 2 ^ (-K).toNat) (by positivity)
    have hcast : (a : ℚ) / ((b * 2 ^ (-K).toNat : ℕ) : ℚ) = (a : ℚ) / b * 2 ^ K := by
      push_cast
      rw [two_pow_toNat (-K) hK1', zpow_neg]
      field_simp
    rw [hcast] at hspec
    obtain ⟨m, k, hm, hk, h⟩ := hfin _ (hR _ hspec)
    refine ⟨m, k, hm, hk, ?_⟩
    rw [← h, two_pow_toNat (-K) hK1']

theorem num_natAbs_div_den (x : ℚ) : ((x.num.natAbs : ℕ) : ℚ) / x.den = |x| := by
  have h1 : ((x.num.natAbs : ℕ) : ℚ) = |(x.num : ℚ)| := by
    rw [Nat.cast_natAbs, Int.cast_abs]
  have h2 : (0 : ℚ) < x.den := by exact_mod_cast x.den_pos
  conv_rhs => rw [← Rat.num_div_den x]
  rw [h1, abs_div, abs_of_pos h2]

theorem num_natAbs_pos (x : ℚ) (h : x ≠ 0) : 0 < x.num.natAbs :=
  Int.natAbs_pos.2 (Rat.num_ne_zero.2 h)

/-- The value of a double is not moved by the rounding. -/
theorem toDouble_of_isDouble (x : ℚ) (h : IsDouble x) : toDouble x = Double.fin x := by
  obtain ⟨hlt, m, k, hm, hk, hx⟩ := h
  have hab := num_natAbs_div_den x
  have hy : divDouble x.num.natAbs x.den = |x| := by
    by_cases h0 : x = 0
    · simp [h0, divDouble]
    · rw [divDouble_eq_self _ _ (num_natAbs_pos x h0) x.den_pos m k hm hk (hab.trans hx), hab]
  unfold toDouble
  simp only []
  rw [hy, if_neg (not_le.2 hlt)]
  congr 1
  split
  · rename_i hneg
    rw [abs_of_neg hneg, neg_neg]
  · rename_i hneg
    exact abs_of_nonneg (not_lt.1 hneg)

/-- The rounding yields the value of a double, or an infinity. -/
theorem toDouble_valid (q : ℚ) : (toDouble q).Valid := by
  unfold toDouble
  simp only []
  split
  · split <;> exact trivial
  · rename_i hlt
    obtain ⟨m, k, hm, hk, hy⟩ := divDouble_isDouble q.num.natAbs q.den q.den_pos
    have h0 := divDouble_nonneg q.num.natAbs q.den
    have habs : |if q < 0 then -divDouble q.num.natAbs q.den else divDouble q.num.natAbs q.den| =
        divDouble q.num.natAbs q.den := by
      split
      · rw [abs_neg, abs_of_nonneg h0]
      · exact abs_of_nonneg h0
    show IsDouble _
    unfold IsDouble
    rw [habs]
    exact ⟨not_le.1 hlt, m, k, hm, hk, hy⟩

theorem add_valid (a b : Double) : (a.add b).Valid := by
  cases a <;> cases b <;> first | exact toDouble_valid _ | exact trivial

theorem pointsNumber_valid (r : ResultRow) : (pointsNumber r).Valid := by
  unfold pointsNumber
  split
  · show IsDouble 0
    exact ⟨by norm_num, 0, 0, by norm_num, by norm_num, by simp⟩
  · exact toDouble_valid _

theorem isDouble_zero : IsDouble 0 :=
  ⟨by norm_num, 0, 0, by norm_num, by norm_num, by simp⟩

theorem foldl_add_valid : ∀ (l : List Double) (acc : Double), acc.Valid →
    (l.foldl Double.add acc).Valid
  | [], _, h => h
  | d :: l, acc, _ => by
    rw [List.foldl_cons]
    exact foldl_add_valid l _ (add_valid acc d)

theorem doubleSum_valid (l : List Double) : (doubleSum l).Valid :=
  foldl_add_valid l _ isDouble_zero

/-- Adding 0 to a double leaves it as it is. -/
theorem add_zero_of_valid (a : Double) (h : a.Valid) : a.add (Double.fin 0) = a := by
  cases a with
  | fin x =>
    show toDouble (x + 0) = Double.fin x
    rw [add_zero]
    exact toDouble_of_isDouble x h
  | posInf => rfl
  | negInf => rfl
  | nan => rfl

/-- An integer of absolute value `2 ^ 53` at most is the value of a double. -/
theorem isDouble_int (z : ℤ) (h : |z| ≤ 2 ^ 53) : IsDouble (z : ℚ) := by
  have habs : |(z : ℚ)| = ((z.natAbs : ℕ) : ℚ) := by
    rw [Nat.cast_natAbs, Int.cast_abs]
  have hn : z.natAbs ≤ 2 ^ 53 := by
    have : ((z.natAbs : ℕ) : ℤ) ≤ 2 ^ 53 := by rw [Int.natCast_natAbs]; exact h
    exact_mod_cast this
  refine ⟨?_, ?_⟩
  · rw [habs]
    have : ((z.natAbs : ℕ) : ℚ) ≤ 2 ^ 53 := by exact_mod_cast hn
    calc ((z.natAbs : ℕ) : ℚ) ≤ 2 ^ 53 := this
      _ < 2 ^ 1024 := by norm_num
  · rcases Nat.lt_or_ge z.natAbs (2 ^ 53) with hlt | hge
    · exact ⟨z.natAbs, 0, hlt, by norm_num, by rw [habs]; simp⟩
    · have heq : z.natAbs = 2 ^ 53 := by omega
      refine ⟨2 ^ 52, 1, by norm_num, by norm_num, ?_⟩
      rw [habs, heq]
      norm_num

theorem toDouble_int (z : ℤ) (h : |z| ≤ 2 ^ 53) : toDouble (z : ℚ) = Double.fin z :=
  toDouble_of_isDouble _ (isDouble_int z h)

/-! ## Exact sums -/

theorem pointsNumber_of_int (r : ResultRow) (z : ℤ) (hz : pointsOf r = z) (hb : |z| ≤ 2 ^ 53) :
    pointsNumber r = Double.fin z := by
  unfold pointsNumber
  unfold pointsOf at hz
  cases hp : r.points with
  | none =>
    rw [hp] at hz
    simp only [Option.getD_none] at hz
    rw [← hz]
  | some q =>
    rw [hp] at hz
    simp only [Option.getD_some] at hz
    simp only []
    rw [hz]
    exact toDouble_int z hb

theorem foldl_add_exact : ∀ (rs : List ResultRow) (acc : ℤ),
    (∀ r ∈ rs, ∃ z : ℤ, pointsOf r = z) →
    |(acc : ℚ)| + (rs.map (fun r => |pointsOf r|)).sum ≤ 2 ^ 53 →
    (rs.map pointsNumber).foldl Double.add (Double.fin acc) =
      Double.fin (acc + (rs.map pointsOf).sum)
  | [], acc, _, _ => by simp
  | r :: rs, acc, hint, hsum => by
    obtain ⟨z, hz⟩ := hint r (List.mem_cons_self _ _)
    have hnn : 0 ≤ (rs.map (fun r => |pointsOf r|)).sum :=
      List.sum_nonneg (fun x hx => by
        obtain ⟨r', _, rfl⟩ := List.mem_map.1 hx
        exact abs_nonneg _)
    rw [List.map_cons, List.sum_cons, hz] at hsum
    have hzq : |(z : ℚ)| ≤ 2 ^ 53 := by linarith [abs_nonneg (acc : ℚ)]
    have hzb : |z| ≤ 2 ^ 53 := by
      have : ((|z| : ℤ) : ℚ) ≤ ((2 ^ 53 : ℤ) : ℚ) := by
        rw [Int.cast_abs]
        push_cast
        exact hzq
      exact_mod_cast this
    have haz : |((acc + z : ℤ) : ℚ)| ≤ 2 ^ 53 := by
      push_cast
      linarith [abs_add (acc : ℚ) (z : ℚ)]
    have hazb : |acc + z| ≤ 2 ^ 53 := by
      have : ((|acc + z| : ℤ) : ℚ) ≤ ((2 ^ 53 : ℤ) : ℚ) := by
        rw [Int.cast_abs]
        push_cast
        push_cast at haz
        exact haz
      exact_mod_cast this
    have hstep : (Double.fin acc).add (pointsNumber r) = Double.fin ((acc + z : ℤ) : ℚ) := by
      rw [pointsNumber_of_int r z hz hzb]
      show toDouble ((acc : ℚ) + (z : ℚ)) = _
      rw [← Int.cast_add]
      exact toDouble_int _ hazb
    rw [List.map_cons, List.foldl_cons, hstep,
      foldl_add_exact rs (acc + z) (fun r' hr' => hint r' (List.mem_cons_of_mem _ hr'))
        (by
          have := abs_add (acc : ℚ) (z : ℚ)
          push_cast
          linarith),
      List.map_cons, List.sum_cons, hz]
    push_cast
    rw [add_assoc]

/-- With integer points whose absolute values add up to `2 ^ 53` at most, the double sum
of the points is their sum. -/
theorem doubleSum_exact (rs : List ResultRow) (h : SafeIntegerPoints rs) :
    doubleSum (rs.map pointsNumber) = Double.fin ((rs.map pointsOf).sum) := by
  have := foldl_add_exact rs 0 h.1 (by simpa using h.2)
  simpa [doubleSum] using this

theorem doubleTotalOf_exact (k : Nat) (results : List ResultRow)
    (h : SafeIntegerPoints (recordsOf k results)) :
    doubleTotalOf k results = Double.fin (totalOf k results) :=
  doubleSum_exact _ h

/-- The bound on all the records holds for the records of every team. -/
theorem safeIntegerPoints_filter (rs : List ResultRow) (p : ResultRow → Bool)
    (h : SafeIntegerPoints rs) : SafeIntegerPoints (rs.filter p) := by
  refine ⟨fun r hr => h.1 r (List.mem_filter.1 hr).1, le_trans ?_ h.2⟩
  have hsub : List.Sublist ((rs.filter p).map (fun r => |pointsOf r|))
      (rs.map (fun r => |pointsOf r|)) := (List.filter_sublist rs).map _
  exact hsub.sum_le_sum (fun x hx => by
    obtain ⟨r', _, rfl⟩ := List.mem_map.1 hx
    exact abs_nonneg _)

theorem sum_map_abs_cast : ∀ zs : List ℤ,
    (zs.map (fun z : ℤ => |(z : ℚ)|)).sum = (((zs.map (fun z : ℤ => |z|)).sum : ℤ) : ℚ)
  | [] => by simp
  | z :: zs => by
    rw [List.map_cons, List.sum_cons, sum_map_abs_cast zs, List.map_cons, List.sum_cons]
    push_cast
    rfl

/-- Records whose points are the integers `zs` are safe when the absolute values of `zs`
add up to `2 ^ 53` at most. -/
theorem safeIntegerPoints_of_ints (rs : List ResultRow) (zs : List ℤ)
    (h : rs.map pointsOf = zs.map (fun z : ℤ => (z : ℚ)))
    (hb : (zs.map (fun z : ℤ => |z|)).sum ≤ 2 ^ 53) : SafeIntegerPoints rs := by
  constructor
  · intro r hr
    have hmem : pointsOf r ∈ zs.map (fun z : ℤ => (z : ℚ)) := by
      rw [← h]
      exact List.mem_map.2 ⟨r, hr, rfl⟩
    obtain ⟨z, _, hz⟩ := List.mem_map.1 hmem
    exact ⟨z, hz.symm⟩
  · have habs : rs.map (fun r => |pointsOf r|) = zs.map (fun z : ℤ => |(z : ℚ)|) := by
      have h1 : rs.map (fun r => |pointsOf r|) = (rs.map pointsOf).map (fun x => |x|) := by
        rw [List.map_map]
        rfl
      rw [h1, h, List.map_map]
      rfl
    rw [habs, sum_map_abs_cast]
    exact_mod_cast hb

/-! ## The comparator and the order of the doubles -/

/-- The value of a double is a whole number of steps of `2 ^ -1074`. -/
theorem isDouble_grid (x : ℚ) (h : IsDouble x) : ∃ n : ℤ, x = n * (2 : ℚ) ^ (-1074 : ℤ) := by
  obtain ⟨_, m, k, _, hk, hx⟩ := h
  have hk0 : 0 ≤ k + 1074 := by omega
  have habs : |x| = ((m * 2 ^ (k + 1074).toNat : ℕ) : ℚ) * (2 : ℚ) ^ (-1074 : ℤ) := by
    rw [hx]
    push_cast
    rw [two_pow_toNat _ hk0, mul_assoc, ← zpow_add₀ (by norm_num)]
    congr 2
    ring
  rcases le_or_lt 0 x with h0 | h0
  · rw [abs_of_nonneg h0] at habs
    exact ⟨((m * 2 ^ (k + 1074).toNat : ℕ) : ℤ), by rw [habs]; push_cast; rfl⟩
  · rw [abs_of_neg h0] at habs
    refine ⟨-((m * 2 ^ (k + 1074).toNat : ℕ) : ℤ), ?_⟩
    have : x = -(((m * 2 ^ (k + 1074).toNat : ℕ) : ℚ) * (2 : ℚ) ^ (-1074 : ℤ)) := by
      rw [← habs, neg_neg]
    rw [this]
    push_cast
    ring

/-- A positive quotient on the grid of the doubles is not rounded to 0. -/
theorem divDouble_pos (a b : Nat) (ha : 0 < a) (hb : 0 < b)
    (hgrid : ∃ n : ℤ, (a : ℚ) / b = n * (2 : ℚ) ^ (-1074 : ℤ)) : 0 < divDouble a b := by
  obtain ⟨hE1, hE2⟩ := quotientExponent_spec a b ha hb
  have hbq : (0 : ℚ) < b := by exact_mod_cast hb
  have haq : (0 : ℚ) < a := by exact_mod_cast ha
  have hq : (0 : ℚ) < (a : ℚ) / b := div_pos haq hbq
  have hv : 1 ≤ (a : ℚ) / b * 2 ^ min (52 - quotientExponent a b) 1074 := by
    rcases min_choice (52 - quotientExponent a b) 1074 with h | h
    · rw [h]
      have h1 : (2 : ℚ) ^ quotientExponent a b * 2 ^ (52 - quotientExponent a b) ≤
          (a : ℚ) / b * 2 ^ (52 - quotientExponent a b) :=
        mul_le_mul_of_nonneg_right hE1 (by positivity)
      rw [← zpow_add₀ (by norm_num)] at h1
      have h2 : quotientExponent a b + (52 - quotientExponent a b) = 52 := by ring
      rw [h2] at h1
      have h3 : (1 : ℚ) ≤ 2 ^ (52 : ℤ) := by norm_num
      exact h3.trans h1
    · rw [h]
      obtain ⟨n, hn⟩ := hgrid
      rw [hn, mul_assoc, ← zpow_add₀ (by norm_num)]
      have hpos : (0 : ℚ) < n := by
        rw [hn] at hq
        have hp : (0 : ℚ) < 2 ^ (-1074 : ℤ) := by positivity
        exact (mul_pos_iff_of_pos_right hp).1 hq
      have hn1 : (1 : ℤ) ≤ n := by
        have : (0 : ℤ) < n := by exact_mod_cast hpos
        omega
      have : (1 : ℚ) ≤ n := by exact_mod_cast hn1
      simpa using this
  unfold divDouble
  rw [if_neg (Nat.pos_iff_ne_zero.1 ha)]
  simp only []
  generalize min (52 - quotientExponent a b) 1074 = K at hv
  have hR : ∀ R : ℕ, |(R : ℚ) - (a : ℚ) / b * 2 ^ K| ≤ 1 / 2 → (0 : ℚ) < R := by
    intro R h
    rw [abs_le] at h
    linarith [h.1]
  by_cases hK0 : 0 ≤ K
  · rw [if_pos hK0]
    have hspec := roundHalfEven_spec (a * 2 ^ K.toNat) b hb
    have hcast : ((a * 2 ^ K.toNat : ℕ) : ℚ) / b = (a : ℚ) / b * 2 ^ K := by
      push_cast
      rw [two_pow_toNat K hK0]
      ring
    rw [hcast] at hspec
    exact div_pos (hR _ hspec) (by positivity)
  · rw [if_neg hK0]
    have hK1 : 0 ≤ -K := by omega
    have hspec := roundHalfEven_spec a (b * 2 ^ (-K).toNat) (by positivity)
    have hcast : (a : ℚ) / ((b * 2 ^ (-K).toNat : ℕ) : ℚ) = (a : ℚ) / b * 2 ^ K := by
      push_cast
      rw [two_pow_toNat (-K) hK1, zpow_neg]
      field_simp
    rw [hcast] at hspec
    exact mul_pos (hR _ hspec) (by positivity)

/-- On the grid of the doubles, the rounding keeps the sign. -/
theorem toDouble_isPositive (d : ℚ) (hgrid : ∃ n : ℤ, d = n * (2 : ℚ) ^ (-1074 : ℤ)) :
    (toDouble d).isPositive = decide (0 < d) := by
  have h0 := divDouble_nonneg d.num.natAbs d.den
  unfold toDouble
  simp only []
  by_cases hneg : d < 0
  · have hnot : ¬ 0 < d := not_lt.2 hneg.le
    rw [if_pos hneg, if_pos hneg]
    split
    · simp [Double.isPositive, hnot]
    · simp only [Double.isPositive, hnot, decide_False, decide_eq_false_iff_not, not_lt]
      linarith
  · rw [if_neg hneg, if_neg hneg]
    by_cases hz : d = 0
    · subst hz
      have h1024 : ¬ ((2 : ℚ) ^ 1024 ≤ 0) := not_le.2 (by positivity)
      simp [Double.isPositive, divDouble, h1024]
    · have hpos : 0 < d := lt_of_le_of_ne (not_lt.1 hneg) (Ne.symm hz)
      have hab := num_natAbs_div_den d
      rw [abs_of_pos hpos] at hab
      have hy := divDouble_pos d.num.natAbs d.den (num_natAbs_pos d hz) d.den_pos
        (by rw [hab]; exact hgrid)
      split
      · simp [Double.isPositive, hpos]
      · simp [Double.isPositive, hpos, hy]

theorem double_le_total (a b : Double) (ha : a ≠ Double.nan) (hb : b ≠ Double.nan) :
    Double.le a b = true ∨ Double.le b a = true := by
  cases a <;> cases b <;> simp_all [Double.le]
  exact le_total _ _

theorem double_le_trans (a b c : Double) (hab : Double.le a b = true)
    (hbc : Double.le b c = true) : Double.le a c = true := by
  cases a <;> cases b <;> cases c <;> simp_all [Double.le]
  exact le_trans hab hbc

/-- For doubles that are not `NaN`, the comparator value `b - a` is positive exactly when
`a < b`. -/
theorem sub_isPositive_eq_false (a b : Double) (ha : a.Valid) (hb : b.Valid)
    (hna : a ≠ Double.nan) (hnb : b ≠ Double.nan) :
    (b.sub a).isPositive = false ↔ Double.le b a = true := by
  cases a with
  | fin x =>
    cases b with
    | fin y =>
      obtain ⟨n, hn⟩ := isDouble_grid x ha
      obtain ⟨n', hn'⟩ := isDouble_grid y hb
      have hgrid : ∃ j : ℤ, y + -x = j * (2 : ℚ) ^ (-1074 : ℤ) :=
        ⟨n' - n, by rw [hn, hn']; push_cast; ring⟩
      show (toDouble (y + -x)).isPositive = false ↔ decide (y ≤ x) = true
      rw [toDouble_isPositive _ hgrid]
      simp only [decide_eq_false_iff_not, decide_eq_true_eq, not_lt]
      constructor <;> intro h <;> linarith
    | posInf => simp [Double.sub, Double.add, Double.neg, Double.isPositive, Double.le]
    | negInf => simp [Double.sub, Double.add, Double.neg, Double.isPositive, Double.le]
    | nan => exact absurd rfl hnb
  | posInf =>
    cases b <;> simp_all [Double.sub, Double.add, Double.neg, Double.isPositive, Double.le]
  | negInf =>
    cases b <;> simp_all [Double.sub, Double.add, Double.neg, Double.isPositive, Double.le]
  | nan => exact absurd rfl hna

theorem orderedInsert_sorted_of {α : Type} (r : α → α → Prop) [DecidableRel r]
    (P : α → Prop) (htot : ∀ a b, P a → P b → r a b ∨ r b a)
    (htr : ∀ a b c, P a → P b → P c → r a b → r b c → r a c) (a : α) (ha : P a) :
    ∀ l : List α, (∀ b ∈ l, P b) → l.Sorted r → (l.orderedInsert r a).Sorted r
  | [], _, _ => by simp
  | b :: l, hP, hs => by
    have hb := hP b (List.mem_cons_self _ _)
    have hs' := List.sorted_cons.1 hs
    rw [List.orderedInsert]
    split_ifs with h
    · refine List.sorted_cons.2 ⟨?_, hs⟩
      intro c hc
      rcases List.mem_cons.1 hc with rfl | hc
      · exact h
      · exact htr a b c ha hb (hP c (List.mem_cons_of_mem _ hc)) h (hs'.1 c hc)
    · have hba : r b a := (htot a b ha hb).resolve_left h
      refine List.sorted_cons.2 ⟨?_, orderedInsert_sorted_of r P htot htr a ha l
        (fun c hc => hP c (List.mem_cons_of_mem _ hc)) hs'.2⟩
      intro c hc
      rcases (List.mem_orderedInsert r).1 hc with rfl | hc
      · exact hba
      · exact hs'.1 c hc

/-- Insertion sort sorts a list on whose elements the relation is total and transitive. -/
theorem insertionSort_sorted_of {α : Type} (r : α → α → Prop) [DecidableRel r]
    (P : α → Prop) (htot : ∀ a b, P a → P b → r a b ∨ r b a)
    (htr : ∀ a b c, P a → P b → P c → r a b → r b c → r a c) :
    ∀ l : List α, (∀ b ∈ l, P b) → (l.insertionSort r).Sorted r
  | [], _ => List.sorted_nil
  | a :: l, hP => by
    rw [List.insertionSort]
    exact orderedInsert_sorted_of r P htot htr a (hP a (List.mem_cons_self _ _)) _
      (fun b hb => hP b (List.mem_cons_of_mem _ ((List.perm_insertionSort r l).mem_iff.1 hb)))
      (insertionSort_sorted_of r P htot htr l (fun b hb => hP b (List.mem_cons_of_mem _ hb)))

/-! ## Points per start -/

theorem pointsPerStart_zero (totalPoints : Double) :
    pointsPerStart totalPoints 0 = Double.fin 0 := by
  simp [pointsPerStart]

theorem toFixed3_zero : toFixed3 0 = 0 := by
  unfold toFixed3
  have hfl : ⌊(0 : ℚ) * 1000 + 1 / 2⌋ = 0 := by
    rw [Int.floor_eq_zero_iff]
    constructor <;> norm_num
  rw [hfl]
  norm_num

theorem pointsPerStart_zero_total (starts : Nat) :
    pointsPerStart (Double.fin 0) starts = Double.fin 0 := by
  unfold pointsPerStart
  split
  · have h : (Double.fin 0).divNat starts = Double.fin 0 := by
      show toDouble (0 / (starts : ℚ)) = Double.fin 0
      rw [zero_div]
      exact toDouble_of_isDouble 0 isDouble_zero
    rw [h]
    simp [toFixed3_zero]
  · rfl

theorem num_natAbs_div_le (t : ℚ) (n : Nat) (hn : 0 < n) (ht : t ≠ 0) :
    (t / n).num.natAbs ≤ t.num.natAbs := by
  have hd : ((t.den : ℤ) * (n : ℤ)) ≠ 0 := by
    have h1 := t.den_pos
    positivity
  have heq : t / n = Rat.divInt t.num ((t.den : ℤ) * (n : ℤ)) := by
    rw [Rat.divInt_eq_div]
    push_cast
    conv_lhs => rw [← Rat.num_div_den t]
    rw [div_div]
  have hdvd : (t / n).num ∣ t.num := by
    rw [heq]
    exact Rat.num_dvd _ hd
  exact Nat.le_of_dvd (num_natAbs_pos t ht) (Int.natAbs_dvd_natAbs.2 hdvd)

/-- With at least one start and a total `p / q` in lowest terms with `|p|` below
`2 ^ 53 / 2000`, `pointsPerStart` is a whole number of thousandths within half a
thousandth of `totalPoints / starts`. For an integer total, `p` is the total. -/
theorem pointsPerStart_nearest (t : ℚ) (starts : Nat) (hs : 0 < starts)
    (ht : 2000 * |t.num| < 2 ^ 53) :
    ∃ n : ℤ, pointsPerStart (Double.fin t) starts = Double.fin ((n : ℚ) / 1000) ∧
      |(n : ℚ) / 1000 - t / starts| ≤ 1 / 2000 := by
  by_cases ht0 : t = 0
  · subst ht0
    refine ⟨0, ?_, ?_⟩
    · rw [pointsPerStart_zero_total]
      norm_num
    · norm_num
  have hsq : (0 : ℚ) < starts := by exact_mod_cast hs
  have hx0 : t / starts ≠ 0 := div_ne_zero ht0 (ne_of_gt hsq)
  have hle := num_natAbs_div_le t starts hs ht0
  have hapos := num_natAbs_pos (t / starts) hx0
  have hab := num_natAbs_div_den (t / starts)
  have ha : 2000 * (t / starts).num.natAbs < 2 ^ 53 := by
    have h1 : (2000 : ℤ) * (t.num.natAbs : ℤ) < 2 ^ 53 := by
      rw [Int.natCast_natAbs]
      exact ht
    have h2 : 2000 * t.num.natAbs < 2 ^ 53 := by exact_mod_cast h1
    omega
  have hnear := toFixed3_divDouble (t / starts).num.natAbs (t / starts).den
    (t / starts).den_pos ha
  rw [hab] at hnear
  have hy0 := divDouble_nonneg (t / starts).num.natAbs (t / starts).den
  have hsmall : divDouble (t / starts).num.natAbs (t / starts).den < 2 ^ 1024 := by
    obtain ⟨K, _, _, herr⟩ := divDouble_grid (t / starts).num.natAbs (t / starts).den hapos
      (t / starts).den_pos (by omega)
    rw [abs_le] at herr
    have hK : (1 : ℚ) / (2 * 2 ^ K) ≤ 1 := by
      rw [div_le_one (by positivity)]
      have : (1 : ℚ) ≤ 2 ^ K := one_le_pow₀ (by norm_num)
      linarith
    have hq : ((t / starts).num.natAbs : ℚ) / (t / starts).den ≤ (t / starts).num.natAbs := by
      apply div_le_self (by positivity)
      exact_mod_cast (t / starts).den_pos
    have ha' : ((t / starts).num.natAbs : ℚ) < 2 ^ 53 := by
      have : (t / starts).num.natAbs < 2 ^ 53 := by omega
      exact_mod_cast this
    have h54 : (2 : ℚ) ^ 53 + 1 < 2 ^ 1024 := by norm_num
    linarith [herr.2]
  have hdiv : (Double.fin t).divNat starts =
      Double.fin (if t / starts < 0 then -divDouble (t / starts).num.natAbs (t / starts).den
        else divDouble (t / starts).num.natAbs (t / starts).den) := by
    show toDouble (t / starts) = _
    unfold toDouble
    simp only []
    rw [if_neg (not_le.2 hsmall)]
  unfold pointsPerStart
  rw [if_pos hs, hdiv]
  simp only []
  generalize divDouble (t / starts).num.natAbs (t / starts).den = y at hnear hy0
  by_cases hneg : t / starts < 0
  · rw [if_pos hneg]
    rw [abs_of_neg hneg] at hnear
    refine ⟨-⌊y * 1000 + 1 / 2⌋, ?_, ?_⟩
    · congr 1
      rcases eq_or_lt_of_le hy0 with h0 | hpos
      · rw [← h0]
        have hfl : ⌊(0 : ℚ) * 1000 + 1 / 2⌋ = 0 := by
          rw [Int.floor_eq_zero_iff]
          constructor <;> norm_num
        rw [hfl]
        simp [toFixed3_zero]
      · rw [if_pos (by linarith), neg_neg]
        unfold toFixed3
        push_cast
        ring
    · have : ((-⌊y * 1000 + 1 / 2⌋ : ℤ) : ℚ) / 1000 - t / starts =
          -(toFixed3 y - -(t / starts)) := by
        unfold toFixed3
        push_cast
        ring
      rw [this, abs_neg]
      exact hnear
  · rw [if_neg hneg, if_neg (not_lt.2 hy0)]
    rw [abs_of_nonneg (not_lt.1 hneg)] at hnear
    exact ⟨⌊y * 1000 + 1 / 2⌋, rfl, hnear⟩

/-- One more start does not raise `pointsPerStart` of a total that is not negative. -/
theorem pointsPerStart_antitone (t : ℚ) (starts : Nat) (ht0 : 0 ≤ t) (hs : 0 < starts)
    (ht : 2000 * |t.num| < 2 ^ 53) :
    Double.le (pointsPerStart (Double.fin t) (starts + 1))
      (pointsPerStart (Double.fin t) starts) = true := by
  obtain ⟨n, hn, h1⟩ := pointsPerStart_nearest t starts hs ht
  obtain ⟨m, hm, h2⟩ := pointsPerStart_nearest t (starts + 1) (Nat.succ_pos starts) ht
  rw [hn, hm]
  show decide ((m : ℚ) / 1000 ≤ (n : ℚ) / 1000) = true
  rw [decide_eq_true_eq]
  rcases eq_or_lt_of_le ht0 with h0 | hpos
  · rw [← h0, pointsPerStart_zero_total] at hn hm
    rw [← Double.fin.inj hn, ← Double.fin.inj hm]
  · rw [abs_le] at h1 h2
    have hsq : (0 : ℚ) < starts := by exact_mod_cast hs
    have hlt : t / ((starts + 1 : Nat) : ℚ) < t / starts := by
      apply div_lt_div_of_pos_left hpos hsq
      push_cast
      linarith
    have hmn : (m : ℚ) < n + 1 := by linarith [h1.1, h2.2]
    have hmn' : m < n + 1 := by exact_mod_cast hmn
    have hle : (m : ℚ) ≤ n := by
      have : m ≤ n := by omega
      exact_mod_cast this
    linarith

theorem pointsPerStart_ten_three :
    pointsPerStart (Double.fin 10) 3 = Double.fin (3333 / 1000) := by
  decide!

theorem pointsPerStart_large :
    pointsPerStart (Double.fin 26388279066625) 3 = Double.fin (8796093022208334 / 1000) := by
  decide!

/-! ## StandingsParser: claims C1 to C3 -/

/-- C1 (as amended). A flattened page text that contains `Final Standings` has a first
occurrence of it, at some index `i`. Let `block` be the text from `i` up to the first
occurrence of `Panel of Officials`, or up to the end of the text when that anchor is
absent. Then the parser returns one entry per ranked line of the block, in line order; each
entry's placement is the double nearest to its line's leading integer, which is that
integer itself whenever it is below `2 ^ 53`; and the response and every insert payload of
the call carry the number of those lines as group size. -/
theorem standingsParser_entries (text : Str) (hstart : startAnchor <:+: text) :
    ∃ i, FirstAt startAnchor text i ∧
      ∀ block : Str,
        ((∃ j, FirstAt endAnchor text j ∧ block = (text.drop i).take (j - i)) ∨
          (¬ endAnchor <:+: text ∧ block = text.drop i)) →
        ∃ entries : List Entry,
          standingsParser text = some entries ∧
          entries.length = (rankedLines block).length ∧
          entries.map (fun e => e.placement) =
            (rankedLines block).map (fun l => roundToDouble (leadingInteger l)) ∧
          ((∀ l ∈ rankedLines block, leadingInteger l < 2 ^ 53) →
            entries.map (fun e => e.placement) =
              (rankedLines block).map (fun l => JsNumber.int (leadingInteger l : Int))) ∧
          (∀ (w : World) (req : Request) (store : List Payload) (html : Str),
            Fetched w req html → stripTags html = text →
              (serve w req store).response =
                  { status := 200, body := Body.success (rankedLines block).length entries } ∧
                ∀ p ∈ (serve w req store).inserts,
                  p.prop "group_size" =
                    Val.num (JsNumber.int ((rankedLines block).length : Int))) := by
  obtain ⟨i, hi⟩ := exists_firstAt_of_infix hstart
  refine ⟨i, hi, ?_⟩
  intro block hblock
  have hplace : ((rankedLines block).map parseLine).map (fun e => e.placement) =
      (rankedLines block).map (fun l => roundToDouble (leadingInteger l)) := by
    rw [List.map_map]
    apply List.map_congr_left
    intro l hl
    exact parseLine_placement l (mem_rankedLines hl)
  refine ⟨(rankedLines block).map parseLine, standingsParser_of_block text block i hi hblock,
    by simp, hplace, ?_, ?_⟩
  · intro hsmall
    rw [hplace]
    apply List.map_congr_left
    intro l hl
    exact roundToDouble_of_lt _ (hsmall l hl)
  · intro w req store html hf htext
    have hp : standingsParser (stripTags html) = some ((rankedLines block).map parseLine) := by
      rw [htext]
      exact standingsParser_of_block text block i hi hblock
    obtain ⟨h1, h2, _⟩ := serve_of_parsed w req store html _ hf hp
    refine ⟨by simpa using h1, ?_⟩
    intro p hpin
    rw [h2, List.mem_filterMap] at hpin
    obtain ⟨e, _, he⟩ := hpin
    simpa using processEntry_group_size _ _ _ _ _ e p he

/-- Witness of C1 on the sample page: the block between the two anchors has the two ranked
lines `1. Ann Lee, Lake College` and `3. Jane Doe, State University`. -/
theorem standingsParser_entries_witness :
    startAnchor <:+: stripTags samplePage ∧
      FirstAt startAnchor (stripTags samplePage) 1 ∧
      FirstAt endAnchor (stripTags samplePage) 75 ∧
      rankedLines (((stripTags samplePage).drop 1).take (75 - 1)) =
        ["1. Ann Lee, Lake College".toList, "3. Jane Doe, State University".toList] ∧
      ∃ entries : List Entry,
        standingsParser (stripTags samplePage) = some entries ∧ entries.length = 2 :=
  ⟨by decide, by decide, by decide, by decide, by
    obtain ⟨i, hi, h⟩ := standingsParser_entries (stripTags samplePage) (by decide)
    have hi1 : i = 1 := firstAt_unique hi (by decide)
    subst hi1
    obtain ⟨entries, h1, h2, _⟩ :=
      h (((stripTags samplePage).drop 1).take (75 - 1)) (Or.inl ⟨75, by decide, rfl⟩)
    exact ⟨entries, h1, h2.trans (by decide)⟩⟩

/-- Counterexample to C1 as stated: the only ranked line of this page has the leading
integer 9007199254740993, and the entry's placement is 9007199254740992. -/
theorem standingsParser_placement_counterexample :
    rankedLines "Final Standings\n9007199254740993. Ann Lee, Lake College".toList =
        ["9007199254740993. Ann Lee, Lake College".toList] ∧
      leadingInteger "9007199254740993. Ann Lee, Lake College".toList = 9007199254740993 ∧
      standingsParser "Final Standings\n9007199254740993. Ann Lee, Lake College".toList =
        some [{ placement := JsNumber.int 9007199254740992
                name := "Ann Lee".toList
                university := some "Lake College".toList }] := by
  decide

/-- C3. When the flattened page text does not contain `Final Standings`, and so whenever
the page itself does not contain it, the request ends with status 400 and the error
`Standings not found`, nothing is passed to `insert` and table `Result` is unchanged. -/
theorem serve_standings_not_found (w : World) (req : Request) (store : List Payload)
    (html : Str) (hf : Fetched w req html)
    (h : ¬ startAnchor <:+: stripTags html ∨ ¬ startAnchor <:+: html) :
    standingsParser (stripTags html) = none ∧
      serve w req store =
        { response := { status := 400, body := Body.error "Standings not found".toList }
          inserts := []
          store := store } := by
  have hno : ¬ startAnchor <:+: stripTags html := by
    rcases h with h | h
    · exact h
    · exact fun hin => h (infix_of_infix_stripTags startAnchor (by decide) html hin)
  have hp : standingsParser (stripTags html) = none := by
    simp [standingsParser, indexOf_of_not_infix hno]
  exact ⟨hp, serve_of_not_found w req store html hf hp⟩

/-- Witness of C3: a page without the start anchor. -/
theorem serve_standings_not_found_witness :
    Fetched (sampleWorld "<p>1. Ann Lee, Lake College</p>".toList []) sampleRequest
        "<p>1. Ann Lee, Lake College</p>".toList ∧
      ¬ startAnchor <:+: stripTags "<p>1. Ann Lee, Lake College</p>".toList ∧
      serve (sampleWorld "<p>1. Ann Lee, Lake College</p>".toList []) sampleRequest [] =
        { response := { status := 400, body := Body.error "Standings not found".toList }
          inserts := []
          store := [] } :=
  ⟨sample_fetched _ _, by decide,
    (serve_standings_not_found _ _ [] _ (sample_fetched _ _) (Or.inl (by decide))).2⟩

/-! ## Tokenising a kept line: claim C2 -/

theorem split_ne_nil (sep : Char) : ∀ s : Str, split sep s ≠ []
  | [] => by simp [split]
  | c :: cs => by
    by_cases h : c = sep
    · simp [split, h]
    · cases hs : split sep cs with
      | nil => simp [split, h, hs]
      | cons l ls => simp [split, h, hs]

theorem split_head (sep : Char) : ∀ s : Str,
    (split sep s).headD [] = s.takeWhile (fun x => x != sep)
  | [] => by simp [split]
  | c :: cs => by
    by_cases h : c = sep
    · simp [split, h]
    · have ih := split_head sep cs
      cases hs : split sep cs with
      | nil => exact absurd hs (split_ne_nil sep cs)
      | cons l ls =>
        rw [hs] at ih
        simp only [List.headD_cons] at ih
        simp [split, h, hs, ih]

theorem split_second (sep : Char) : ∀ s : Str,
    (split sep s).get? 1 =
      if sep ∈ s then
        some (((s.dropWhile (fun x => x != sep)).drop 1).takeWhile (fun x => x != sep))
      else none
  | [] => by simp [split]
  | c :: cs => by
    by_cases h : c = sep
    · subst h
      have hh := split_head c cs
      cases hs : split c cs with
      | nil => exact absurd hs (split_ne_nil c cs)
      | cons l ls =>
        rw [hs] at hh
        simp only [List.headD_cons] at hh
        simp [split, hs, hh]
    · have ih := split_second sep cs
      have hmem : (sep ∈ c :: cs) ↔ sep ∈ cs := by
        simp [List.mem_cons, Ne.symm h]
      cases hs : split sep cs with
      | nil => exact absurd hs (split_ne_nil sep cs)
      | cons l ls =>
        rw [hs] at ih
        simp only [split, h, hs, if_false, hmem]
        rw [List.dropWhile_cons_of_pos (by simpa using h)]
        simpa using ih

theorem stripRank_ranked (ds r : Str) (hne : ds ≠ []) (hdig : ∀ c ∈ ds, isDigit c = true) :
    stripRank (ds ++ '.' :: r) = r.dropWhile isWhiteSpace := by
  simp [stripRank, testRanked_ranked ds r hne hdig, dropWhile_ranked ds r hdig]

/-- C2 (as amended). For a kept line `<digits>.<r>`, the remainder is `r` without its
leading white space; the name is the trimmed text before the remainder's first comma; the
affiliation is `null` when the remainder has no comma, and otherwise the trimmed text
between its first comma and its second one (the whole text after the first comma when
there is no second comma). The line `3. Jane Doe, State University` yields placement 3,
name `Jane Doe` and affiliation `State University`. -/
theorem parseLine_fields (ds r : Str) (hne : ds ≠ []) (hdig : ∀ c ∈ ds, isDigit c = true) :
    (parseLine (ds ++ '.' :: r)).name =
        trim ((r.dropWhile isWhiteSpace).takeWhile (fun x => x != ',')) ∧
      (',' ∉ r.dropWhile isWhiteSpace → (parseLine (ds ++ '.' :: r)).university = none) ∧
      (',' ∈ r.dropWhile isWhiteSpace →
        (parseLine (ds ++ '.' :: r)).university =
          some (trim
            ((((r.dropWhile isWhiteSpace).dropWhile (fun x => x != ',')).drop 1).takeWhile
              (fun x => x != ',')))) ∧
      (',' ∈ r.dropWhile isWhiteSpace →
        ',' ∉ ((r.dropWhile isWhiteSpace).dropWhile (fun x => x != ',')).drop 1 →
        (parseLine (ds ++ '.' :: r)).university =
          some (trim (((r.dropWhile isWhiteSpace).dropWhile (fun x => x != ',')).drop 1))) ∧
      parseLine "3. Jane Doe, State University".toList =
        { placement := JsNumber.int 3
          name := "Jane Doe".toList
          university := some "State University".toList } := by
  have hname : (parseLine (ds ++ '.' :: r)).name =
      trim ((r.dropWhile isWhiteSpace).takeWhile (fun x => x != ',')) := by
    simp only [parseLine, stripRank_ranked ds r hne hdig, split_head]
  have huni : (parseLine (ds ++ '.' :: r)).university =
      ((split ',' (r.dropWhile isWhiteSpace)).get? 1).map trim := by
    simp only [parseLine, stripRank_ranked ds r hne hdig]
  refine ⟨hname, ?_, ?_, ?_, by decide⟩
  · intro hno
    rw [huni, split_second, if_neg hno]
    rfl
  · intro hyes
    rw [huni, split_second, if_pos hyes]
    rfl
  · intro hyes hno
    rw [huni, split_second, if_pos hyes]
    have : (((r.dropWhile isWhiteSpace).dropWhile (fun x => x != ',')).drop 1).takeWhile
        (fun x => x != ',') =
        ((r.dropWhile isWhiteSpace).dropWhile (fun x => x != ',')).drop 1 := by
      rw [List.takeWhile_eq_self_iff]
      intro x hx
      have : x ≠ ',' := fun hxc => hno (hxc ▸ hx)
      simpa using this
    rw [this]
    rfl

/-- Witness of C2 on the line `12. Ann Lee , Lake College`. -/
theorem parseLine_fields_witness :
    "12".toList ≠ [] ∧ (∀ c ∈ "12".toList, isDigit c = true) ∧
      (parseLine ("12".toList ++ '.' :: " Ann Lee , Lake College".toList)).name =
        "Ann Lee".toList ∧
      (parseLine ("12".toList ++ '.' :: " Ann Lee , Lake College".toList)).university =
        some "Lake College".toList :=
  ⟨by decide, by decide,
    (parseLine_fields "12".toList " Ann Lee , Lake College".toList (by decide) (by decide)).1.trans
      (by decide),
    ((parseLine_fields "12".toList " Ann Lee , Lake College".toList (by decide)
      (by decide)).2.2.1 (by decide)).trans (by decide)⟩

/-- Counterexample to C2 as stated: on a line with two commas the affiliation is the text
between the commas, not the whole text after the first comma. -/
theorem parseLine_affiliation_counterexample :
    (parseLine "3. Jane Doe, State University, Main Campus".toList).university =
        some "State University".toList ∧
      trim ((("3. Jane Doe, State University, Main Campus".toList.dropWhile isDigit).drop 1
          |>.dropWhile isWhiteSpace |>.dropWhile (fun x => x != ',')).drop 1) =
        "State University, Main Campus".toList := by
  decide

/-! ## Identity resolution and points lookup: claims C4, C5 and C10 -/

/-- Whatever the entry, a payload built without a matching `Point` row has no `points`. -/
theorem processEntry_points_undefined (w : World) (g : Nat) (ev : Option EventRow)
    (tm : List (Option Str × TeamRef)) (sm : List (Str × SkaterRef)) (e : Entry) (p : Payload)
    (h : processEntry w g ev tm sm e = some p)
    (hno : pointLookup w.points e.placement g = none) :
    p.prop "points" = Val.undefined ∧ ∀ kv ∈ p.toRow, kv.1 ≠ "points" := by
  unfold processEntry at h
  split at h
  · exact absurd h (by simp)
  · split at h
    · exact absurd h (by simp)
    · simp only [Option.some.injEq] at h
      subst h
      rw [hno]
      constructor
      · rfl
      · intro kv hkv
        simp only [Payload.toRow, List.mem_map, List.mem_filter, List.mem_cons] at hkv
        obtain ⟨kv', ⟨hmem, hdef⟩, rfl⟩ := hkv
        rcases hmem with rfl | rfl | rfl | rfl | rfl | hnil
        · show "event_id" ≠ "points"
          decide
        · show "skater_id" ≠ "points"
          decide
        · show "placement" ≠ "points"
          decide
        · show "group_size" ≠ "points"
          decide
        · simp at hdef
        · simp at hnil

/-- C4 (the code at the failing input). On the sample page the entry
`3. Jane Doe, State University` is resolved, the field has two entries and table `Point`
has no row for placement 3 in a field of two: the request succeeds, and the object passed
to `insert` has `points` undefined, so the stored row has no `points` at all, not 0. -/
theorem serve_unmatched_points_missing :
    (serve (sampleWorld samplePage samplePoints) sampleRequest []).response.status = 200 ∧
      pointLookup samplePoints (JsNumber.int 3) 2 = none ∧
      (serve (sampleWorld samplePage samplePoints) sampleRequest []).inserts.map
          (fun p => (p.prop "placement", p.prop "group_size", p.prop "points")) =
        [(Val.num (JsNumber.int 3), Val.num (JsNumber.int 2), Val.undefined)] ∧
      (serve (sampleWorld samplePage samplePoints) sampleRequest []).store =
        [[("event_id", Val.str "Senior Free Skate".toList),
          ("skater_id", Val.num (JsNumber.int 3)),
          ("placement", Val.num (JsNumber.int 3)),
          ("group_size", Val.num (JsNumber.int 2))]] := by
  decide

/-- No payload of the insert loop has a `team_id` or a `competition_id`. -/
theorem processEntry_no_team_id (w : World) (g : Nat) (ev : Option EventRow)
    (tm : List (Option Str × TeamRef)) (sm : List (Str × SkaterRef)) (e : Entry) (p : Payload)
    (h : processEntry w g ev tm sm e = some p) :
    p.prop "team_id" = Val.undefined ∧ p.prop "competition_id" = Val.undefined := by
  unfold processEntry at h
  split at h
  · exact absurd h (by simp)
  · split at h
    · exact absurd h (by simp)
    · simp only [Option.some.injEq] at h
      subst h
      exact ⟨rfl, rfl⟩

/-- Whatever the request, no object passed to `insert` has a `team_id` or a
`competition_id`. -/
theorem serve_inserts_no_team_id (w : World) (req : Request) (store : List Payload)
    (p : Payload) (hp : p ∈ (serve w req store).inserts) :
    p.prop "team_id" = Val.undefined ∧ p.prop "competition_id" = Val.undefined := by
  unfold serve at hp
  split at hp
  · simp at hp
  · split at hp
    · simp at hp
    · split at hp
      · simp at hp
      · split at hp
        · simp at hp
        · rename_i html _
          simp only [] at hp
          cases hparse : standingsParser (stripTags html) with
          | none =>
            rw [hparse] at hp
            simp at hp
          | some entries =>
            rw [hparse] at hp
            simp only [insertLoop_inserts, List.nil_append, List.mem_filterMap] at hp
            obtain ⟨e, _, he⟩ := hp
            exact processEntry_no_team_id _ _ _ _ _ e p he

/-- C5 (the code at the failing input). On the sample page the entry of `Jane Doe` is
resolved to the team `State University`, whose id is 7, and the object passed to `insert`
has no `team_id` and no `competition_id`; its `event_id` is the event's name, not the
event's id 4. -/
theorem serve_insert_without_team :
    teamOf (buildTeamMap (sampleWorld samplePage samplePoints).teams)
        { placement := JsNumber.int 3
          name := "Jane Doe".toList
          university := some "State University".toList } =
        some { teamId := 7, name := some "State University".toList } ∧
      (serve (sampleWorld samplePage samplePoints) sampleRequest []).inserts.map
          (fun p => (p.prop "team_id", p.prop "competition_id", p.prop "event_id")) =
        [(Val.undefined, Val.undefined, Val.str "Senior Free Skate".toList)] ∧
      (serve (sampleWorld samplePage samplePoints) sampleRequest []).store.map
          (fun row => row.map (fun kv => kv.1)) =
        [["event_id", "skater_id", "placement", "group_size"]] := by
  decide

theorem processEntry_isSome_of_known (w : World) (g : Nat) (ev : Option EventRow)
    (sm : List (Str × SkaterRef)) (e : Entry) (hname : e.name ≠ []) (h : KnownTeam w e) :
    (processEntry w g ev (buildTeamMap w.teams) sm e).isSome = true := by
  have hsome := (teamOf_isSome_iff w e).2 h
  have hnone : (teamOf (buildTeamMap w.teams) e).isNone = false := by
    cases hg : teamOf (buildTeamMap w.teams) e with
    | none => rw [hg] at hsome; exact absurd hsome (by simp)
    | some v => rfl
  have hne : e.name.isEmpty = false := by
    cases hn : e.name with
    | nil => exact absurd hn hname
    | cons c cs => rfl
  unfold processEntry
  rw [hne, hnone]
  rfl

/-- C10 (as amended). A request that reached the insert loop answers 200 with the parsed
entries; an entry whose affiliation is the name of no `Team` row passes nothing to
`insert`. A `null` affiliation is the name of no `Team` row exactly when no row has a
`null` name: when one has, an entry without affiliation that has a competitor name passes
an object to `insert`. The objects passed to `insert` all come from entries with a known
affiliation, at most one per entry, and table `Result` grows by at most as many rows as
there are parsed entries. -/
theorem serve_skips_unknown_affiliation (w : World) (req : Request) (store : List Payload)
    (html : Str) (entries : List Entry) (hf : Fetched w req html)
    (hp : standingsParser (stripTags html) = some entries) :
    (serve w req store).response =
        { status := 200, body := Body.success entries.length entries } ∧
      (∀ (g : Nat) (ev : Option EventRow) (sm : List (Str × SkaterRef)) (e : Entry),
        ¬ KnownTeam w e → processEntry w g ev (buildTeamMap w.teams) sm e = none) ∧
      (∀ e : Entry, e.university = none →
        (KnownTeam w e ↔ ∃ t ∈ w.teams, t.name = none)) ∧
      (∀ (g : Nat) (ev : Option EventRow) (sm : List (Str × SkaterRef)) (e : Entry),
        e.university = none → e.name ≠ [] → (∃ t ∈ w.teams, t.name = none) →
          (processEntry w g ev (buildTeamMap w.teams) sm e).isSome = true) ∧
      (serve w req store).inserts =
        (entries.filter (fun e => decide (KnownTeam w e))).filterMap
          (processEntry w entries.length
            ((w.events.filter (fun ev => ev.name = req.event_name)).head?)
            (buildTeamMap w.teams) (buildSkaterMap w.skaters)) ∧
      (serve w req store).inserts.length ≤
        (entries.filter (fun e => decide (KnownTeam w e))).length ∧
      (serve w req store).inserts.length ≤ entries.length ∧
      ∃ added : List Payload,
        (serve w req store).store = store ++ added ∧ added.length ≤ entries.length := by
  obtain ⟨h1, h2, h3⟩ := serve_of_parsed w req store html entries hf hp
  have hskip : ∀ (g : Nat) (ev : Option EventRow) (sm : List (Str × SkaterRef)) (e : Entry),
      ¬ KnownTeam w e → processEntry w g ev (buildTeamMap w.teams) sm e = none :=
    fun g ev sm e h => processEntry_unknown w g ev sm e h
  have hnull : ∀ e : Entry, e.university = none →
      (KnownTeam w e ↔ ∃ t ∈ w.teams, t.name = none) := by
    intro e he
    unfold KnownTeam
    rw [he]
  have hins : (serve w req store).inserts =
      (entries.filter (fun e => decide (KnownTeam w e))).filterMap
        (processEntry w entries.length
          ((w.events.filter (fun ev => ev.name = req.event_name)).head?)
          (buildTeamMap w.teams) (buildSkaterMap w.skaters)) := by
    rw [h2]
    apply filterMap_filter_of_none
    intro e he
    exact hskip _ _ _ e (by simpa using he)
  have hlen1 : (serve w req store).inserts.length ≤
      (entries.filter (fun e => decide (KnownTeam w e))).length := by
    rw [hins]
    exact List.length_filterMap_le _ _
  have hlen2 : (serve w req store).inserts.length ≤ entries.length :=
    hlen1.trans (List.length_filter_le _ _)
  refine ⟨h1, hskip, hnull, ?_, hins, hlen1, hlen2, _, h3, ?_⟩
  · intro g ev sm e he hname hteam
    exact processEntry_isSome_of_known w g ev sm e hname ((hnull e he).2 hteam)
  · rw [List.length_map]
    exact (List.length_filter_le _ _).trans hlen2

/-- Witness of C10 on the sample page: of its two entries only `Jane Doe` of
`State University` has a known affiliation, and one row is inserted. -/
theorem serve_skips_unknown_affiliation_witness :
    Fetched (sampleWorld samplePage samplePoints) sampleRequest samplePage ∧
      (standingsParser (stripTags samplePage)).map List.length = some 2 ∧
      (serve (sampleWorld samplePage samplePoints) sampleRequest []).inserts.length ≤ 2 ∧
      (serve (sampleWorld samplePage samplePoints) sampleRequest []).inserts.length = 1 :=
  ⟨sample_fetched _ _, by decide,
    (serve_skips_unknown_affiliation (sampleWorld samplePage samplePoints) sampleRequest []
      samplePage
      [{ placement := JsNumber.int 1, name := "Ann Lee".toList,
         university := some "Lake College".toList },
       { placement := JsNumber.int 3, name := "Jane Doe".toList,
         university := some "State University".toList }]
      (sample_fetched _ _) (by decide)).2.2.2.2.2.2.1,
    by decide⟩

/-- Counterexample to C10 as stated: the line `1. Ann Lee` has no affiliation, table
`Team` has a row without a name, and a row is inserted for the entry. -/
theorem serve_null_affiliation_counterexample :
    standingsParser (stripTags unaffiliatedPage) =
        some [{ placement := JsNumber.int 1, name := "Ann Lee".toList, university := none }] ∧
      (unnamedTeamWorld unaffiliatedPage samplePoints).teams =
        [{ id := 7, name := some "State University".toList }, { id := 9, name := none }] ∧
      (serve (unnamedTeamWorld unaffiliatedPage samplePoints) sampleRequest []).response.status =
        200 ∧
      (serve (unnamedTeamWorld unaffiliatedPage samplePoints) sampleRequest []).inserts.length =
        1 ∧
      (serve (unnamedTeamWorld unaffiliatedPage samplePoints) sampleRequest []).store =
        [[("event_id", Val.str "Senior Free Skate".toList),
          ("placement", Val.num (JsNumber.int 1)),
          ("group_size", Val.num (JsNumber.int 1))]] := by
  decide

/-! ## ScoreAggregator: claims C6 to C8 -/

theorem fetch_map_teamId (teams : List TeamRow) (results : List ResultRow) :
    (fetchCompetitionResults teams results).map (fun s => s.teamId) =
      (teamsArr teams results).map (fun a => a.teamId) := by
  unfold fetchCompetitionResults
  rw [List.map_map]
  rfl

theorem fetch_map_starts (teams : List TeamRow) (results : List ResultRow) :
    (fetchCompetitionResults teams results).map (fun s => s.starts) =
      (teamsArr teams results).map (fun a => a.starts) := by
  unfold fetchCompetitionResults
  rw [List.map_map]
  rfl

theorem fetch_map_totalOf (teams : List TeamRow) (results : List ResultRow) :
    (fetchCompetitionResults teams results).map (fun s => totalOf s.teamId results) =
      (teamsArr teams results).map (fun a => totalOf a.teamId results) := by
  unfold fetchCompetitionResults
  rw [List.map_map]
  rfl

theorem mem_fetch (teams : List TeamRow) (results : List ResultRow) (s : TeamSummary)
    (h : s ∈ fetchCompetitionResults teams results) :
    ∃ a ∈ teamsArr teams results, s.teamId = a.teamId ∧ s.name = a.name ∧
      s.totalPoints = a.totalPoints ∧ s.starts = a.starts ∧ s.results = a.results ∧
      s.pointsPerStart = pointsPerStart a.totalPoints a.starts := by
  unfold fetchCompetitionResults at h
  obtain ⟨a, ha, rfl⟩ := List.mem_map.1 h
  exact ⟨a, ha, rfl, rfl, rfl, rfl, rfl, rfl⟩

/-- C6 (as amended). `fetchCompetitionResults` yields exactly one summary for each team of
the team list; every summary is the one of a listed team, its `totalPoints` is the double
sum, in record order, of the points of the records whose team reference is that team, its
`starts` is their number and its `results` are those records. When the points of these
records are integers whose absolute values add up to `2 ^ 53` at most, `totalPoints` is
their sum. A team without records has `totalPoints` 0 and `starts` 0. -/
theorem fetchCompetitionResults_per_team (teams : List TeamRow) (results : List ResultRow) :
    (∀ t ∈ teams,
      ((fetchCompetitionResults teams results).map (fun s => s.teamId)).count t.id = 1) ∧
    (∀ s ∈ fetchCompetitionResults teams results,
      (∃ t ∈ teams, s.teamId = t.id ∧ s.name = t.name) ∧
      s.totalPoints = doubleSum ((recordsOf s.teamId results).map pointsNumber) ∧
      s.starts = (recordsOf s.teamId results).length ∧
      s.results = recordsOf s.teamId results ∧
      (SafeIntegerPoints (recordsOf s.teamId results) →
        s.totalPoints = Double.fin (((recordsOf s.teamId results).map pointsOf).sum))) ∧
    (∀ s ∈ fetchCompetitionResults teams results,
      recordsOf s.teamId results = [] → s.totalPoints = Double.fin 0 ∧ s.starts = 0) := by
  have hmem : ∀ s ∈ fetchCompetitionResults teams results,
      (∃ t ∈ teams, s.teamId = t.id ∧ s.name = t.name) ∧
      s.totalPoints = doubleSum ((recordsOf s.teamId results).map pointsNumber) ∧
      s.starts = (recordsOf s.teamId results).length ∧
      s.results = recordsOf s.teamId results := by
    intro s hs
    obtain ⟨a, ha, h1, h2, h3, h4, h5, _⟩ := mem_fetch teams results s hs
    obtain ⟨⟨t, ht, ht1, ht2⟩, htot, hst, hres⟩ := mem_teamsArr teams results a ha
    rw [h1, h2, h3, h4, h5]
    exact ⟨⟨t, ht, ht1, ht2⟩, htot, hst, hres⟩
  refine ⟨?_, ?_, ?_⟩
  · intro t ht
    rw [fetch_map_teamId, ((teamsArr_perm teams results).map _).count_eq, List.map_map]
    exact List.count_eq_one_of_mem (initTeamMap_nodup teams)
      ((initTeamMap_keys teams t.id).2 (List.mem_map.2 ⟨t, ht, rfl⟩))
  · intro s hs
    obtain ⟨h1, h2, h3, h4⟩ := hmem s hs
    refine ⟨h1, h2, h3, h4, ?_⟩
    intro hsafe
    rw [h2]
    exact doubleSum_exact _ hsafe
  · intro s hs hnone
    obtain ⟨_, htot, hst, _⟩ := hmem s hs
    rw [htot, hst, hnone]
    exact ⟨rfl, rfl⟩

/-- Witness of C6 on the sample teams and results: team 8 has the three results of 5, 3
and 2 points, which are safe integers, and its total is 10. -/
theorem fetchCompetitionResults_per_team_witness :
    sampleSummary ∈ fetchCompetitionResults sampleTeams sampleResults ∧
      SafeIntegerPoints (recordsOf sampleSummary.teamId sampleResults) ∧
      sampleSummary.totalPoints =
        Double.fin (((recordsOf sampleSummary.teamId sampleResults).map pointsOf).sum) ∧
      (fetchCompetitionResults sampleTeams sampleResults).map
          (fun s => (s.teamId, s.totalPoints, s.starts)) =
        [(8, Double.fin 10, 3), (7, Double.fin 0, 0), (9, Double.fin 0, 1)] :=
  have hmem : sampleSummary ∈ fetchCompetitionResults sampleTeams sampleResults := by
    decide!
  have hsafe : SafeIntegerPoints (recordsOf sampleSummary.teamId sampleResults) :=
    safeIntegerPoints_of_ints _ [5, 3, 2] (by decide!) (by decide)
  ⟨hmem, hsafe,
    ((fetchCompetitionResults_per_team sampleTeams sampleResults).2.1 sampleSummary
      hmem).2.2.2.2 hsafe,
    by decide!⟩

/-- Counterexample to C6 as stated: team 7 has results of `2 ^ 53` and 1 points and team 8
of `2 ^ 53`, 1 and 1 points. The points add up to `2 ^ 53 + 1` and `2 ^ 53 + 2`, and both
summaries have the `totalPoints` `2 ^ 53`. -/
theorem fetchCompetitionResults_total_counterexample :
    (fetchCompetitionResults sampleTeams unsafeResults).map
        (fun s => (s.teamId, s.totalPoints, s.starts)) =
      [(7, Double.fin 9007199254740992, 2), (8, Double.fin 9007199254740992, 3),
       (9, Double.fin 0, 0)] ∧
      totalOf 7 unsafeResults = 9007199254740993 ∧
      totalOf 8 unsafeResults = 9007199254740994 ∧
      (9007199254740992 : ℚ) = 2 ^ 53 := by
  decide!

theorem recordsOf_filter_refers (teams : List TeamRow) (results : List ResultRow) (t : TeamRow)
    (ht : t ∈ teams) :
    (results.filter (fun r => decide (RefersToTeam teams r))).filter
        (fun r => decide (r.team_id = some t.id)) = recordsOf t.id results := by
  unfold recordsOf
  rw [List.filter_filter]
  apply List.filter_congr
  intro r _
  by_cases h : r.team_id = some t.id
  · have : RefersToTeam teams r := ⟨t, ht, h⟩
    simp [h, this]
  · simp [h]

/-- C7 (as amended). The `starts` of all summaries add up to the number of the records
whose team reference is one of the teams; records with another team reference or with
none are counted nowhere. When the points of those records are integers whose absolute
values add up to `2 ^ 53` at most, every `totalPoints` is the sum of the points of the
team's records, and these sums add up to the points of those records. When moreover every
record refers to one of the teams, the sums are those over all records. -/
theorem fetchCompetitionResults_sums (teams : List TeamRow) (results : List ResultRow) :
    ((fetchCompetitionResults teams results).map (fun s => s.starts)).sum =
        (results.filter (fun r => decide (RefersToTeam teams r))).length ∧
      ((fetchCompetitionResults teams results).map (fun s => totalOf s.teamId results)).sum =
        ((results.filter (fun r => decide (RefersToTeam teams r))).map pointsOf).sum ∧
      (SafeIntegerPoints (results.filter (fun r => decide (RefersToTeam teams r))) →
        ∀ s ∈ fetchCompetitionResults teams results,
          s.totalPoints = Double.fin (totalOf s.teamId results)) ∧
      ((∀ r ∈ results, RefersToTeam teams r) →
        ((fetchCompetitionResults teams results).map
            (fun s => totalOf s.teamId results)).sum = (results.map pointsOf).sum ∧
          ((fetchCompetitionResults teams results).map (fun s => s.starts)).sum =
            results.length) := by
  have h1 : ((fetchCompetitionResults teams results).map
      (fun s => totalOf s.teamId results)).sum =
      ((results.filter (fun r => decide (RefersToTeam teams r))).map pointsOf).sum := by
    rw [fetch_map_totalOf]
    exact sum_teamsArr pointsOf (fun a => totalOf a.teamId results) teams results
      (fun a _ => rfl)
  have h2 : ((fetchCompetitionResults teams results).map (fun s => s.starts)).sum =
      (results.filter (fun r => decide (RefersToTeam teams r))).length := by
    rw [fetch_map_starts]
    have := sum_teamsArr (fun _ => (1 : Nat)) (fun a => a.starts) teams results
      (fun a ha => by
        show a.starts = _
        rw [(mem_teamsArr teams results a ha).2.2.1]
        simp)
    rw [this]
    simp
  refine ⟨h2, h1, ?_, ?_⟩
  · intro hsafe s hs
    obtain ⟨a, ha, hid, _, htot, _, _, _⟩ := mem_fetch teams results s hs
    obtain ⟨⟨t, ht, ht1, _⟩, hsum, _, _⟩ := mem_teamsArr teams results a ha
    have hrec := safeIntegerPoints_filter _ (fun r => decide (r.team_id = some t.id)) hsafe
    rw [recordsOf_filter_refers teams results t ht] at hrec
    rw [htot, hsum, hid, ht1]
    exact doubleTotalOf_exact t.id results hrec
  · intro hall
    have hfil : results.filter (fun r => decide (RefersToTeam teams r)) = results :=
      List.filter_eq_self.2 (fun r hr => by simpa using hall r hr)
    rw [h1, h2, hfil]
    exact ⟨rfl, rfl⟩

/-- Witness of C7: two records of the sample teams, both with a known team and with safe
integer points. -/
theorem fetchCompetitionResults_sums_witness :
    (∀ r ∈ [sampleResult 1 (some 8) (some 5), sampleResult 2 (some 7) (some 3)],
        RefersToTeam sampleTeams r) ∧
      SafeIntegerPoints
        ([sampleResult 1 (some 8) (some 5), sampleResult 2 (some 7) (some 3)].filter
          (fun r => decide (RefersToTeam sampleTeams r))) ∧
      ((fetchCompetitionResults sampleTeams
          [sampleResult 1 (some 8) (some 5), sampleResult 2 (some 7) (some 3)]).map
          (fun s => totalOf s.teamId
            [sampleResult 1 (some 8) (some 5), sampleResult 2 (some 7) (some 3)])).sum = 8 ∧
      (∀ s ∈ fetchCompetitionResults sampleTeams
          [sampleResult 1 (some 8) (some 5), sampleResult 2 (some 7) (some 3)],
        s.totalPoints = Double.fin (totalOf s.teamId
          [sampleResult 1 (some 8) (some 5), sampleResult 2 (some 7) (some 3)])) ∧
      (fetchCompetitionResults sampleTeams
          [sampleResult 1 (some 8) (some 5), sampleResult 2 (some 7) (some 3)]).map
          (fun s => s.totalPoints) = [Double.fin 5, Double.fin 3, Double.fin 0] :=
  have hsafe : SafeIntegerPoints
      ([sampleResult 1 (some 8) (some 5), sampleResult 2 (some 7) (some 3)].filter
        (fun r => decide (RefersToTeam sampleTeams r))) :=
    safeIntegerPoints_of_ints _ [5, 3] (by decide!) (by decide)
  ⟨by decide, hsafe,
    ((fetchCompetitionResults_sums sampleTeams
      [sampleResult 1 (some 8) (some 5), sampleResult 2 (some 7) (some 3)]).2.2.2
        (by decide)).1.trans (by decide!),
    (fetchCompetitionResults_sums sampleTeams
      [sampleResult 1 (some 8) (some 5), sampleResult 2 (some 7) (some 3)]).2.2.1 hsafe,
    by decide!⟩

/-- Counterexample to C7 as stated: the sample results have 14 points in 5 records, one of
them without a team, and the summaries add up to 10 points and 4 starts. -/
theorem fetchCompetitionResults_sums_counterexample :
    (fetchCompetitionResults sampleTeams sampleResults).map (fun s => s.totalPoints) =
        [Double.fin 10, Double.fin 0, Double.fin 0] ∧
      (sampleResults.map pointsOf).sum = 14 ∧
      ((fetchCompetitionResults sampleTeams sampleResults).map (fun s => s.starts)).sum = 4 ∧
      sampleResults.length = 5 := by
  decide!

theorem sort_filter_eq {α : Type} (cmp : α → α → Double) (p : α → Bool) (l : List α)
    (hp : ∀ a ∈ l, ∀ b ∈ l, p a = true → p b = true → (cmp a b).isPositive = false) :
    (sort cmp l).filter p = l.filter p := by
  have hsub : List.Sublist (l.filter p) (sort cmp l) := by
    apply List.sublist_insertionSort
    · apply List.pairwise_of_forall_mem_list
      intro a ha b hb
      rw [List.mem_filter] at ha hb
      exact hp a ha.1 b hb.1 ha.2 hb.2
    · exact List.filter_sublist l
  have hsub' : List.Sublist ((l.filter p).filter p) ((sort cmp l).filter p) := hsub.filter p
  have hff : (l.filter p).filter p = l.filter p :=
    List.filter_eq_self.2 (fun a ha => (List.mem_filter.1 ha).2)
  rw [hff] at hsub'
  have hlen : (l.filter p).length = ((sort cmp l).filter p).length :=
    ((sort_perm cmp l).filter p).length_eq.symm
  exact (hsub'.eq_of_length hlen).symm

/-- A comparator value `v - v` is not positive. -/
theorem sub_self_not_positive (v : Double) : (v.sub v).isPositive = false := by
  cases v with
  | fin x =>
    show (toDouble (x + -x)).isPositive = false
    rw [add_neg_cancel, toDouble_of_isDouble 0 isDouble_zero]
    simp [Double.isPositive]
  | posInf => rfl
  | negInf => rfl
  | nan => rfl

/-- Finite points never add up to a `NaN`. -/
theorem foldl_add_ne_nan : ∀ (l : List Double) (acc : Double),
    (∀ d ∈ l, ∃ x : ℚ, d = Double.fin x) → acc ≠ Double.nan →
    l.foldl Double.add acc ≠ Double.nan
  | [], _, _, h => h
  | d :: l, acc, hfin, h => by
    rw [List.foldl_cons]
    apply foldl_add_ne_nan l _ (fun d' hd' => hfin d' (List.mem_cons_of_mem _ hd'))
    obtain ⟨x, rfl⟩ := hfin d (List.mem_cons_self _ _)
    cases acc with
    | fin y =>
      show toDouble (y + x) ≠ Double.nan
      unfold toDouble
      simp only []
      split
      · split <;> simp
      · simp
    | posInf => simp [Double.add]
    | negInf => simp [Double.add]
    | nan => exact absurd rfl h

theorem doubleTotalOf_ne_nan (k : Nat) (results : List ResultRow) (h : FinitePoints results) :
    doubleTotalOf k results ≠ Double.nan := by
  unfold doubleTotalOf doubleSum
  apply foldl_add_ne_nan _ _ _ (by simp)
  intro d hd
  obtain ⟨r, hr, rfl⟩ := List.mem_map.1 hd
  exact h r (List.mem_filter.1 hr).1

theorem teamsArr_sorted (teams : List TeamRow) (results : List ResultRow)
    (hnan : ∀ t ∈ teams, doubleTotalOf t.id results ≠ Double.nan) :
    (teamsArr teams results).Pairwise
      (fun a b => Double.le b.totalPoints a.totalPoints = true) := by
  have hP : ∀ a ∈ teamsArr teams results,
      a.totalPoints.Valid ∧ a.totalPoints ≠ Double.nan := by
    intro a ha
    obtain ⟨⟨t, ht, ht1, _⟩, hsum, _, _⟩ := mem_teamsArr teams results a ha
    rw [hsum]
    exact ⟨doubleSum_valid _, by rw [ht1]; exact hnan t ht⟩
  have hP' : ∀ a ∈ mapValues (results.foldl applyResult (initTeamMap teams)),
      a.totalPoints.Valid ∧ a.totalPoints ≠ Double.nan :=
    fun a ha => hP a ((sort_perm byTotalDesc _).mem_iff.2 ha)
  have hiff : ∀ a b : TeamAcc, (a.totalPoints.Valid ∧ a.totalPoints ≠ Double.nan) →
      (b.totalPoints.Valid ∧ b.totalPoints ≠ Double.nan) →
      ((byTotalDesc a b).isPositive = false ↔ Double.le b.totalPoints a.totalPoints = true) :=
    fun a b ha hb => sub_isPositive_eq_false a.totalPoints b.totalPoints ha.1 hb.1 ha.2 hb.2
  have hsorted := insertionSort_sorted_of
    (fun a b : TeamAcc => (byTotalDesc a b).isPositive = false)
    (fun a => a.totalPoints.Valid ∧ a.totalPoints ≠ Double.nan)
    (fun a b ha hb => by
      rcases double_le_total b.totalPoints a.totalPoints hb.2 ha.2 with h | h
      · exact Or.inl ((hiff a b ha hb).2 h)
      · exact Or.inr ((hiff b a hb ha).2 h))
    (fun a b c ha hb hc hab hbc =>
      (hiff a c ha hc).2 (double_le_trans _ _ _ ((hiff b c hb hc).1 hbc)
        ((hiff a b ha hb).1 hab)))
    (mapValues (results.foldl applyResult (initTeamMap teams))) hP'
  have hs : (teamsArr teams results).Pairwise
      (fun a b : TeamAcc => (byTotalDesc a b).isPositive = false) := hsorted
  exact hs.imp_of_mem (fun {a b} ha hb hab => (hiff a b (hP a ha) (hP b hb)).1 hab)

/-- C8. When no team's total is a `NaN`, as is the case when the points of the records
are finite, the summaries are in non-increasing order of `totalPoints`; they are the teams
of the list, each once, when the team ids are distinct; and for every value of
`totalPoints` the teams with that total appear among the summaries in the order of the
team list. -/
theorem fetchCompetitionResults_sorted (teams : List TeamRow) (results : List ResultRow) :
    (FinitePoints results → ∀ t ∈ teams, doubleTotalOf t.id results ≠ Double.nan) ∧
    ((∀ t ∈ teams, doubleTotalOf t.id results ≠ Double.nan) →
      (fetchCompetitionResults teams results).Pairwise
          (fun a b => Double.le b.totalPoints a.totalPoints = true) ∧
        ((teams.map (fun t => t.id)).Nodup →
          ((fetchCompetitionResults teams results).map (fun s => s.teamId)).Perm
              (teams.map (fun t => t.id)) ∧
            ∀ v : Double,
              ((fetchCompetitionResults teams results).filter
                  (fun s => decide (s.totalPoints = v))).map (fun s => s.teamId) =
                (teams.filter (fun t => decide (doubleTotalOf t.id results = v))).map
                  (fun t => t.id))) := by
  refine ⟨fun hfin t _ => doubleTotalOf_ne_nan t.id results hfin, ?_⟩
  intro hnan
  constructor
  · unfold fetchCompetitionResults
    rw [List.pairwise_map]
    exact teamsArr_sorted teams results hnan
  · intro hnd
    constructor
    · rw [fetch_map_teamId]
      have := (teamsArr_perm teams results).map (fun a => a.teamId)
      rw [List.map_map, initTeamMap_of_nodup teams hnd, List.map_map] at this
      exact this
    · intro v
      have hfil : (fetchCompetitionResults teams results).filter
          (fun s => decide (s.totalPoints = v)) =
          ((teamsArr teams results).filter (fun a => decide (a.totalPoints = v))).map
            (fun t => ({
              teamId := t.teamId, name := t.name, totalPoints := t.totalPoints,
              starts := t.starts, results := t.results,
              pointsPerStart := pointsPerStart t.totalPoints t.starts } : TeamSummary)) := by
        unfold fetchCompetitionResults
        rw [List.filter_map]
        rfl
      rw [hfil, List.map_map]
      unfold teamsArr
      rw [sort_filter_eq, finalMap_values, initTeamMap_of_nodup teams hnd, List.map_map,
        List.filter_map, List.map_map]
      · rfl
      · intro a _ b _ ha hb
        simp only [decide_eq_true_eq] at ha hb
        unfold byTotalDesc
        rw [ha, hb]
        exact sub_self_not_positive v

/-- Witness of C8 on the sample teams: teams 7 and 9 both have 0 points and keep the
order of the team list behind team 8. -/
theorem fetchCompetitionResults_sorted_witness :
    (∀ t ∈ sampleTeams, doubleTotalOf t.id sampleResults ≠ Double.nan) ∧
      (sampleTeams.map (fun t => t.id)).Nodup ∧
      ((fetchCompetitionResults sampleTeams sampleResults).filter
          (fun s => decide (s.totalPoints = Double.fin 0))).map (fun s => s.teamId) = [7, 9] ∧
      (fetchCompetitionResults sampleTeams sampleResults).map (fun s => s.teamId) =
        [8, 7, 9] :=
  ⟨by decide!, by decide,
    ((((fetchCompetitionResults_sorted sampleTeams sampleResults).2 (by decide!)).2
      (by decide)).2 (Double.fin 0)).trans (by decide!),
    by decide!⟩

/-! ## Points per start: claim C9 -/

theorem sample_summaries :
    fetchCompetitionResults sampleTeams sampleResults =
      [sampleSummary,
       { teamId := 7, name := some "State University".toList, totalPoints := Double.fin 0,
         starts := 0, results := [], pointsPerStart := Double.fin 0 },
       { teamId := 9, name := some "Hill Academy".toList, totalPoints := Double.fin 0,
         starts := 1, results := [sampleResult 2 (some 9) none],
         pointsPerStart := Double.fin 0 }] := by
  decide!

/-- C9 (as amended). A summary without starts has `pointsPerStart` 0. A summary with at
least one start whose total is `p / q` in lowest terms with `|p|` below `2 ^ 53 / 2000`
(for an integer total, `p` is the total) has a `pointsPerStart` that is a whole number of
thousandths within half a thousandth of `totalPoints / starts`. The team with results of
5, 3 and 2 points has `totalPoints` 10, `starts` 3 and `pointsPerStart` 3.333. -/
theorem fetchCompetitionResults_pointsPerStart (teams : List TeamRow)
    (results : List ResultRow) (s : TeamSummary)
    (hs : s ∈ fetchCompetitionResults teams results) :
    (s.starts = 0 → s.pointsPerStart = Double.fin 0) ∧
      (∀ t : ℚ, s.totalPoints = Double.fin t → 0 < s.starts → 2000 * |t.num| < 2 ^ 53 →
        ∃ n : ℤ, s.pointsPerStart = Double.fin ((n : ℚ) / 1000) ∧
          |(n : ℚ) / 1000 - t / s.starts| ≤ 1 / 2000) ∧
      (∀ z : ℤ, s.totalPoints = Double.fin z → 0 < s.starts → 2000 * |z| < 2 ^ 53 →
        ∃ n : ℤ, s.pointsPerStart = Double.fin ((n : ℚ) / 1000) ∧
          |(n : ℚ) / 1000 - (z : ℚ) / s.starts| ≤ 1 / 2000) ∧
      (fetchCompetitionResults sampleTeams sampleResults).map
          (fun t => (t.teamId, t.totalPoints, t.starts, t.pointsPerStart)) =
        [(8, Double.fin 10, 3, Double.fin (3333 / 1000)), (7, Double.fin 0, 0, Double.fin 0),
         (9, Double.fin 0, 1, Double.fin 0)] := by
  obtain ⟨a, _, _, _, h3, h4, _, h6⟩ := mem_fetch teams results s hs
  rw [h6, h3, h4]
  refine ⟨?_, ?_, ?_, ?_⟩
  · intro h0
    rw [h0]
    exact pointsPerStart_zero _
  · intro t ht hpos hb
    rw [ht]
    exact pointsPerStart_nearest t a.starts hpos hb
  · intro z hz hpos hb
    rw [hz]
    exact pointsPerStart_nearest (z : ℚ) a.starts hpos (by rw [Rat.num_intCast]; exact hb)
  · rw [sample_summaries]
    rfl

/-- Witness of C9: the summary of team 8 of the sample results. -/
theorem fetchCompetitionResults_pointsPerStart_witness :
    sampleSummary ∈ fetchCompetitionResults sampleTeams sampleResults ∧
      sampleSummary.totalPoints = Double.fin ((10 : ℤ) : ℚ) ∧
      0 < sampleSummary.starts ∧ 2000 * |(10 : ℤ)| < 2 ^ 53 ∧
      ∃ n : ℤ, sampleSummary.pointsPerStart = Double.fin ((n : ℚ) / 1000) ∧
        |(n : ℚ) / 1000 - ((10 : ℤ) : ℚ) / sampleSummary.starts| ≤ 1 / 2000 :=
  ⟨by rw [sample_summaries]; exact List.mem_cons_self _ _, by decide!, by decide, by decide,
    (fetchCompetitionResults_pointsPerStart sampleTeams sampleResults sampleSummary
      (by rw [sample_summaries]; exact List.mem_cons_self _ _)).2.2.1 10 (by decide!)
        (by decide) (by decide)⟩

/-- Counterexample to C9 as stated: a team with results of 26388279066623, 1 and 1 points
has the total 26388279066625 in 3 starts; the quotient is 8796093022208.333..., and
`pointsPerStart` is 8796093022208.334, two thirds of a thousandth away from it. -/
theorem pointsPerStart_counterexample :
    (fetchCompetitionResults [{ id := 7, name := some "State University".toList }]
        largeResults).map (fun t => (t.totalPoints, t.starts, t.pointsPerStart)) =
        [(Double.fin 26388279066625, 3, Double.fin (8796093022208334 / 1000))] ∧
      |(8796093022208334 / 1000 : ℚ) - (26388279066625 : ℚ) / 3| = 1 / 1500 ∧
      |(8796093022208333 / 1000 : ℚ) - (26388279066625 : ℚ) / 3| = 1 / 3000 := by
  refine ⟨by decide!, ?_, ?_⟩
  · rw [abs_of_pos (by norm_num)]
    norm_num
  · rw [abs_of_neg (by norm_num)]
    norm_num

/-! ## Entries of a known team: claim C11 -/

theorem mapGet_buildSkaterMap_isSome (u : Str) :
    ∀ (skaters : List SkaterRow) (m : List (Str × SkaterRef)),
      (mapGet (skaters.foldl
          (fun m s => mapSet m s.name { skaterId := s.id, name := s.name }) m) u).isSome =
        ((mapGet m u).isSome || decide (∃ s ∈ skaters, s.name = u))
  | [], m => by simp
  | s :: ss, m => by
    rw [List.foldl_cons, mapGet_buildSkaterMap_isSome u ss, mapGet_mapSet]
    by_cases h : u = s.name
    · simp [h]
    · simp [h, Ne.symm h]

theorem mapGet_buildSkaterMap_none (skaters : List SkaterRow) (u : Str)
    (h : ∀ s ∈ skaters, s.name ≠ u) : mapGet (buildSkaterMap skaters) u = none := by
  have hs := mapGet_buildSkaterMap_isSome u skaters []
  have hno : ¬ ∃ s ∈ skaters, s.name = u := by
    rintro ⟨s, hs, hu⟩
    exact h s hs hu
  have hfalse : (mapGet (buildSkaterMap skaters) u).isSome = false := by
    unfold buildSkaterMap
    rw [hs]
    simp [mapGet, hno]
  cases hg : mapGet (buildSkaterMap skaters) u with
  | none => rfl
  | some v => simp [hg] at hfalse

theorem teamOf_isSome_of_known (w : World) (e : Entry) (h : KnownTeam w e) :
    (teamOf (buildTeamMap w.teams) e).isNone = false := by
  have hsome := (teamOf_isSome_iff w e).2 h
  cases hg : teamOf (buildTeamMap w.teams) e with
  | none => rw [hg] at hsome; exact absurd hsome (by simp)
  | some v => rfl

/-- An entry with a name and a known affiliation passes exactly the object below to
`insert`. -/
theorem processEntry_known (w : World) (g : Nat) (ev : Option EventRow)
    (sm : List (Str × SkaterRef)) (e : Entry) (hname : e.name ≠ []) (h : KnownTeam w e) :
    processEntry w g ev (buildTeamMap w.teams) sm e =
      some [
        ("event_id", match ev with
          | some ev => Val.str ev.name
          | none => Val.undefined),
        ("skater_id", match mapGet sm e.name with
          | some s => Val.num (JsNumber.int (s.skaterId : Int))
          | none => Val.undefined),
        ("placement", Val.num e.placement),
        ("group_size", Val.num (JsNumber.int (g : Int))),
        ("points", match pointLookup w.points e.placement g with
          | some r => Val.num (JsNumber.int r.points)
          | none => Val.undefined)] := by
  have hne : e.name.isEmpty = false := by
    cases hn : e.name with
    | nil => exact absurd hn hname
    | cons c cs => rfl
  unfold processEntry
  rw [hne, teamOf_isSome_of_known w e h]
  rfl

theorem processEntry_nameless (w : World) (g : Nat) (ev : Option EventRow)
    (tm : List (Option Str × TeamRef)) (sm : List (Str × SkaterRef)) (e : Entry)
    (hname : e.name = []) : processEntry w g ev tm sm e = none := by
  unfold processEntry
  rw [hname]
  rfl

theorem filterMap_eq_map_of_some {α β : Type} (f : α → Option β) (g : α → β) :
    ∀ l : List α, (∀ a ∈ l, f a = some (g a)) → l.filterMap f = l.map g
  | [], _ => rfl
  | a :: l, h => by
    rw [List.filterMap_cons, h a (List.mem_cons_self _ _), List.map_cons,
      filterMap_eq_map_of_some f g l (fun b hb => h b (List.mem_cons_of_mem _ hb))]

theorem toRow_no_skater (a c d e : Val) :
    ∀ kv ∈ Payload.toRow [("event_id", a), ("skater_id", Val.undefined), ("placement", c),
        ("group_size", d), ("points", e)], kv.1 ≠ "skater_id" := by
  intro kv hkv
  simp only [Payload.toRow, List.mem_map, List.mem_filter, List.mem_cons] at hkv
  obtain ⟨kv', ⟨hmem, hdef⟩, rfl⟩ := hkv
  rcases hmem with rfl | rfl | rfl | rfl | rfl | hnil
  · show "event_id" ≠ "skater_id"
    decide
  · simp at hdef
  · show "placement" ≠ "skater_id"
    decide
  · show "group_size" ≠ "skater_id"
    decide
  · show "points" ≠ "skater_id"
    decide
  · simp at hnil

/-- C11 (as amended). In a request that reached the insert loop, every parsed entry with a
non-empty competitor name whose affiliation is the name of a `Team` row passes exactly one
object to `insert`, also when its name is the name of no `Skater` row: the object then has
no `skater_id`. An entry with an empty name passes nothing, whatever its affiliation. The
objects passed to `insert` are those of the entries with a name and a known affiliation,
in order, and when the store refuses no insert, table `Result` grows by one row for each of
them. -/
theorem serve_inserts_known_team (w : World) (req : Request) (store : List Payload)
    (html : Str) (entries : List Entry) (hf : Fetched w req html)
    (hp : standingsParser (stripTags html) = some entries) :
    (∀ e ∈ entries, e.name ≠ [] → KnownTeam w e →
      ∃ p, processEntry w entries.length
          ((w.events.filter (fun ev => ev.name = req.event_name)).head?)
          (buildTeamMap w.teams) (buildSkaterMap w.skaters) e = some p ∧
        ((∀ s ∈ w.skaters, s.name ≠ e.name) →
          p.prop "skater_id" = Val.undefined ∧ ∀ kv ∈ p.toRow, kv.1 ≠ "skater_id")) ∧
      (∀ e ∈ entries, e.name = [] →
        processEntry w entries.length
          ((w.events.filter (fun ev => ev.name = req.event_name)).head?)
          (buildTeamMap w.teams) (buildSkaterMap w.skaters) e = none) ∧
      (serve w req store).inserts =
        (entries.filter (fun e => decide (e.name ≠ [] ∧ KnownTeam w e))).filterMap
          (processEntry w entries.length
            ((w.events.filter (fun ev => ev.name = req.event_name)).head?)
            (buildTeamMap w.teams) (buildSkaterMap w.skaters)) ∧
      (serve w req store).inserts.length =
        (entries.filter (fun e => decide (e.name ≠ [] ∧ KnownTeam w e))).length ∧
      ((∀ p, w.insertFails p = false) →
        (serve w req store).store =
            store ++ (serve w req store).inserts.map Payload.toRow ∧
          (serve w req store).store.length =
            store.length +
              (entries.filter (fun e => decide (e.name ≠ [] ∧ KnownTeam w e))).length) := by
  obtain ⟨_, h2, h3⟩ := serve_of_parsed w req store html entries hf hp
  have hins : (serve w req store).inserts =
      (entries.filter (fun e => decide (e.name ≠ [] ∧ KnownTeam w e))).filterMap
        (processEntry w entries.length
          ((w.events.filter (fun ev => ev.name = req.event_name)).head?)
          (buildTeamMap w.teams) (buildSkaterMap w.skaters)) := by
    rw [h2]
    apply filterMap_filter_of_none
    intro e he
    simp only [decide_eq_false_iff_not, not_and_or, not_not] at he
    rcases he with he | he
    · exact processEntry_nameless _ _ _ _ _ e he
    · exact processEntry_unknown w _ _ _ e he
  have hlen : (serve w req store).inserts.length =
      (entries.filter (fun e => decide (e.name ≠ [] ∧ KnownTeam w e))).length := by
    rw [hins, filterMap_eq_map_of_some _
      (fun e => (processEntry w entries.length
        ((w.events.filter (fun ev => ev.name = req.event_name)).head?)
        (buildTeamMap w.teams) (buildSkaterMap w.skaters) e).getD []), List.length_map]
    intro e he
    simp only [List.mem_filter, decide_eq_true_eq] at he
    rw [processEntry_known w _ _ _ e he.2.1 he.2.2]
    rfl
  refine ⟨?_, ?_, hins, hlen, ?_⟩
  · intro e _ hname hknown
    refine ⟨_, processEntry_known w _ _ _ e hname hknown, ?_⟩
    intro hno
    rw [mapGet_buildSkaterMap_none w.skaters e.name hno]
    exact ⟨rfl, toRow_no_skater _ _ _ _⟩
  · intro e _ hname
    exact processEntry_nameless _ _ _ _ _ e hname
  · intro hok
    have hfil : (serve w req store).inserts.filter (fun p => !w.insertFails p) =
        (serve w req store).inserts :=
      List.filter_eq_self.2 (fun p _ => by simp [hok p])
    rw [h3, hfil]
    refine ⟨rfl, ?_⟩
    rw [List.length_append, List.length_map, hlen]

/-- Witness of C11: `Ann Lee` of `State University` is no known skater, and her result is
inserted without a `skater_id`. -/
theorem serve_inserts_known_team_witness :
    Fetched (sampleWorld strangerPage samplePoints) sampleRequest strangerPage ∧
      standingsParser (stripTags strangerPage) =
        some [{ placement := JsNumber.int 2, name := "Ann Lee".toList,
                university := some "State University".toList }] ∧
      (serve (sampleWorld strangerPage samplePoints) sampleRequest []).inserts.length = 1 ∧
      (serve (sampleWorld strangerPage samplePoints) sampleRequest []).store =
        [[("event_id", Val.str "Senior Free Skate".toList),
          ("placement", Val.num (JsNumber.int 2)),
          ("group_size", Val.num (JsNumber.int 1))]] :=
  ⟨sample_fetched _ _, by decide,
    (serve_inserts_known_team (sampleWorld strangerPage samplePoints) sampleRequest []
      strangerPage
      [{ placement := JsNumber.int 2, name := "Ann Lee".toList,
         university := some "State University".toList }]
      (sample_fetched _ _) (by decide)).2.2.2.1.trans (by decide),
    by decide⟩

/-- Counterexample to C11 as stated: the entry of the line `3. , State University` has the
affiliation of a known team and an empty name, and nothing is inserted for it. -/
theorem serve_nameless_counterexample :
    standingsParser (stripTags namelessPage) =
        some [{ placement := JsNumber.int 3, name := [],
                university := some "State University".toList }] ∧
      KnownTeam (sampleWorld namelessPage samplePoints)
        { placement := JsNumber.int 3, name := [],
          university := some "State University".toList } ∧
      (serve (sampleWorld namelessPage samplePoints) sampleRequest []).response.status = 200 ∧
      (serve (sampleWorld namelessPage samplePoints) sampleRequest []).inserts = [] ∧
      (serve (sampleWorld namelessPage samplePoints) sampleRequest []).store = [] := by
  decide

/-! ## The placement of an entry: claim C12 -/

theorem roundToDouble_cases (n : Nat) :
    roundToDouble n = JsNumber.infinity ∨
      ∃ m : Nat, roundToDouble n = JsNumber.int (m : Int) ∧ (m = 0 ↔ n = 0) := by
  unfold roundToDouble
  by_cases h : n < 2 ^ 53
  · rw [if_pos h]
    exact Or.inr ⟨n, rfl, Iff.rfl⟩
  · rw [if_neg h]
    simp only []
    have hn : 0 < n := by
      have : 0 < 2 ^ 53 := by norm_num
      omega
    obtain ⟨h1, _⟩ := log2_spec n hn
    have hpow : 2 ^ (log2 n - 52) ≤ 2 ^ log2 n :=
      Nat.pow_le_pow_right (by norm_num) (Nat.sub_le _ _)
    have hq : 1 ≤ n / 2 ^ (log2 n - 52) :=
      (Nat.one_le_div_iff (by positivity)).2 (le_trans hpow h1)
    have hpos : 0 < 2 ^ (log2 n - 52) := by positivity
    have hM : ∀ M : Nat, 1 ≤ M →
        ((if log2 (M * 2 ^ (log2 n - 52)) < 1024 then
            JsNumber.int ((M * 2 ^ (log2 n - 52) : Nat) : Int)
          else JsNumber.infinity) = JsNumber.infinity ∨
          ∃ m : Nat, (if log2 (M * 2 ^ (log2 n - 52)) < 1024 then
              JsNumber.int ((M * 2 ^ (log2 n - 52) : Nat) : Int)
            else JsNumber.infinity) = JsNumber.int (m : Int) ∧ (m = 0 ↔ n = 0)) := by
      intro M hM1
      by_cases hlog : log2 (M * 2 ^ (log2 n - 52)) < 1024
      · rw [if_pos hlog]
        refine Or.inr ⟨_, rfl, ?_⟩
        have : 0 < M * 2 ^ (log2 n - 52) := Nat.mul_pos hM1 hpos
        constructor <;> intro h0 <;> omega
      · rw [if_neg hlog]
        exact Or.inl rfl
    apply hM
    split_ifs <;> omega

theorem standingsParser_entries_of (text : Str) (entries : List Entry)
    (h : standingsParser text = some entries) :
    ∀ e ∈ entries, ∃ l, IsRankedLine l ∧ e = parseLine l := by
  unfold standingsParser at h
  simp only [] at h
  split at h
  · exact absurd h (by simp)
  · simp only [Option.some.injEq] at h
    subst h
    intro e he
    rw [rankedLines_eq, List.mem_map] at he
    obtain ⟨l, hl, rfl⟩ := he
    exact ⟨l, mem_rankedLines hl, rfl⟩

/-- C12 (as amended). Every entry returned by the parser comes from a ranked line, and its
placement is the double nearest to the line's leading integer: a non-negative integer or
`Infinity`. The placement is 0 exactly when the leading integer is 0, so it is at least 1
for every line whose leading digits are not all zeros. -/
theorem standingsParser_placement_range (text : Str) (entries : List Entry)
    (h : standingsParser text = some entries) :
    ∀ e ∈ entries, ∃ l, IsRankedLine l ∧ e = parseLine l ∧
      (e.placement = JsNumber.infinity ∨
        ∃ m : Nat, e.placement = JsNumber.int (m : Int) ∧
          (m = 0 ↔ leadingInteger l = 0) ∧ (1 ≤ leadingInteger l → 1 ≤ m)) := by
  intro e he
  obtain ⟨l, hl, rfl⟩ := standingsParser_entries_of text entries h e he
  refine ⟨l, hl, rfl, ?_⟩
  rw [parseLine_placement l hl]
  rcases roundToDouble_cases (leadingInteger l) with hinf | ⟨m, hm, hz⟩
  · exact Or.inl hinf
  · refine Or.inr ⟨m, hm, hz, ?_⟩
    intro h1
    by_contra hm0
    have : m = 0 := by omega
    have := hz.1 this
    omega

/-- Witness of C12 on the sample page: its entries have the placements 1 and 3. -/
theorem standingsParser_placement_range_witness :
    standingsParser (stripTags samplePage) =
        some [{ placement := JsNumber.int 1, name := "Ann Lee".toList,
                university := some "Lake College".toList },
              { placement := JsNumber.int 3, name := "Jane Doe".toList,
                university := some "State University".toList }] ∧
      ∃ l, IsRankedLine l ∧
        ({ placement := JsNumber.int 3, name := "Jane Doe".toList,
           university := some "State University".toList } : Entry) = parseLine l :=
  ⟨by decide, by
    obtain ⟨l, hl, he, _⟩ := standingsParser_placement_range (stripTags samplePage) _
      (by decide : standingsParser (stripTags samplePage) =
        some [{ placement := JsNumber.int 1, name := "Ann Lee".toList,
                university := some "Lake College".toList },
              { placement := JsNumber.int 3, name := "Jane Doe".toList,
                university := some "State University".toList }])
      { placement := JsNumber.int 3, name := "Jane Doe".toList,
        university := some "State University".toList } (by decide)
    exact ⟨l, hl, he⟩⟩

/-- Counterexample to C12 as stated: the line `0. Ann Lee, Lake College` is a ranked line
and its entry has placement 0. -/
theorem standingsParser_placement_zero_counterexample :
    standingsParser "Final Standings\n0. Ann Lee, Lake College".toList =
      some [{ placement := JsNumber.int 0, name := "Ann Lee".toList,
              university := some "Lake College".toList }] := by
  decide

/-! ## Sheet names: claim C13 -/

theorem slice_zero_31 (n : Str) : slice n 0 (some 31) = n.take 31 := by
  have h0 : clampIndex n.length 0 = 0 := by simp [clampIndex]
  have h31 : clampIndex n.length 31 = min 31 n.length := by
    have : ¬ ((31 : Int) < 0) := by decide
    simp [clampIndex]
  simp only [slice, h0, h31, List.drop_zero, Nat.sub_zero]
  rcases Nat.le_total 31 n.length with h | h
  · rw [Nat.min_eq_left h]
  · rw [Nat.min_eq_right h, List.take_of_length_le (le_refl _), List.take_of_length_le h]

/-- A team with a non-empty name gets the first 31 characters of its name as sheet name;
a team with an empty name or none gets `Team` and its id, of any length. -/
theorem sheetName_cases (name : Option Str) (teamIdText : Option Str) :
    (∀ n, name = some n → n ≠ [] →
      sheetName name teamIdText = n.take 31 ∧ (sheetName name teamIdText).length ≤ 31) ∧
    ((name = none ∨ name = some []) →
      sheetName name teamIdText = "Team ".toList ++ teamIdText.getD "?".toList ∧
        (sheetName name teamIdText).length = 5 + (teamIdText.getD "?".toList).length) := by
  constructor
  · intro n hn hne
    subst hn
    have hcut : (n.take 31).isEmpty = false := by
      cases n with
      | nil => exact absurd rfl hne
      | cons c cs => rfl
    have : sheetName (some n) teamIdText = n.take 31 := by
      simp only [sheetName, Option.map_some', slice_zero_31, hcut]
      rfl
    rw [this]
    exact ⟨rfl, by rw [List.length_take]; exact Nat.min_le_left _ _⟩
  · intro h
    have : sheetName name teamIdText = "Team ".toList ++ teamIdText.getD "?".toList := by
      rcases h with h | h
      · subst h
        rfl
      · subst h
        rfl
    rw [this, List.length_append]
    exact ⟨rfl, rfl⟩

/-- C13 (the code at the failing input). In a store whose team ids are UUIDs, a team
with an empty name gets the sheet name `Team` followed by its id, 41 characters, while a
team with a long name gets the first 31 characters of its name. -/
theorem sheetNames_unnamed_team :
    (uuidText 7).length = 36 ∧
      (sheetNames uuidText
          (fetchCompetitionResults
            [{ id := 7, name := some [] },
             { id := 8,
               name := some "The Intercollegiate Skating Club of Lake College".toList }]
            [])).map (fun s => (s, s.length)) =
        [("Team 3f2504e0-4f89-41d3-9a0c-0305e82c1007".toList, 41),
         ("The Intercollegiate Skating Clu".toList, 31)] := by
  decide!

/-! ## Running the handler twice: claim C14 -/

/-- The response and the objects passed to `insert` do not depend on table `Result`, and
the table grows by the rows of the accepted objects. -/
theorem serve_normal_form (w : World) (req : Request) :
    ∃ (resp : Response) (ins : List Payload), ∀ S : List Payload,
      serve w req S =
        { response := resp, inserts := ins,
          store := S ++ (ins.filter (fun p => !w.insertFails p)).map Payload.toRow } := by
  by_cases hm : req.method = "OPTIONS".toList
  · exact ⟨{ status := 200, body := Body.empty }, [], fun S => by
      simp only [serve, hm, if_true, List.filter_nil, List.map_nil, List.append_nil]⟩
  · cases hu : req.url with
    | none =>
      exact ⟨{ status := 400, body := Body.error "Missing url".toList }, [], fun S => by
        simp only [serve, hm, hu, if_false, List.filter_nil, List.map_nil, List.append_nil]⟩
    | some url =>
      by_cases he : url.isEmpty = true
      · exact ⟨{ status := 400, body := Body.error "Missing url".toList }, [], fun S => by
          simp only [serve, hm, hu, he, if_false, if_true, List.filter_nil, List.map_nil,
            List.append_nil]⟩
      · have he' : url.isEmpty = false := by simpa using he
        cases hfetch : w.fetch url with
        | error message =>
          exact ⟨{ status := 500, body := Body.error message }, [], fun S => by
            simp only [serve, hm, hu, he', hfetch, if_false, List.filter_nil, List.map_nil,
              List.append_nil, Bool.false_eq_true]⟩
        | ok html =>
          cases hparse : standingsParser (stripTags html) with
          | none =>
            exact ⟨{ status := 400, body := Body.error "Standings not found".toList }, [],
              fun S => by
                simp only [serve, hm, hu, he', hfetch, hparse, if_false, List.filter_nil,
                  List.map_nil, List.append_nil, Bool.false_eq_true]⟩
          | some entries =>
            refine ⟨{ status := 200, body := Body.success entries.length entries },
              entries.filterMap (processEntry w entries.length
                ((w.events.filter (fun ev => ev.name = req.event_name)).head?)
                (buildTeamMap w.teams) (buildSkaterMap w.skaters)), fun S => ?_⟩
            simp only [serve, hm, hu, he', hfetch, hparse, if_false, insertLoop_inserts,
              insertLoop_store, List.nil_append, Bool.false_eq_true]

/-- C14. Running the handler a second time with the same request and the same
collaborators, on the table the first run left, gives the same response and passes the
same objects to `insert`; the table then holds the rows inserted by the first run twice
behind its former rows. -/
theorem serve_twice (w : World) (req : Request) (S : List Payload) :
    (serve w req (serve w req S).store).response = (serve w req S).response ∧
      (serve w req (serve w req S).store).inserts = (serve w req S).inserts ∧
      (serve w req S).store =
        S ++ ((serve w req S).inserts.filter (fun p => !w.insertFails p)).map Payload.toRow ∧
      (serve w req (serve w req S).store).store =
        S ++ ((serve w req S).inserts.filter (fun p => !w.insertFails p)).map Payload.toRow ++
          ((serve w req S).inserts.filter (fun p => !w.insertFails p)).map Payload.toRow := by
  obtain ⟨resp, ins, h⟩ := serve_normal_form w req
  rw [h (serve w req S).store, h S]
  exact ⟨rfl, rfl, rfl, rfl⟩

/-- Witness of C14 on the sample page: after two runs on an empty table the row of
`Jane Doe` is there twice. -/
theorem serve_twice_witness :
    (serve (sampleWorld samplePage samplePoints) sampleRequest []).store =
        [[("event_id", Val.str "Senior Free Skate".toList),
          ("skater_id", Val.num (JsNumber.int 3)),
          ("placement", Val.num (JsNumber.int 3)),
          ("group_size", Val.num (JsNumber.int 2))]] ∧
      (serve (sampleWorld samplePage samplePoints) sampleRequest
          (serve (sampleWorld samplePage samplePoints) sampleRequest []).store).store =
        [[("event_id", Val.str "Senior Free Skate".toList),
          ("skater_id", Val.num (JsNumber.int 3)),
          ("placement", Val.num (JsNumber.int 3)),
          ("group_size", Val.num (JsNumber.int 2))],
         [("event_id", Val.str "Senior Free Skate".toList),
          ("skater_id", Val.num (JsNumber.int 3)),
          ("placement", Val.num (JsNumber.int 3)),
          ("group_size", Val.num (JsNumber.int 2))]] :=
  ⟨by decide,
    (serve_twice (sampleWorld samplePage samplePoints) sampleRequest []).2.2.2.trans
      (by decide)⟩

/-! ## The response of a successful request: claim C15 -/

theorem standingsParser_isSome (text : Str) (h : startAnchor <:+: text) :
    ∃ entries, standingsParser text = some entries := by
  obtain ⟨i, hi⟩ := exists_firstAt_of_infix h
  by_cases hend : endAnchor <:+: text
  · obtain ⟨j, hj⟩ := exists_firstAt_of_infix hend
    exact ⟨_, standingsParser_of_block text _ i hi (Or.inl ⟨j, hj, rfl⟩)⟩
  · exact ⟨_, standingsParser_of_block text _ i hi (Or.inr ⟨hend, rfl⟩)⟩

theorem processEntry_insertFails (w : World) (fails : Payload → Bool) (g : Nat)
    (ev : Option EventRow) (tm : List (Option Str × TeamRef)) (sm : List (Str × SkaterRef))
    (e : Entry) :
    processEntry { w with insertFails := fails } g ev tm sm e = processEntry w g ev tm sm e :=
  rfl

/-- C15. When the url is given, the page was fetched and its flattened text contains
`Final Standings`, the response has status 200 and carries all parsed entries and their
number as group size. Which inserts the store refuses changes neither the response nor the
objects passed to `insert`: every entry is processed, and table `Result` grows by the rows
of the accepted objects, also of those that come after a refused one. -/
theorem serve_reports_parsed_entries (w : World) (req : Request) (S : List Payload)
    (html : Str) (hf : Fetched w req html) (hstart : startAnchor <:+: stripTags html) :
    ∃ entries : List Entry,
      standingsParser (stripTags html) = some entries ∧
      (serve w req S).response =
        { status := 200, body := Body.success entries.length entries } ∧
      (∀ fails : Payload → Bool,
        (serve { w with insertFails := fails } req S).response = (serve w req S).response ∧
        (serve { w with insertFails := fails } req S).inserts = (serve w req S).inserts ∧
        (serve { w with insertFails := fails } req S).store =
          S ++ ((serve w req S).inserts.filter (fun p => !fails p)).map Payload.toRow) := by
  obtain ⟨entries, hp⟩ := standingsParser_isSome (stripTags html) hstart
  obtain ⟨h1, h2, _⟩ := serve_of_parsed w req S html entries hf hp
  refine ⟨entries, hp, h1, ?_⟩
  intro fails
  have hf' : Fetched { w with insertFails := fails } req html := hf
  obtain ⟨h1', h2', h3'⟩ :=
    serve_of_parsed { w with insertFails := fails } req S html entries hf' hp
  have hins : (serve { w with insertFails := fails } req S).inserts =
      (serve w req S).inserts := by
    rw [h2', h2]
    rfl
  refine ⟨by rw [h1', h1], hins, ?_⟩
  rw [h3', hins]

/-- Witness of C15: on the sample page with a store that refuses every insert, the
response still carries both entries. -/
theorem serve_reports_parsed_entries_witness :
    Fetched (sampleWorld samplePage samplePoints) sampleRequest samplePage ∧
      startAnchor <:+: stripTags samplePage ∧
      (serve { sampleWorld samplePage samplePoints with insertFails := fun _ => true }
          sampleRequest []).response =
        (serve (sampleWorld samplePage samplePoints) sampleRequest []).response ∧
      (serve (sampleWorld samplePage samplePoints) sampleRequest []).response =
        { status := 200,
          body := Body.success 2
            [{ placement := JsNumber.int 1, name := "Ann Lee".toList,
               university := some "Lake College".toList },
             { placement := JsNumber.int 3, name := "Jane Doe".toList,
               university := some "State University".toList }] } :=
  ⟨sample_fetched _ _, by decide, by
    obtain ⟨entries, _, _, h⟩ := serve_reports_parsed_entries
      (sampleWorld samplePage samplePoints) sampleRequest [] samplePage
      (sample_fetched _ _) (by decide)
    exact (h (fun _ => true)).1, by decide⟩

/-! ## Officials before standings: claim C16 -/

/-- C16. When the first occurrence of `Panel of Officials` in the flattened text lies
before the first occurrence of `Final Standings`, the parser returns no entry, whatever
follows the start anchor: the response has status 200 with group size 0 and no entries,
nothing is passed to `insert` and table `Result` is unchanged. -/
theorem standingsParser_officials_first (text : Str) (i j : Nat)
    (hi : FirstAt startAnchor text i) (hj : FirstAt endAnchor text j) (hlt : j < i) :
    standingsParser text = some [] ∧
      ∀ (w : World) (req : Request) (S : List Payload) (html : Str),
        Fetched w req html → stripTags html = text →
          (serve w req S).response = { status := 200, body := Body.success 0 [] } ∧
            (serve w req S).inserts = [] ∧ (serve w req S).store = S := by
  have hp : standingsParser text = some [] := by
    have h := standingsParser_of_block text ((text.drop i).take (j - i)) i hi
      (Or.inl ⟨j, hj, rfl⟩)
    have h0 : j - i = 0 := by omega
    rw [h0, List.take_zero] at h
    rw [h]
    decide
  refine ⟨hp, ?_⟩
  intro w req S html hf htext
  rw [← htext] at hp
  obtain ⟨h1, h2, h3⟩ := serve_of_parsed w req S html [] hf hp
  refine ⟨h1, by rw [h2]; rfl, ?_⟩
  rw [h3, h2]
  simp

/-- Witness of C16: on a page that lists the officials first, the ranked line behind the
start anchor yields no entry. -/
theorem standingsParser_officials_first_witness :
    FirstAt startAnchor (stripTags officialsFirstPage) 33 ∧
      FirstAt endAnchor (stripTags officialsFirstPage) 1 ∧
      standingsParser (stripTags officialsFirstPage) = some [] ∧
      (serve (sampleWorld officialsFirstPage samplePoints) sampleRequest []).response =
        { status := 200, body := Body.success 0 [] } :=
  ⟨by decide, by decide,
    (standingsParser_officials_first (stripTags officialsFirstPage) 33 1 (by decide)
      (by decide) (by decide)).1,
    ((standingsParser_officials_first (stripTags officialsFirstPage) 33 1 (by decide)
      (by decide) (by decide)).2 (sampleWorld officialsFirstPage samplePoints) sampleRequest []
        officialsFirstPage (sample_fetched _ _) rfl).1⟩

/-! ## Records without points: claim C17 -/

theorem recordsOf_insert (k : Nat) (before after : List ResultRow) (r : ResultRow)
    (hk : r.team_id = some k) :
    recordsOf k (before ++ r :: after) =
      recordsOf k before ++ r :: recordsOf k after := by
  simp [recordsOf, List.filter_append, List.filter_cons, hk]

theorem recordsOf_append (k : Nat) (before after : List ResultRow) :
    recordsOf k (before ++ after) = recordsOf k before ++ recordsOf k after := by
  simp [recordsOf, List.filter_append]

/-- A record without points leaves the double sum of its team as it is and adds one
record. -/
theorem doubleTotalOf_insert_null (k : Nat) (before after : List ResultRow) (r : ResultRow)
    (hk : r.team_id = some k) (hnull : r.points = none) :
    doubleTotalOf k (before ++ r :: after) = doubleTotalOf k (before ++ after) ∧
      (recordsOf k (before ++ r :: after)).length =
        (recordsOf k (before ++ after)).length + 1 := by
  have hp : pointsNumber r = Double.fin 0 := by simp [pointsNumber, hnull]
  unfold doubleTotalOf doubleSum
  rw [recordsOf_insert k before after r hk, recordsOf_append]
  have hvalid : (List.foldl Double.add (Double.fin 0)
      ((recordsOf k before).map pointsNumber)).Valid :=
    doubleSum_valid _
  constructor
  · rw [List.map_append, List.map_cons, List.foldl_append, List.foldl_cons, hp,
      add_zero_of_valid _ hvalid, List.map_append, List.foldl_append]
  · simp
    omega

/-- C17 (as amended). A record without points of team `k` leaves the team's
`totalPoints` as it is without the record and raises its `starts` by one, wherever the
record stands among the results; `pointsPerStart` is computed with the raised `starts`.
For a total that is not negative and is `p / q` in lowest terms with `p` below
`2 ^ 53 / 2000` (for an integer total, `p` is the total) this does not raise
`pointsPerStart`, and for a total of 0 it leaves it at 0. -/
theorem fetchCompetitionResults_null_points (teams : List TeamRow)
    (before after : List ResultRow) (r : ResultRow) (k : Nat)
    (hk : r.team_id = some k) (hnull : r.points = none) (s s' : TeamSummary)
    (hs : s ∈ fetchCompetitionResults teams (before ++ after))
    (hs' : s' ∈ fetchCompetitionResults teams (before ++ r :: after))
    (hsk : s.teamId = k) (hsk' : s'.teamId = k) :
    s'.totalPoints = s.totalPoints ∧
      s'.starts = s.starts + 1 ∧
      s'.pointsPerStart = pointsPerStart s.totalPoints (s.starts + 1) ∧
      (∀ t : ℚ, s.totalPoints = Double.fin t → 0 ≤ t → 2000 * |t.num| < 2 ^ 53 →
        Double.le s'.pointsPerStart s.pointsPerStart = true) ∧
      (s.totalPoints = Double.fin 0 →
        s'.pointsPerStart = Double.fin 0 ∧ s.pointsPerStart = Double.fin 0) := by
  obtain ⟨a, ha, h1, _, h3, h4, _, h6⟩ := mem_fetch teams _ s hs
  obtain ⟨a', ha', h1', _, h3', h4', _, h6'⟩ := mem_fetch teams _ s' hs'
  obtain ⟨_, ht, hst, _⟩ := mem_teamsArr teams _ a ha
  obtain ⟨_, ht', hst', _⟩ := mem_teamsArr teams _ a' ha'
  rw [← h1, hsk] at ht hst
  rw [← h1', hsk'] at ht' hst'
  obtain ⟨htot, hlen⟩ := doubleTotalOf_insert_null k before after r hk hnull
  have e1 : s'.totalPoints = s.totalPoints := by rw [h3', h3, ht', ht, htot]
  have e2 : s'.starts = s.starts + 1 := by rw [h4', h4, hst', hst, hlen]
  have e3 : s'.pointsPerStart = pointsPerStart s.totalPoints (s.starts + 1) := by
    rw [h6', ← h3', ← h4', e1, e2]
  have e4 : s.pointsPerStart = pointsPerStart s.totalPoints s.starts := by
    rw [h6, ← h3, ← h4]
  refine ⟨e1, e2, e3, ?_, ?_⟩
  · intro t htt hpos hb
    rw [e3, e4, htt]
    rcases Nat.eq_zero_or_pos s.starts with h0 | hposs
    · have hzero : s.totalPoints = Double.fin 0 := by
        rw [h3, ht]
        have hnone : recordsOf k (before ++ after) = [] := by
          apply List.eq_nil_of_length_eq_zero
          rw [← hst, ← h4, h0]
        simp [doubleTotalOf, doubleSum, hnone]
      rw [htt] at hzero
      rw [hzero, pointsPerStart_zero_total, pointsPerStart_zero_total]
      simp [Double.le]
    · exact pointsPerStart_antitone t s.starts hpos hposs hb
  · intro hzero
    rw [e3, e4, hzero, pointsPerStart_zero_total, pointsPerStart_zero_total]
    exact ⟨rfl, rfl⟩

theorem sample_summaries_without :
    fetchCompetitionResults sampleTeams sampleResultsWithout =
      [sampleSummary,
       { teamId := 7, name := some "State University".toList, totalPoints := Double.fin 0,
         starts := 0, results := [], pointsPerStart := Double.fin 0 },
       { teamId := 9, name := some "Hill Academy".toList, totalPoints := Double.fin 0,
         starts := 0, results := [], pointsPerStart := Double.fin 0 }] := by
  decide!

/-- Witness for C17: the record without points of team 9 in the sample results, put
between the first record and the other three. -/
theorem fetchCompetitionResults_null_points_witness :
    (sampleResult 2 (some 9) none).team_id = some 9 ∧
      (sampleResult 2 (some 9) none).points = none ∧
      ({ teamId := 9, name := some "Hill Academy".toList, totalPoints := Double.fin 0,
         starts := 1, results := [sampleResult 2 (some 9) none],
         pointsPerStart := Double.fin 0 } : TeamSummary).starts =
        ({ teamId := 9, name := some "Hill Academy".toList, totalPoints := Double.fin 0,
           starts := 0, results := [], pointsPerStart := Double.fin 0 } :
             TeamSummary).starts + 1 :=
  ⟨rfl, rfl,
    (fetchCompetitionResults_null_points sampleTeams [sampleResult 1 (some 8) (some 5)]
      [sampleResult 3 (some 8) (some 3), sampleResult 4 none (some 4),
        sampleResult 5 (some 8) (some 2)]
      (sampleResult 2 (some 9) none) 9 rfl rfl _ _
      (by
        show _ ∈ fetchCompetitionResults sampleTeams sampleResultsWithout
        rw [sample_summaries_without]
        exact List.mem_cons_of_mem _ (List.mem_cons_of_mem _ (List.mem_cons_self _ _)))
      (by
        show _ ∈ fetchCompetitionResults sampleTeams sampleResults
        rw [sample_summaries]
        exact List.mem_cons_of_mem _ (List.mem_cons_of_mem _ (List.mem_cons_self _ _)))
      rfl rfl).2.1⟩

/-- Counterexample to C17 as stated: team 9 has one record, without points. With the
record its summary has total 0, 1 start and `pointsPerStart` 0; without the record it has
total 0, 0 starts and `pointsPerStart` 0: the record does not lower `pointsPerStart`. -/
theorem null_points_not_lowered_counterexample :
    sampleResults = [sampleResult 1 (some 8) (some 5)] ++ sampleResult 2 (some 9) none ::
        [sampleResult 3 (some 8) (some 3), sampleResult 4 none (some 4),
          sampleResult 5 (some 8) (some 2)] ∧
      sampleResultsWithout = [sampleResult 1 (some 8) (some 5)] ++
        [sampleResult 3 (some 8) (some 3), sampleResult 4 none (some 4),
          sampleResult 5 (some 8) (some 2)] ∧
      (sampleResult 2 (some 9) none).team_id = some 9 ∧
      (sampleResult 2 (some 9) none).points = none ∧
      (fetchCompetitionResults sampleTeams sampleResults).map
          (fun t => (t.teamId, t.totalPoints, t.starts, t.pointsPerStart)) =
        [(8, Double.fin 10, 3, Double.fin (3333 / 1000)), (7, Double.fin 0, 0, Double.fin 0),
         (9, Double.fin 0, 1, Double.fin 0)] ∧
      (fetchCompetitionResults sampleTeams sampleResultsWithout).map
          (fun t => (t.teamId, t.totalPoints, t.starts, t.pointsPerStart)) =
        [(8, Double.fin 10, 3, Double.fin (3333 / 1000)), (7, Double.fin 0, 0, Double.fin 0),
         (9, Double.fin 0, 0, Double.fin 0)] := by
  refine ⟨rfl, rfl, rfl, rfl, ?_, ?_⟩
  · rw [sample_summaries]
    rfl
  · rw [sample_summaries_without]
    rfl

end FsEdge
